import Mathlib

/-!
# libunison `coopcast`: a shallow embedding of `internal/ida/coopcast/raptorq.go`

Conventions of the embedding.

* A Go `int`, `int64` or `time.Duration` value is an `Int`; a conversion to an unsigned
  machine type is an explicit remainder (`uint16 x` is `x % 2^16`, `byte x` is `x % 2^8`).
* A byte slice is a `List Nat` whose elements are below 256.
* A Go map that is only read and written by key is a function (a missing key reads as the
  zero value); a map that is also ranged over or measured with `len` is an association list.
* A run-time panic (slice bounds, nil interface call, division by zero) is `none`.
* The RaptorQ codec, SHA-1, the clock and the random source are external: they are taken as
  parameters. So are `math.Log2` and `math.Pow` of the standard library.
* A finite float32 or float64 value is the rational it denotes, and every arithmetic result
  is rounded to the format (`fl32`, `fl64`). Infinities and NaN are not values: a float64
  computation that reaches one is `none`.
* The declarations of `types.go` are not among the sources; the constants used by
  `raptorq.go` are the fields of `Consts`, except `hashSize`.
-/

namespace Coopcast

/-! ## Constants and data model -/

/-- Modelled from the spec: the constant `hashSize` is declared outside the given sources; the
spec fixes `hashSize = 20`, the length of a SHA-1 digest, and the layout comment of
`constructSymbolPacket` says `hashSize(20)`. -/
def hashSize : Nat := 20

/-- The remaining package constants used by `raptorq.go`; their values are deployment
parameters. `threshold` is the float32 threshold fraction, held as the rational it denotes. -/
structure Consts where
  symbolSize : Int
  normalChunkSize : Int
  threshold : ℚ
  cacheClearInterval : Int
  enforceClearInterval : Int
  stopBroadCastTime : Int
  udpCacheSize : Nat

/-- A peer, as built by `GetPeerInfo`. -/
structure Peer where
  Sid : Int
  IP : String
  TCPPort : String
  UDPPort : String
  PubKey : String
deriving DecidableEq, Repr

/-- A RaptorQ encoder object of the codec library: `SymbolSize()` and `Encode(0, esi, buf)`.
`Encode` yields the bytes it writes into the buffer of the caller, or fails. -/
structure Encoder where
  SymbolSize : Nat
  Encode : Nat → Option (List Nat)

/-- A RaptorQ decoder object of the codec library: the OTI words it was created from and the
symbols `Decode(0, esi, symbol)` has been called with, most recent first. -/
structure Decoder where
  commonOTI : Nat
  specificOTI : Nat
  fed : List (Nat × List Nat)
deriving DecidableEq, Repr

/-- The external collaborators of the package. -/
structure Lib where
  /-- Go `sha1.Sum` -/
  sha1 : List Nat → List Nat
  /-- Go `DefaultEncoderFactory().New(piece, T, minSubSymbolSize, WS, Al)` -/
  newEncoder : List Nat → Nat → Nat → Nat → Nat → Option Encoder
  /-- whether `DefaultDecoderFactory().New(commonOTI, specificOTI)` succeeds -/
  newDecoderOk : Nat → Nat → Bool
  /-- Go `Decoder.IsSourceObjectReady()` -/
  isSourceObjectReady : Decoder → Bool

/-- The per-blob state `RaptorQImpl`. -/
structure RaptorQImpl where
  threshold : Int := 0
  senderID : Int := 0
  rootHash : List Nat := []
  chunkSize : Int := 0
  numChunks : Int := 0
  numDecoded : Int := 0
  initTime : Int := 0
  successTime : Int := 0
  Encoder : Int → Option Encoder := fun _ => none
  Decoder : Int → Option Decoder := fun _ => none
  receivedSymbols : Int → Nat → Bool := fun _ _ => false
  stats : List (Int × ℚ) := []

/-- The node. `Cache` is ranged over by `clearCache`, so it is an association list. -/
structure Node where
  SelfPeer : Peer
  PeerList : List Peer
  AllPeers : List Peer
  Hop : Int
  Cache : List (List Nat × RaptorQImpl) := []
  SenderCache : List Nat → Bool := fun _ => false
  PeerDecodedCounter : List Nat → Int → Int := fun _ _ => 0

/-! ## float32 arithmetic used by the threshold -/

/-- Nearest integer to a rational, ties to even. -/
def roundHalfEven (q : ℚ) : Int :=
  if q - ⌊q⌋ < 1 / 2 then ⌊q⌋
  else if 1 / 2 < q - ⌊q⌋ then ⌊q⌋ + 1
  else if ⌊q⌋ % 2 = 0 then ⌊q⌋ else ⌊q⌋ + 1

/-- IEEE-754 binary32 rounding to nearest, ties to even, of a rational of magnitude below
`2^128`: 24 significant bits, least exponent `-126` (subnormals share the ulp `2^-149`). -/
def fl32 (x : ℚ) : ℚ :=
  if x = 0 then 0
  else (roundHalfEven (x / (2 : ℚ) ^ (max (Int.log 2 |x|) (-126) - 23)) : ℚ)
        * (2 : ℚ) ^ (max (Int.log 2 |x|) (-126) - 23)

/-- The conversion `int(f)` of a float: the fraction is discarded (truncation toward zero). -/
def truncToInt (q : ℚ) : Int := if 0 ≤ q then ⌊q⌋ else ⌈q⌉

/-- The expression `int(threshold * float32(len(node.AllPeers)))`. -/
def thresholdOf (cfg : Consts) (numPeers : Nat) : Int :=
  truncToInt (fl32 (fl32 cfg.threshold * fl32 (numPeers : ℚ)))

/-! ## `BroadCast` -/

/-- Go `convertToFixedSize`: the first `hashSize` bytes of the buffer. -/
def convertToFixedSize (buf : List Nat) : List Nat := buf.take hashSize

/-- Go `getRootHash`. -/
def getRootHash (lib : Lib) (msg : List Nat) : List Nat := lib.sha1 msg

/-- Lines 61-69 of `BroadCast`: the chunk count from `F = len(msg)` and `B = raptorq.chunkSize`.
`F % B` panics when `B = 0`. -/
def numChunksOf (F B : Int) : Option Int :=
  if F ≤ B then some 1
  else if B = 0 then none
  else if Int.tmod F B = 0 then some (Int.tdiv F B)
  else some (Int.tdiv F B + 1)

/-- The chunk ids `0, 1, ..., n - 1` visited by `for z := 0; z < n; z++`. -/
def chunkIds (n : Int) : List Int := (List.range n.toNat).map Int.ofNat

/-- What `BroadCast` returns and changes: the cancel handles (by chunk id), the new blob state
and the node with the hash marked in `SenderCache`. -/
structure BroadCastResult where
  cancels : List Int
  raptorq : RaptorQImpl
  node : Node

/-- Go `Node.BroadCast`, with `now` the reading of the clock. The producer goroutines it starts
(`broadCastEncodedSymbol`, one per chunk id in `cancels`) run after it returns. -/
def BroadCast (lib : Lib) (cfg : Consts) (node : Node) (msg : List Nat) (now : Int) :
    Option BroadCastResult :=
  let raptorq : RaptorQImpl :=
    { threshold := thresholdOf cfg node.AllPeers.length
      senderID := node.SelfPeer.Sid
      rootHash := getRootHash lib msg
      chunkSize := cfg.normalChunkSize
      initTime := now }
  let hashkey := convertToFixedSize raptorq.rootHash
  let node1 : Node :=
    { node with SenderCache := fun k => if k = hashkey then true else node.SenderCache k }
  match numChunksOf (msg.length : Int) raptorq.chunkSize with
  | none => none
  | some n =>
    some { cancels := chunkIds n
           raptorq := { raptorq with numChunks := n }
           node := node1 }

/-! ## Packet codec -/

/-- The conversion `byte(x)` of a Go `int`. -/
def byte (x : Int) : Nat := (x % 256).toNat

/-- The conversion `uint16(x)` of a Go `int`. -/
def uint16 (x : Int) : Nat := (x % 65536).toNat

/-- The conversion `uint32(x)` of a Go `int`. -/
def uint32 (x : Int) : Nat := (x % 4294967296).toNat

/-- Go `binary.BigEndian.PutUint16` into a fresh 2-byte slice. -/
def putUint16 (v : Nat) : List Nat := [v / 256 % 256, v % 256]

/-- Go `binary.BigEndian.PutUint32` into a fresh 4-byte slice. -/
def putUint32 (v : Nat) : List Nat :=
  [v / 16777216 % 256, v / 65536 % 256, v / 256 % 256, v % 256]

/-- Go `binary.BigEndian.PutUint64` into a fresh 8-byte slice. -/
def putUint64 (v : Nat) : List Nat :=
  [v / 72057594037927936 % 256, v / 281474976710656 % 256, v / 1099511627776 % 256,
   v / 4294967296 % 256, v / 16777216 % 256, v / 65536 % 256, v / 256 % 256, v % 256]

/-- The big-endian value of a byte string: `binary.BigEndian.Uint16/32/64` on a slice of
exactly 2, 4 or 8 bytes. -/
def beUint (bs : List Nat) : Nat := bs.foldl (fun acc b => acc * 256 + b) 0

/-- The bytes of the slice expression `l[a:b]`, when it is in bounds. -/
def sliceOf (l : List Nat) (a b : Nat) : List Nat := (l.drop a).take (b - a)

/-- The slice expression `l[a:b]` on a slice whose capacity is its length: out of bounds is a
run-time panic. -/
def slice? (l : List Nat) (a b : Nat) : Option (List Nat) :=
  if a ≤ b ∧ b ≤ l.length then some (sliceOf l a b) else none

/-- What a call leaves in a zero-filled buffer of `T` bytes after writing `out` into it. -/
def fitBuffer (T : Nat) (out : List Nat) : List Nat := (out ++ List.replicate T 0).take T

/-- Go `RaptorQImpl.getChunkSize`. -/
def getChunkSize (cfg : Consts) (raptorq : RaptorQImpl) (msg : List Nat) (chunkID : Int) : Int :=
  let a := chunkID * cfg.normalChunkSize
  let b := if chunkID = raptorq.numChunks - 1 then (msg.length : Int)
           else (chunkID + 1) * cfg.normalChunkSize
  b - a

/-- The three ways a Go call with an `error` result can end. -/
inductive Outcome (α : Type) where
  | ok : α → Outcome α
  | error : Outcome α
  | panic : Outcome α

/-- Go `RaptorQImpl.constructSymbolPacket`. Calling a method of the missing map entry
`raptorq.Encoder[chunkID]` (a nil interface) panics; a failing `Encode` is returned as the
error. `symbolID` is a `uint32`. -/
def constructSymbolPacket (cfg : Consts) (raptorq : RaptorQImpl) (msg : List Nat)
    (chunkID : Int) (symbolID : Nat) (hop : Int) : Outcome (List Nat) :=
  match raptorq.Encoder chunkID with
  | none => .panic
  | some enc =>
    let T := enc.SymbolSize
    match enc.Encode symbolID with
    | none => .error
    | some out =>
      let symbol := fitBuffer T out
      let packet : List Nat := []
      let packet := packet ++ raptorq.rootHash
      let packet := packet ++ [byte hop]
      let packet := packet ++ putUint16 (uint16 raptorq.senderID)
      let packet := packet ++ putUint32 (uint32 raptorq.numChunks)
      let packet := packet ++ putUint32 (uint32 chunkID)
      let chunkSize := getChunkSize cfg raptorq msg chunkID
      let packet := packet ++ putUint32 (uint32 chunkSize)
      let packet := packet ++ putUint32 symbolID
      let packet := packet ++ symbol
      .ok packet

/-- The header fields and payload that `Gossip` reads from a datagram (lines 395-409). -/
structure Frame where
  hash : List Nat
  senderID : Int
  numChunks : Int
  chunkID : Int
  chunkSize : Nat
  symbolID : Nat
  symbol : List Nat
deriving DecidableEq, Repr

/-- Lines 395-409 of `Gossip`: the slice expressions on `copybuffer` (of length and capacity
`n`) and the big-endian reads; a slice out of bounds panics. -/
def parseFrame (copybuffer : List Nat) : Option Frame := do
  let n := copybuffer.length
  let hash ← slice? copybuffer 0 hashSize
  let sid ← slice? copybuffer (hashSize + 1) (hashSize + 3)
  let nch ← slice? copybuffer (hashSize + 3) (hashSize + 7)
  let cid ← slice? copybuffer (hashSize + 7) (hashSize + 11)
  let csz ← slice? copybuffer (hashSize + 11) (hashSize + 15)
  let chunkSizeBytes := List.replicate 4 0 ++ csz
  let sym ← slice? copybuffer (hashSize + 15) (hashSize + 19)
  let symbol ← slice? copybuffer (hashSize + 19) n
  pure { hash := hash
         senderID := (beUint sid : Int)
         numChunks := (beUint nch : Int)
         chunkID := (beUint cid : Int)
         chunkSize := beUint chunkSizeBytes
         symbolID := beUint sym
         symbol := symbol }

/-! ## The cache -/

/-- The map read `node.Cache[hashkey]` (`none` is the nil pointer of a missing key). -/
def cacheGet : List (List Nat × RaptorQImpl) → List Nat → Option RaptorQImpl
  | [], _ => none
  | (k1, v) :: rest, k => if k1 = k then some v else cacheGet rest k

/-- The map write `node.Cache[hashkey] = &raptorq`, also used to record a mutation made
through the cached pointer. -/
def cacheSet : List (List Nat × RaptorQImpl) → List Nat → RaptorQImpl →
    List (List Nat × RaptorQImpl)
  | [], k, v => [(k, v)]
  | (k1, v1) :: rest, k, v =>
    if k1 = k then (k, v) :: rest else (k1, v1) :: cacheSet rest k v

/-- Go `Node.initRaptorQIfNotExist`, with `now` the reading of the clock: the node afterwards and
the cached blob state. -/
def initRaptorQIfNotExist (cfg : Consts) (node : Node) (hash : List Nat) (now : Int) :
    Node × RaptorQImpl :=
  let hashkey := convertToFixedSize hash
  match cacheGet node.Cache hashkey with
  | some raptorq => (node, raptorq)
  | none =>
    let raptorq : RaptorQImpl :=
      { threshold := thresholdOf cfg node.AllPeers.length
        rootHash := hash
        chunkSize := cfg.normalChunkSize
        initTime := now }
    ({ node with Cache := cacheSet node.Cache hashkey raptorq }, raptorq)

/-! ## Concrete inputs -/

/-- A stand-in codec for concrete runs: the digest is 20 copies of the length byte, symbols are
4 bytes long, decoders are ready after two symbols. -/
def exampleLib : Lib where
  sha1 := fun msg => List.replicate 20 (msg.length % 256)
  newEncoder := fun piece T _ _ _ =>
    some { SymbolSize := T, Encode := fun esi => some (piece.take 2 ++ [esi % 256]) }
  newDecoderOk := fun _ _ => true
  isSourceObjectReady := fun d => decide (2 ≤ d.fed.length)

/-- Small constants for concrete runs: 4-byte symbols, 8-byte chunks, threshold fraction 0.5. -/
def exampleConsts : Consts where
  symbolSize := 4
  normalChunkSize := 8
  threshold := 1 / 2
  cacheClearInterval := 5
  enforceClearInterval := 60
  stopBroadCastTime := 10
  udpCacheSize := 64

/-- Peer number `i` on the loopback address. -/
def examplePeer (i : Nat) : Peer :=
  { Sid := i, IP := "127.0.0.1", TCPPort := toString (20000 + i),
    UDPPort := toString (10000 + i), PubKey := "" }

/-- A node with two neighbours and three peers in `AllPeers`. -/
def exampleNode : Node :=
  { SelfPeer := examplePeer 0
    PeerList := [examplePeer 1, examplePeer 2]
    AllPeers := [examplePeer 0, examplePeer 1, examplePeer 2]
    Hop := 1 }

/-- An encoder with 4-byte symbols that writes three bytes. -/
def exampleEncoder : Encoder :=
  { SymbolSize := 4, Encode := fun esi => some [1, 2, esi % 256] }

/-- A sender-side blob state of two chunks with an encoder for chunk 0 and quorum 1. -/
def exampleBlob : RaptorQImpl :=
  { threshold := 1
    senderID := 7
    rootHash := List.replicate 20 9
    chunkSize := 8
    numChunks := 2
    Encoder := fun c => if c = 0 then some exampleEncoder else none }

/-- A 9-byte message: two chunks of 8 bytes and 1 byte under `exampleConsts`. -/
def exampleMsg : List Nat := [10, 11, 12, 13, 14, 15, 16, 17, 18]

/-- What `BroadCast` returns for `exampleMsg` on `exampleNode` at clock reading 0. -/
def exampleBroadCast : BroadCastResult :=
  { cancels := chunkIds 2
    raptorq :=
      { threshold := thresholdOf exampleConsts 3
        senderID := 0
        rootHash := List.replicate 20 9
        chunkSize := 8
        numChunks := 2
        initTime := 0 }
    node :=
      { exampleNode with
        SenderCache := fun k =>
          if k = convertToFixedSize (List.replicate 20 9) then true
          else exampleNode.SenderCache k } }

/-! ## Relay -/

/-- Go `Node.relayEncodedSymbol`: the packet buffer after the call and the `pc.WriteTo` calls it
makes, in order, each with its destination peer and the bytes written. `idx0` is the value
drawn by `rand.Intn(len(node.PeerList))`. Indexing `packet[hashSize]` out of range and
`rand.Intn(0)` panic. A failed write is only logged, the loop goes on. -/
def relayEncodedSymbol (node : Node) (idx0 : Nat) (packet : List Nat) :
    Option (List Nat × List (Peer × List Nat)) :=
  match packet[hashSize]? with
  | none => none
  | some hop =>
    if hop = 0 then some (packet, [])
    else
      let packet := packet.set hashSize (hop - 1)
      if node.PeerList.length = 0 then none
      else
        some (packet, (List.range node.PeerList.length).filterMap (fun i =>
          (node.PeerList[(i + idx0) % node.PeerList.length]?).map (fun peer => (peer, packet))))

/-! ## The receive loop -/

/-- Go `RaptorQImpl.constructCommonOTI`; `transferLength` is a `uint64`. -/
def constructCommonOTI (cfg : Consts) (transferLength : Nat) : Nat :=
  let commonOTI : List Nat := []
  let transferLengthBytes := putUint64 transferLength
  let commonOTI := commonOTI ++ sliceOf transferLengthBytes 3 8
  let commonOTI := commonOTI ++ [byte 0]
  let symbolSizeBytes := putUint16 (uint16 cfg.symbolSize)
  let commonOTI := commonOTI ++ symbolSizeBytes
  beUint commonOTI

/-- Go `RaptorQImpl.constructSpecificOTI`. -/
def constructSpecificOTI : Nat :=
  let specificOTI : List Nat := []
  let specificOTI := specificOTI ++ [byte 1]
  let specificOTI := specificOTI ++ [0x00, 0x01]
  let specificOTI := specificOTI ++ [0x01]
  beUint specificOTI

/-- Go `RaptorQImpl.setDecoderIfNotExist`: `none` is the returned error of a failed decoder
construction (the blob state is left as it was); otherwise the blob state afterwards and whether
a `handleDecodeSuccess` goroutine was started. -/
def setDecoderIfNotExist (lib : Lib) (cfg : Consts) (raptorq : RaptorQImpl) (chunkID : Int)
    (chunkSize : Nat) : Option (RaptorQImpl × Bool) :=
  match raptorq.Decoder chunkID with
  | some _ => some (raptorq, false)
  | none =>
    let commonOTI := constructCommonOTI cfg chunkSize
    let specificOTI := constructSpecificOTI
    if lib.newDecoderOk commonOTI specificOTI then
      some ({ raptorq with
                Decoder := fun c =>
                  if c = chunkID then
                    some { commonOTI := commonOTI, specificOTI := specificOTI, fed := [] }
                  else raptorq.Decoder c },
            true)
    else none

/-- What the receive loop does to the outside: symbols handed to a decoder, goroutines
started. -/
inductive Event where
  /-- Go `raptorq.Decoder[chunkID].Decode(0, symbolID, symbol)` for the blob `hashkey` -/
  | decode (hashkey : List Nat) (chunkID : Int) (symbolID : Nat) (symbol : List Nat)
  /-- Go `go node.relayEncodedSymbol(pc, copybuffer[:n])` -/
  | relay (hashkey : List Nat) (chunkID : Int) (symbolID : Nat) (packet : List Nat)
  /-- Go `go node.handleDecodeSuccess(raptorq.rootHash, chunkID, ready)` -/
  | watch (hashkey : List Nat) (chunkID : Int)
deriving DecidableEq, Repr

/-- The state of the `Gossip` goroutine: the node, the events so far (oldest first) and
whether a panic has ended the process. -/
structure GossipState where
  node : Node
  trace : List Event := []
  crashed : Bool := false

/-- One iteration of the `for` loop of `Gossip`. `datagram` is what `pc.ReadFrom` delivers
(`none` for a read error), `now` the reading of the clock. -/
def gossipStep (lib : Lib) (cfg : Consts) (st : GossipState) (datagram : Option (List Nat))
    (now : Int) : GossipState :=
  if st.crashed then st
  else
  match datagram with
  | none => st
  | some data =>
    -- `n < hashSize+19+symbolSize` is only logged
    let copybuffer := data.take cfg.udpCacheSize
    match slice? copybuffer 0 hashSize with
    | none => { st with crashed := true }
    | some hash =>
      let hashkey := convertToFixedSize hash
      if st.node.SenderCache hashkey then st
      else
        let (node, raptorq) := initRaptorQIfNotExist cfg st.node hash now
        match parseFrame copybuffer with
        | none => { st with node := node, crashed := true }
        | some frame =>
          let raptorq := { raptorq with senderID := frame.senderID, numChunks := frame.numChunks }
          match setDecoderIfNotExist lib cfg raptorq frame.chunkID frame.chunkSize with
          | none =>
            { st with node := { node with Cache := cacheSet node.Cache hashkey raptorq } }
          | some (raptorq, started) =>
            let trace :=
              if started then st.trace ++ [Event.watch hashkey frame.chunkID] else st.trace
            if raptorq.receivedSymbols frame.chunkID frame.symbolID then
              { st with node := { node with Cache := cacheSet node.Cache hashkey raptorq }
                        trace := trace }
            else
              let raptorq := { raptorq with
                receivedSymbols := fun c s =>
                  if c = frame.chunkID ∧ s = frame.symbolID then true
                  else raptorq.receivedSymbols c s }
              match raptorq.Decoder frame.chunkID with
              | none =>
                { st with node := { node with Cache := cacheSet node.Cache hashkey raptorq }
                          trace := trace, crashed := true }
              | some decoder =>
                let fed := !lib.isSourceObjectReady decoder
                let raptorq :=
                  if fed then
                    { raptorq with
                      Decoder := fun c =>
                        if c = frame.chunkID then
                          some { decoder with
                                 fed := (frame.symbolID, frame.symbol) :: decoder.fed }
                        else raptorq.Decoder c }
                  else raptorq
                let trace :=
                  if fed then
                    trace ++ [Event.decode hashkey frame.chunkID frame.symbolID frame.symbol]
                  else trace
                let trace :=
                  trace ++ [Event.relay hashkey frame.chunkID frame.symbolID copybuffer]
                { st with node := { node with Cache := cacheSet node.Cache hashkey raptorq }
                          trace := trace }

/-- The `for` loop of `Gossip` over the datagrams read, each with the clock reading of its
iteration, while nothing else changes the cache. The sweeper that runs beside the loop is
added by `runNode`. -/
def Gossip (lib : Lib) (cfg : Consts) (st : GossipState)
    (arrivals : List (Option (List Nat) × Int)) : GossipState :=
  arrivals.foldl (fun st a => gossipStep lib cfg st a.1 a.2) st

/-- How many times the decoder of chunk `c` of blob `h` was fed symbol `s`. -/
def decodeCount (trace : List Event) (h : List Nat) (c : Int) (s : Nat) : Nat :=
  trace.countP (fun e =>
    match e with
    | Event.decode h1 c1 s1 _ => decide (h1 = h ∧ c1 = c ∧ s1 = s)
    | _ => false)

/-- How many relay goroutines were started for symbol `s` of chunk `c` of blob `h`. -/
def relayCount (trace : List Event) (h : List Nat) (c : Int) (s : Nat) : Nat :=
  trace.countP (fun e =>
    match e with
    | Event.relay h1 c1 s1 _ => decide (h1 = h ∧ c1 = c ∧ s1 = s)
    | _ => false)

/-- A 39-byte datagram: the header of symbol 5 of chunk 0 of a one-chunk blob from sender 7,
hop 1, chunk length 3, with an empty payload. -/
def shortDatagram : List Nat :=
  List.replicate 20 9 ++ [1] ++ [0, 7] ++ [0, 0, 0, 1] ++ [0, 0, 0, 0] ++ [0, 0, 0, 3]
    ++ [0, 0, 0, 5]

/-- The cache `c1` holds every blob of `c`, each with at least the received symbol ids it had
in `c`. -/
def Grows (c c1 : List (List Nat × RaptorQImpl)) : Prop :=
  ∀ h r, cacheGet c h = some r →
    ∃ r1, cacheGet c1 h = some r1 ∧ ∀ ch s, r.receivedSymbols ch s = true → r1.receivedSymbols ch s = true

/-- The invariant of the receive loop: every symbol was handed to its decoder at most once and
relayed at most once, and a symbol that was handed on or relayed is recorded in
`receivedSymbols` of its cached blob. -/
def TraceInv (st : GossipState) : Prop :=
  ∀ h c s, decodeCount st.trace h c s ≤ 1 ∧ relayCount st.trace h c s ≤ 1 ∧
    (0 < decodeCount st.trace h c s ∨ 0 < relayCount st.trace h c s →
      ∃ r, cacheGet st.node.Cache h = some r ∧ r.receivedSymbols c s = true)

/-- A 43-byte datagram: `shortDatagram` followed by a 4-byte symbol. -/
def fullDatagram : List Nat := shortDatagram ++ [1, 2, 3, 4]

/-! ## The cache sweeper and the broadcast supervisor -/

/-- The value of an `int64` computation whose exact result is `x`: twos-complement
wrap-around. -/
def wrap64 (x : Int) : Int :=
  (x + 9223372036854775808) % 18446744073709551616 - 9223372036854775808

/-- The builtin `delete(node.Cache, k)`. -/
def cacheDelete (cache : List (List Nat × RaptorQImpl)) (k : List Nat) :
    List (List Nat × RaptorQImpl) :=
  cache.filter (fun e => decide (e.1 ≠ k))

/-- The two tests of lines 132 and 135 of `clearCache` on the entry `v`, in `int64`
arithmetic. -/
def clearCacheTest (cfg : Consts) (currentTime : Int) (v : RaptorQImpl) : Bool :=
  let OneSec : Int := 1000000000
  if v.successTime > 0 ∧
      wrap64 (currentTime - v.successTime) > wrap64 (cfg.cacheClearInterval * OneSec) then true
  else if wrap64 (currentTime - v.initTime) > wrap64 (cfg.enforceClearInterval * OneSec) then true
  else false

/-- Lines 130-139 of `clearCache`: one pass of the sweep at clock reading `currentTime`. The
`range` visits the entries the map holds when the pass starts; an entry is deleted only while
it is the one being visited. -/
def clearCachePass (cfg : Consts) (cache : List (List Nat × RaptorQImpl)) (currentTime : Int) :
    List (List Nat × RaptorQImpl) :=
  cache.foldl (fun acc e => if clearCacheTest cfg currentTime e.2 then cacheDelete acc e.1 else acc)
    cache

/-- The eviction rule in the words of the spec, both intervals in nanoseconds:
`e.successTime > 0 ∧ now − e.successTime > cacheClearInterval`, or
`now − e.initTime > enforceClearInterval`. -/
def sweepRemoves (cfg : Consts) (now : Int) (e : RaptorQImpl) : Bool :=
  decide ((e.successTime > 0 ∧ now - e.successTime > cfg.cacheClearInterval * 1000000000) ∨
    now - e.initTime > cfg.enforceClearInterval * 1000000000)

/-- What one iteration of the polling loop of `StopBroadCast` reads: for each chunk the value
of `PeerDecodedCounter[hashkey][z]` at the moment the iteration reads it, and the clock. -/
structure Poll where
  counter : List Nat → Int → Int
  now : Int

/-- The local state of `StopBroadCast`: the keys of the `canceled` map (every stored value is
`true`), `raptorq.stats`, and the calls of cancel functions made so far, each with the index of
the loop iteration and the chunk id. -/
structure StopState where
  canceled : List Int := []
  stats : List (Int × ℚ) := []
  cancelCalls : List (Nat × Int) := []

/-- The inner `for z` loop of `StopBroadCast` (lines 88-101) over the chunk ids still to visit
in iteration `idx`. Calling the missing entry `cancels[z]` panics. The elapsed time is kept as
the exact quotient. -/
def stopPollChunks (cancels : List Int) (raptorq : RaptorQImpl) (poll : Poll) (idx : Nat) :
    List Int → StopState → Option StopState
  | [], st => some st
  | z :: zs, st =>
    if z ∈ st.canceled then stopPollChunks cancels raptorq poll idx zs st
    else if poll.counter (convertToFixedSize raptorq.rootHash) z ≥ raptorq.threshold then
      let delta : ℚ := ((poll.now - raptorq.initTime : Int) : ℚ) / 1000000
      if z ∈ cancels then
        stopPollChunks cancels raptorq poll idx zs
          { canceled := z :: st.canceled
            stats := (z, delta) :: st.stats.filter (fun e => decide (e.1 ≠ z))
            cancelCalls := st.cancelCalls ++ [(idx, z)] }
      else none
    else stopPollChunks cancels raptorq poll idx zs st

/-- The outer loop of `StopBroadCast` over the iterations that start before
`stopBroadCastTime` runs out; the flag tells whether the loop was left by the `return` of
line 109. -/
def stopBroadCastLoop (cancels : List Int) (raptorq : RaptorQImpl) :
    List Poll → Nat → StopState → Option (StopState × Bool)
  | [], _, st => some (st, false)
  | poll :: polls, idx, st =>
    match stopPollChunks cancels raptorq poll idx
        (chunkIds raptorq.numChunks) st with
    | none => none
    | some st1 =>
      if (st1.canceled.length : Int) ≥ raptorq.numChunks then some (st1, true)
      else stopBroadCastLoop cancels raptorq polls (idx + 1) st1

/-- Go `Node.StopBroadCast`. -/
def StopBroadCast (cancels : List Int) (raptorq : RaptorQImpl) (polls : List Poll) :
    Option (StopState × Bool) :=
  stopBroadCastLoop cancels raptorq polls 0 {}

/-- The invariant of the polling loop: `canceled` holds the chunks of the cancel calls made,
each once and each a chunk id of the blob, and every cancel call was made in an iteration whose
counter reading for that chunk had reached the threshold. -/
def StopInv (raptorq : RaptorQImpl) (polls : List Poll) (st : StopState) : Prop :=
  st.canceled = (st.cancelCalls.map Prod.snd).reverse ∧
  st.canceled.Nodup ∧
  (∀ z ∈ st.canceled, 0 ≤ z ∧ z < raptorq.numChunks) ∧
  (∀ ic ∈ st.cancelCalls, ∃ p, polls[ic.1]? = some p ∧
    raptorq.threshold ≤ p.counter (convertToFixedSize raptorq.rootHash) ic.2)

/-- Three readings of the ack counters of the blob with hash `9 ... 9`: no acks, one ack for
chunk 0, one ack for each of chunks 0 and 1. -/
def examplePolls : List Poll :=
  [ { counter := fun _ _ => 0, now := 200000000 },
    { counter := fun _ z => if z = 0 then 1 else 0, now := 400000000 },
    { counter := fun _ z => if z = 0 ∨ z = 1 then 1 else 0, now := 600000000 } ]

/-- A cache of three blobs at sweep time `100 s`: the first decoded 6 s ago, the second begun
70 s ago and never decoded, the third begun 5 s ago. -/
def exampleCache : List (List Nat × RaptorQImpl) :=
  [ ([1], { initTime := 90000000000, successTime := 94000000000 }),
    ([2], { initTime := 30000000000 }),
    ([3], { initTime := 95000000000 }) ]

/-! ## Encoders -/

/-- Lines 221-223 of `setEncoderIfNotExist`: the slice `msg[a:b]` the encoder of the chunk is
built from, with `a = chunkID * normalChunkSize` and `b = a + getChunkSize(msg, chunkID)`;
out of bounds is a run-time panic. -/
def encoderPiece (cfg : Consts) (raptorq : RaptorQImpl) (msg : List Nat) (chunkID : Int) :
    Option (List Nat) :=
  let a := chunkID * cfg.normalChunkSize
  let b := a + getChunkSize cfg raptorq msg chunkID
  if 0 ≤ a ∧ a ≤ b ∧ b ≤ (msg.length : Int) then some (sliceOf msg a.toNat b.toNat) else none

/-- Go `RaptorQImpl.setEncoderIfNotExist`. The factory is called with `T = uint16(symbolSize)`,
minimum sub-symbol size `T`, `WS = 2 * uint32(normalChunkSize)` and `Al = 4`. When the factory
fails the encoder is nil and the log statement of line 226 calls a method on it, which panics
before the error is looked at. -/
def setEncoderIfNotExist (lib : Lib) (cfg : Consts) (raptorq : RaptorQImpl) (msg : List Nat)
    (chunkID : Int) : Option RaptorQImpl :=
  match raptorq.Encoder chunkID with
  | some _ => some raptorq
  | none =>
    let Al : Nat := 4
    let T := uint16 cfg.symbolSize
    let WS := (2 * uint32 cfg.normalChunkSize) % 4294967296
    let minSubSymbolSize := T
    match encoderPiece cfg raptorq msg chunkID with
    | none => none
    | some piece =>
      match lib.newEncoder piece T minSubSymbolSize WS Al with
      | none => none
      | some encoder =>
        some { raptorq with
               Encoder := fun c => if c = chunkID then some encoder else raptorq.Encoder c }

/-- A stand-in codec whose encoders hand back, as their symbol, the parameters `T`, minimum
sub-symbol size, `WS` and `Al` they were created with. -/
def probeLib : Lib where
  sha1 := fun msg => List.replicate 20 (msg.length % 256)
  newEncoder := fun _ T minSub WS Al =>
    some { SymbolSize := T, Encode := fun _ => some [T, minSub, WS, Al] }
  newDecoderOk := fun _ _ => true
  isSourceObjectReady := fun _ => false

/-! ## Acknowledgements -/

/-- Modelled from the spec: the constant `metaReceived` is declared outside the given sources;
the spec fixes the kind byte of a received ack as `0x01`. -/
def metaReceived : Nat := 1

/-- Lines 517-526 of `responseSuccess`: the ack frame `hash | metaReceived | chunkID | sid`
a receiver with peer id `sid` writes to the sender. -/
def ackFrame (hash : List Nat) (chunkID : Int) (sid : Int) : List Nat :=
  let okmsg : List Nat := []
  let okmsg := okmsg ++ hash
  let okmsg := okmsg ++ [metaReceived]
  let okmsg := okmsg ++ putUint32 (uint32 chunkID)
  let okmsg := okmsg ++ putUint32 (uint32 sid)
  okmsg

/-- Go `Node.handleResponse` on a connection that delivers the bytes `stream` and then ends.
A short read of the hash returns. `ReadByte` at the end of the stream yields 0, and the error
of the read of the chunk id is dropped: the buffer keeps zeros where nothing was read. The
acker id is read after the counter was raised and is only logged. -/
def handleResponse (node : Node) (stream : List Nat) : Node :=
  if stream.length < hashSize then node
  else
    let hash := stream.take hashSize
    let rest := stream.drop hashSize
    let hashkey := convertToFixedSize hash
    if !node.SenderCache hashkey then node
    else
      let mtype := rest.headD 0
      let rest := rest.drop 1
      if mtype = metaReceived then
        let chunkIDBytes := fitBuffer 4 (rest.take 4)
        let chunkID : Int := (beUint chunkIDBytes : Int)
        { node with
          PeerDecodedCounter := fun k z =>
            if k = hashkey ∧ z = chunkID then node.PeerDecodedCounter k z + 1
            else node.PeerDecodedCounter k z }
      else node

/-- The connections accepted by `ListeningOnBroadCast`, handled one after the other. -/
def handleResponses (node : Node) (streams : List (List Nat)) : Node :=
  streams.foldl handleResponse node

/-- An ack as its sender means it: the hash, the chunk id and the peer id of the acker. -/
structure Ack where
  hash : List Nat
  chunkID : Int
  sid : Int
deriving DecidableEq, Repr

/-- The number in the words of the spec: how many distinct peer ids acked chunk `c` of
hash `h`. -/
def distinctAckers (acks : List Ack) (h : List Nat) (c : Int) : Nat :=
  (((acks.filter (fun a => decide (a.hash = h ∧ a.chunkID = c))).map (fun a => a.sid)).dedup).length

/-- How many acks were sent for chunk `c` of hash `h`. -/
def ackCount (acks : List Ack) (h : List Nat) (c : Int) : Nat :=
  acks.countP (fun a => decide (a.hash = h ∧ a.chunkID = c))

/-- A node that has originated the blob with hash `9 ... 9`. -/
def exampleSender : Node :=
  { exampleNode with
    SenderCache := fun k => decide (k = List.replicate 20 9) }

/-- Peer 5 acks chunk 0 of the blob `9 ... 9` twice, peer 6 acks it once. -/
def exampleAcks : List Ack :=
  [ { hash := List.replicate 20 9, chunkID := 0, sid := 5 },
    { hash := List.replicate 20 9, chunkID := 0, sid := 5 },
    { hash := List.replicate 20 9, chunkID := 0, sid := 6 } ]

/-! ## The receive loop beside the cache sweeper -/

/-- What a receiving node does to its cache while it runs: an iteration of the `Gossip` loop
on what `pc.ReadFrom` delivers, or a pass of the sweep of `clearCache`, which
`ListeningOnBroadCast` starts beside the loop. A pass holds `node.mux` and an iteration
touches the cache map only under `node.mux` (in `initRaptorQIfNotExist`), so the two are
taken one at a time; a pass that falls within an iteration is placed after it. The node
starts no broadcast of its own during the run. -/
inductive Activity where
  | datagram (data : Option (List Nat)) (now : Int)
  | sweep (now : Int)

/-- One activity of the running node. After a panic the process is gone and nothing runs. -/
def activityStep (lib : Lib) (cfg : Consts) (st : GossipState) : Activity → GossipState
  | Activity.datagram data now => gossipStep lib cfg st data now
  | Activity.sweep now =>
    if st.crashed then st
    else { st with node := { st.node with Cache := clearCachePass cfg st.node.Cache now } }

/-- The receive loop and the cache sweeper running side by side, as a sequence of activities. -/
def runNode (lib : Lib) (cfg : Consts) (st : GossipState) (acts : List Activity) : GossipState :=
  acts.foldl (activityStep lib cfg) st

/-- A sweep pass at `now` deletes no cache entry of the blob `h`: every entry under that key
fails both tests of `clearCache`. -/
def sweepSpares (cfg : Consts) (cache : List (List Nat × RaptorQImpl)) (now : Int)
    (h : List Nat) : Bool :=
  cache.all (fun e => !(decide (e.1 = h) && clearCacheTest cfg now e.2))

/-- No sweep pass of the run deletes the blob `h`. -/
def KeepsBlob (lib : Lib) (cfg : Consts) (h : List Nat) : GossipState → List Activity → Prop
  | _, [] => True
  | st, a :: rest =>
    (match a with
      | Activity.sweep now => st.crashed = false → sweepSpares cfg st.node.Cache now h = true
      | Activity.datagram _ _ => True) ∧
    KeepsBlob lib cfg h (activityStep lib cfg st a) rest

/-- The invariant of the receive loop for one blob `h`: each of its symbols was handed to its
decoder at most once and relayed at most once, and a symbol that was handed on or relayed is
recorded in `receivedSymbols` of the cached blob. -/
def TraceInvAt (st : GossipState) (h : List Nat) : Prop :=
  ∀ c s, decodeCount st.trace h c s ≤ 1 ∧ relayCount st.trace h c s ≤ 1 ∧
    (0 < decodeCount st.trace h c s ∨ 0 < relayCount st.trace h c s →
      ∃ r, cacheGet st.node.Cache h = some r ∧ r.receivedSymbols c s = true)

/-- The cache `c1` still holds the blob `h` when `c` held it, with at least the received
symbol ids it had in `c`. -/
def GrowsAt (c c1 : List (List Nat × RaptorQImpl)) (h : List Nat) : Prop :=
  ∀ r, cacheGet c h = some r →
    ∃ r1, cacheGet c1 h = some r1 ∧
      ∀ ch s, r.receivedSymbols ch s = true → r1.receivedSymbols ch s = true

/-! ## The retry delay of the sender -/

/-- The exponent of the unit in the last place of the float64 nearest to `x`: 53 significant
bits, least normal exponent `-1022` (subnormals share the ulp `2^-1074`). -/
def ulpExp64 (x : ℚ) : Int := max (Int.log 2 |x|) (-1022) - 52

/-- IEEE-754 binary64 rounding of a rational to nearest, ties to even. The exponent is not
bounded above here; `float64Of` tells the results that are infinite in float64. -/
def fl64 (x : ℚ) : ℚ :=
  if x = 0 then 0
  else (roundHalfEven (x / (2 : ℚ) ^ ulpExp64 x) : ℚ) * (2 : ℚ) ^ ulpExp64 x

/-- The functions of the Go package `math` that `expBackoffDelay` calls, read on the finite
float64 values (as rationals) where their result is finite: `Log2 x` is `math.Log2(x)` for a
finite `x > 0`, and `Pow x y` is `math.Pow(x, y)` for finite `x > 0` and `y`. The standard
library is not part of the repository, so they are parameters. -/
structure MathFns where
  Log2 : ℚ → ℚ
  Pow : ℚ → ℚ → ℚ

/-- The float64 result of an arithmetic operation whose exact value is `x`: the rounded
value, or `none` when it rounds to an infinity (magnitude `2^1024` or more). -/
def float64Of (x : ℚ) : Option ℚ :=
  if |fl64 x| < (2 : ℚ) ^ (1024 : Nat) then some (fl64 x) else none

/-- The local `maxK` of `expBackoffDelay`:
`math.Log2(maxDelayTime/initialDelayTime) / math.Log2(expBase)`. It is `none` when the
expression leaves the finite float64 values, which are not followed: a division by zero,
`Log2` of a number that is not positive, or an overflow. -/
def expBackoffMaxK (M : MathFns) (initialDelayTime maxDelayTime expBase : ℚ) : Option ℚ :=
  if initialDelayTime = 0 then none
  else do
    let ratio ← float64Of (maxDelayTime / initialDelayTime)
    if ratio ≤ 0 ∨ expBase ≤ 0 then none
    else if M.Log2 expBase = 0 then none
    else float64Of (M.Log2 ratio / M.Log2 expBase)

/-- Go `expBackoffDelay(initialDelayTime, maxDelayTime, expBase)(k, k0)`, the result in
nanoseconds (`time.Duration` is an `int64` count of nanoseconds). `k - k0` is an `int`
subtraction, `float64(...)` rounds it, `math.Max` and `math.Min` on finite values are the
maximum and the minimum, each product is rounded, and the conversion to `time.Duration`
discards the fraction. The result is `none` when `maxK` is, when a product overflows, or
when the value does not fit `int64` (Go leaves that conversion implementation-defined). -/
def expBackoffDelay (M : MathFns) (initialDelayTime maxDelayTime expBase : ℚ) (k k0 : Int) :
    Option Int := do
  let maxK ← expBackoffMaxK M initialDelayTime maxDelayTime expBase
  let delta := fl64 ((wrap64 (k - k0) : Int) : ℚ)
  let power := max delta 0
  let power := min power maxK
  let scaled ← float64Of (1000000 * initialDelayTime)
  let nanos ← float64Of (scaled * M.Pow expBase power)
  if -9223372036854775808 ≤ nanos ∧ nanos < 9223372036854775808 then some (truncToInt nanos)
  else none

/-- A stand-in for the `math` functions that agrees with them on the powers of two used in
the examples: the binary logarithm rounded down, and the power with the exponent rounded
down. `Log2(0.5) = -1`, `Log2(2) = 1`, `Log2(4) = 2` and `Pow(2, n) = 2^n` for an integer
`n` are exact in Go as well. -/
def exactMath : MathFns where
  Log2 := fun x => (Int.log 2 x : ℚ)
  Pow := fun x y => x ^ ⌊y⌋

/-! ## Theorems -/

theorem numChunksOf_pos (F B : Int) (hF : 0 ≤ F) (hB : 0 < B) :
    numChunksOf F B = some (if F ≤ B then 1 else ⌈(F : ℚ) / (B : ℚ)⌉) := by
  unfold numChunksOf
  by_cases h : F ≤ B
  · simp [h]
  · have hB0 : B ≠ 0 := by omega
    have hBq : (0 : ℚ) < (B : ℚ) := by exact_mod_cast hB
    rw [Int.tmod_eq_emod hF hB.le, Int.tdiv_eq_ediv hF hB.le]
    simp only [h, hB0, if_false]
    have hdm : B * (F / B) + F % B = F := Int.ediv_add_emod F B
    have hm0 : 0 ≤ F % B := Int.emod_nonneg F hB0
    have hmB : F % B < B := Int.emod_lt_of_pos F hB
    have hFq : (F : ℚ) = (B : ℚ) * ((F / B : Int) : ℚ) + ((F % B : Int) : ℚ) := by
      exact_mod_cast hdm.symm
    by_cases hr : F % B = 0
    · simp only [hr, if_true]
      congr 1
      symm
      rw [Int.ceil_eq_iff, hFq, hr]
      constructor
      · rw [lt_div_iff₀ hBq]; push_cast; nlinarith
      · rw [div_le_iff₀ hBq]; push_cast; nlinarith
    · simp only [hr, if_false]
      congr 1
      symm
      have hm1 : (1 : ℚ) ≤ ((F % B : Int) : ℚ) := by
        have : 1 ≤ F % B := by omega
        exact_mod_cast this
      have hm2 : ((F % B : Int) : ℚ) < (B : ℚ) := by exact_mod_cast hmB
      rw [Int.ceil_eq_iff, hFq]
      constructor
      · rw [lt_div_iff₀ hBq]; push_cast; nlinarith
      · rw [div_le_iff₀ hBq]; push_cast; nlinarith

/-- C1: for a positive `normalChunkSize`, `BroadCast` returns, and the blob state it builds has
`numChunks = 1` when `|msg| ≤ normalChunkSize` (so also for the empty message and for
`|msg| = normalChunkSize`) and `numChunks = ⌈|msg| / normalChunkSize⌉` otherwise. -/
theorem BroadCast_numChunks (lib : Lib) (cfg : Consts) (node : Node) (msg : List Nat)
    (now : Int) (hB : 0 < cfg.normalChunkSize) :
    ∃ r, BroadCast lib cfg node msg now = some r ∧
      r.raptorq.numChunks =
        if (msg.length : Int) ≤ cfg.normalChunkSize then 1
        else ⌈((msg.length : Int) : ℚ) / (cfg.normalChunkSize : ℚ)⌉ := by
  have h := numChunksOf_pos (msg.length : Int) cfg.normalChunkSize (Int.natCast_nonneg _) hB
  simp only [BroadCast, h]
  exact ⟨_, rfl, rfl⟩

/-! ### The wire frame -/

theorem beUint_putUint16 (v : Nat) (h : v < 65536) : beUint (putUint16 v) = v := by
  simp only [beUint, putUint16, List.foldl]
  omega

theorem beUint_putUint32 (v : Nat) (h : v < 4294967296) : beUint (putUint32 v) = v := by
  simp only [beUint, putUint32, List.foldl]
  omega

theorem beUint_pad_putUint32 (v : Nat) (h : v < 4294967296) :
    beUint (List.replicate 4 0 ++ putUint32 v) = v := by
  simp only [beUint, putUint32, List.replicate, List.cons_append, List.nil_append, List.foldl]
  omega

theorem sliceOf_append_left (h t : List Nat) (a b : Nat) :
    sliceOf (h ++ t) (h.length + a) (h.length + b) = sliceOf t a b := by
  unfold sliceOf
  rw [List.drop_append]
  congr 1
  omega

theorem sliceOf_head (h t : List Nat) : sliceOf (h ++ t) 0 h.length = h := by
  simp [sliceOf]

theorem constructSymbolPacket_eq (cfg : Consts) (raptorq : RaptorQImpl) (msg : List Nat)
    (chunkID : Int) (symbolID : Nat) (hop : Int) (enc : Encoder) (out : List Nat)
    (henc : raptorq.Encoder chunkID = some enc) (hout : enc.Encode symbolID = some out) :
    constructSymbolPacket cfg raptorq msg chunkID symbolID hop =
      .ok (raptorq.rootHash ++
        (byte hop :: (putUint16 (uint16 raptorq.senderID) ++
          (putUint32 (uint32 raptorq.numChunks) ++ (putUint32 (uint32 chunkID) ++
            (putUint32 (uint32 (getChunkSize cfg raptorq msg chunkID)) ++
              (putUint32 symbolID ++ fitBuffer enc.SymbolSize out))))))) := by
  simp [constructSymbolPacket, henc, hout]

theorem fitBuffer_length (T : Nat) (out : List Nat) : (fitBuffer T out).length = T := by
  simp [fitBuffer]

/-- C2: with a 20-byte root hash, an encoder of the configured symbol size for the chunk and a
successful `Encode`, `constructSymbolPacket` returns a packet of `39 + symbolSize` bytes that
holds the root hash at 0, the hop byte at 20, the sender id at 21 (2 bytes), the chunk count at
23, the chunk id at 27, the length of this chunk (`getChunkSize`) at 31 and the symbol id at 35
(4 bytes each), all big-endian, and the encoded symbol from 39. -/
theorem constructSymbolPacket_layout (cfg : Consts) (raptorq : RaptorQImpl) (msg : List Nat)
    (chunkID : Int) (symbolID : Nat) (hop : Int) (enc : Encoder) (out : List Nat)
    (hhash : raptorq.rootHash.length = hashSize)
    (henc : raptorq.Encoder chunkID = some enc)
    (hT : (enc.SymbolSize : Int) = cfg.symbolSize)
    (hout : enc.Encode symbolID = some out)
    (hhop : 0 ≤ hop ∧ hop ≤ 255)
    (hsid : 0 ≤ raptorq.senderID ∧ raptorq.senderID < 65536)
    (hnum : 0 ≤ raptorq.numChunks ∧ raptorq.numChunks < 4294967296)
    (hlen : 0 ≤ getChunkSize cfg raptorq msg chunkID ∧
      getChunkSize cfg raptorq msg chunkID < 4294967296)
    (hsym : symbolID < 4294967296) :
    ∃ packet, constructSymbolPacket cfg raptorq msg chunkID symbolID hop = .ok packet ∧
      (packet.length : Int) = 39 + cfg.symbolSize ∧
      sliceOf packet 0 20 = raptorq.rootHash ∧
      sliceOf packet 20 21 = [byte hop] ∧ (byte hop : Int) = hop ∧
      sliceOf packet 21 23 = putUint16 (uint16 raptorq.senderID) ∧
      (beUint (sliceOf packet 21 23) : Int) = raptorq.senderID ∧
      sliceOf packet 23 27 = putUint32 (uint32 raptorq.numChunks) ∧
      (beUint (sliceOf packet 23 27) : Int) = raptorq.numChunks ∧
      sliceOf packet 27 31 = putUint32 (uint32 chunkID) ∧
      (0 ≤ chunkID → chunkID < 4294967296 → (beUint (sliceOf packet 27 31) : Int) = chunkID) ∧
      sliceOf packet 31 35 = putUint32 (uint32 (getChunkSize cfg raptorq msg chunkID)) ∧
      (beUint (sliceOf packet 31 35) : Int) = getChunkSize cfg raptorq msg chunkID ∧
      sliceOf packet 35 39 = putUint32 symbolID ∧
      beUint (sliceOf packet 35 39) = symbolID ∧
      packet.drop 39 = fitBuffer enc.SymbolSize out ∧
      (packet.drop 39).length = enc.SymbolSize := by
  refine ⟨_, constructSymbolPacket_eq cfg raptorq msg chunkID symbolID hop enc out henc hout, ?_⟩
  have h20 : raptorq.rootHash.length = 20 := hhash
  have e1 : ∀ t : List Nat, ∀ a b : Nat,
      sliceOf (raptorq.rootHash ++ t) (20 + a) (20 + b) = sliceOf t a b := by
    intro t a b
    rw [← h20]
    exact sliceOf_append_left _ _ _ _
  have e0 : ∀ t : List Nat, sliceOf (raptorq.rootHash ++ t) 0 20 = raptorq.rootHash := by
    intro t
    rw [← h20]
    exact sliceOf_head _ _
  have ed : ∀ t : List Nat, (raptorq.rootHash ++ t).drop 39 = t.drop 19 := by
    intro t
    rw [List.drop_append_eq_append_drop, h20]
    simp [List.drop_eq_nil_of_le, h20]
  have b16 : uint16 raptorq.senderID < 65536 := by unfold uint16; omega
  have c16 : (uint16 raptorq.senderID : Int) = raptorq.senderID := by unfold uint16; omega
  have b32n : uint32 raptorq.numChunks < 4294967296 := by unfold uint32; omega
  have c32n : (uint32 raptorq.numChunks : Int) = raptorq.numChunks := by unfold uint32; omega
  have b32c : uint32 chunkID < 4294967296 := by unfold uint32; omega
  have b32l : uint32 (getChunkSize cfg raptorq msg chunkID) < 4294967296 := by
    unfold uint32; omega
  have c32l : (uint32 (getChunkSize cfg raptorq msg chunkID) : Int)
      = getChunkSize cfg raptorq msg chunkID := by unfold uint32; omega
  have s1 := e1 (byte hop :: (putUint16 (uint16 raptorq.senderID) ++
          (putUint32 (uint32 raptorq.numChunks) ++ (putUint32 (uint32 chunkID) ++
            (putUint32 (uint32 (getChunkSize cfg raptorq msg chunkID)) ++
              (putUint32 symbolID ++ fitBuffer enc.SymbolSize out))))))
  have q20 := s1 0 1
  have q21 := s1 1 3
  have q23 := s1 3 7
  have q27 := s1 7 11
  have q31 := s1 11 15
  have q35 := s1 15 19
  simp only [Nat.reduceAdd] at q20 q21 q23 q27 q31 q35
  have r20 : sliceOf (byte hop :: (putUint16 (uint16 raptorq.senderID) ++
          (putUint32 (uint32 raptorq.numChunks) ++ (putUint32 (uint32 chunkID) ++
            (putUint32 (uint32 (getChunkSize cfg raptorq msg chunkID)) ++
              (putUint32 symbolID ++ fitBuffer enc.SymbolSize out)))))) 0 1 = [byte hop] := by
    simp [sliceOf]
  have r21 : sliceOf (byte hop :: (putUint16 (uint16 raptorq.senderID) ++
          (putUint32 (uint32 raptorq.numChunks) ++ (putUint32 (uint32 chunkID) ++
            (putUint32 (uint32 (getChunkSize cfg raptorq msg chunkID)) ++
              (putUint32 symbolID ++ fitBuffer enc.SymbolSize out)))))) 1 3
      = putUint16 (uint16 raptorq.senderID) := by
    simp [sliceOf, putUint16, putUint32]
  have r23 : sliceOf (byte hop :: (putUint16 (uint16 raptorq.senderID) ++
          (putUint32 (uint32 raptorq.numChunks) ++ (putUint32 (uint32 chunkID) ++
            (putUint32 (uint32 (getChunkSize cfg raptorq msg chunkID)) ++
              (putUint32 symbolID ++ fitBuffer enc.SymbolSize out)))))) 3 7
      = putUint32 (uint32 raptorq.numChunks) := by
    simp [sliceOf, putUint16, putUint32]
  have r27 : sliceOf (byte hop :: (putUint16 (uint16 raptorq.senderID) ++
          (putUint32 (uint32 raptorq.numChunks) ++ (putUint32 (uint32 chunkID) ++
            (putUint32 (uint32 (getChunkSize cfg raptorq msg chunkID)) ++
              (putUint32 symbolID ++ fitBuffer enc.SymbolSize out)))))) 7 11
      = putUint32 (uint32 chunkID) := by
    simp [sliceOf, putUint16, putUint32]
  have r31 : sliceOf (byte hop :: (putUint16 (uint16 raptorq.senderID) ++
          (putUint32 (uint32 raptorq.numChunks) ++ (putUint32 (uint32 chunkID) ++
            (putUint32 (uint32 (getChunkSize cfg raptorq msg chunkID)) ++
              (putUint32 symbolID ++ fitBuffer enc.SymbolSize out)))))) 11 15
      = putUint32 (uint32 (getChunkSize cfg raptorq msg chunkID)) := by
    simp [sliceOf, putUint16, putUint32]
  have r35 : sliceOf (byte hop :: (putUint16 (uint16 raptorq.senderID) ++
          (putUint32 (uint32 raptorq.numChunks) ++ (putUint32 (uint32 chunkID) ++
            (putUint32 (uint32 (getChunkSize cfg raptorq msg chunkID)) ++
              (putUint32 symbolID ++ fitBuffer enc.SymbolSize out)))))) 15 19
      = putUint32 symbolID := by
    simp [sliceOf, putUint16, putUint32]
  have rd : (byte hop :: (putUint16 (uint16 raptorq.senderID) ++
          (putUint32 (uint32 raptorq.numChunks) ++ (putUint32 (uint32 chunkID) ++
            (putUint32 (uint32 (getChunkSize cfg raptorq msg chunkID)) ++
              (putUint32 symbolID ++ fitBuffer enc.SymbolSize out)))))).drop 19
      = fitBuffer enc.SymbolSize out := by
    simp [putUint16, putUint32]
  rw [e0, q20, q21, q23, q27, q31, q35, ed, r20, r21, r23, r27, r31, r35, rd,
    beUint_putUint16 _ b16, beUint_putUint32 _ b32n, beUint_putUint32 _ b32l,
    beUint_putUint32 _ hsym, beUint_putUint32 _ b32c, fitBuffer_length]
  refine ⟨?_, rfl, rfl, ?_, rfl, c16, rfl, c32n, rfl, ?_, rfl, c32l, rfl, rfl, rfl, rfl⟩
  · simp only [List.length_append, List.length_cons, putUint16, putUint32, List.length_nil,
      fitBuffer_length, h20]
    omega
  · unfold byte; omega
  · intro h0 h1; unfold uint32; omega

theorem slice?_append_left (h t : List Nat) (a b : Nat) :
    slice? (h ++ t) (h.length + a) (h.length + b) = slice? t a b := by
  unfold slice? sliceOf
  rw [List.drop_append]
  have e : h.length + b - (h.length + a) = b - a := by omega
  simp only [e, List.length_append, add_le_add_iff_left]

theorem slice?_head (h t : List Nat) : slice? (h ++ t) 0 h.length = some h := by
  simp [slice?, sliceOf]

theorem slice?_whole_tail (t : List Nat) (k : Nat) (hk : k ≤ t.length) :
    slice? t k t.length = some (t.drop k) := by
  simp [slice?, sliceOf, hk]

theorem parseFrame_header (h : List Nat) (hh : h.length = hashSize)
    (hop s0 s1 n0 n1 n2 n3 c0 c1 c2 c3 l0 l1 l2 l3 y0 y1 y2 y3 : Nat) (symbol : List Nat) :
    parseFrame (h ++ (hop :: s0 :: s1 :: n0 :: n1 :: n2 :: n3 :: c0 :: c1 :: c2 :: c3 ::
        l0 :: l1 :: l2 :: l3 :: y0 :: y1 :: y2 :: y3 :: symbol)) =
      some { hash := h
             senderID := (beUint [s0, s1] : Int)
             numChunks := (beUint [n0, n1, n2, n3] : Int)
             chunkID := (beUint [c0, c1, c2, c3] : Int)
             chunkSize := beUint (List.replicate 4 0 ++ [l0, l1, l2, l3])
             symbolID := beUint [y0, y1, y2, y3]
             symbol := symbol } := by
  have a0 := slice?_head h (hop :: s0 :: s1 :: n0 :: n1 :: n2 :: n3 :: c0 :: c1 :: c2 :: c3 ::
        l0 :: l1 :: l2 :: l3 :: y0 :: y1 :: y2 :: y3 :: symbol)
  have a1 := slice?_append_left h (hop :: s0 :: s1 :: n0 :: n1 :: n2 :: n3 :: c0 :: c1 :: c2 ::
        c3 :: l0 :: l1 :: l2 :: l3 :: y0 :: y1 :: y2 :: y3 :: symbol)
  have q21 := a1 1 3
  have q23 := a1 3 7
  have q27 := a1 7 11
  have q31 := a1 11 15
  have q35 := a1 15 19
  have q39 := a1 19 (19 + symbol.length)
  have r21 : slice? (hop :: s0 :: s1 :: n0 :: n1 :: n2 :: n3 :: c0 :: c1 :: c2 ::
        c3 :: l0 :: l1 :: l2 :: l3 :: y0 :: y1 :: y2 :: y3 :: symbol) 1 3 = some [s0, s1] := by
    simp [slice?, sliceOf]
  have r23 : slice? (hop :: s0 :: s1 :: n0 :: n1 :: n2 :: n3 :: c0 :: c1 :: c2 ::
        c3 :: l0 :: l1 :: l2 :: l3 :: y0 :: y1 :: y2 :: y3 :: symbol) 3 7
      = some [n0, n1, n2, n3] := by
    simp [slice?, sliceOf]
  have r27 : slice? (hop :: s0 :: s1 :: n0 :: n1 :: n2 :: n3 :: c0 :: c1 :: c2 ::
        c3 :: l0 :: l1 :: l2 :: l3 :: y0 :: y1 :: y2 :: y3 :: symbol) 7 11
      = some [c0, c1, c2, c3] := by
    simp [slice?, sliceOf]
  have r31 : slice? (hop :: s0 :: s1 :: n0 :: n1 :: n2 :: n3 :: c0 :: c1 :: c2 ::
        c3 :: l0 :: l1 :: l2 :: l3 :: y0 :: y1 :: y2 :: y3 :: symbol) 11 15
      = some [l0, l1, l2, l3] := by
    simp [slice?, sliceOf]
  have r35 : slice? (hop :: s0 :: s1 :: n0 :: n1 :: n2 :: n3 :: c0 :: c1 :: c2 ::
        c3 :: l0 :: l1 :: l2 :: l3 :: y0 :: y1 :: y2 :: y3 :: symbol) 15 19
      = some [y0, y1, y2, y3] := by
    simp [slice?, sliceOf]
  have r39 : slice? (hop :: s0 :: s1 :: n0 :: n1 :: n2 :: n3 :: c0 :: c1 :: c2 ::
        c3 :: l0 :: l1 :: l2 :: l3 :: y0 :: y1 :: y2 :: y3 :: symbol) 19 (19 + symbol.length)
      = some symbol := by
    have := slice?_whole_tail (hop :: s0 :: s1 :: n0 :: n1 :: n2 :: n3 :: c0 :: c1 :: c2 ::
        c3 :: l0 :: l1 :: l2 :: l3 :: y0 :: y1 :: y2 :: y3 :: symbol) 19 (by simp)
    simp only [List.length_cons, List.drop_succ_cons, List.drop_zero] at this
    rw [← this]
    congr 1
    omega
  have hlen : (h ++ (hop :: s0 :: s1 :: n0 :: n1 :: n2 :: n3 :: c0 :: c1 :: c2 :: c3 ::
        l0 :: l1 :: l2 :: l3 :: y0 :: y1 :: y2 :: y3 :: symbol)).length
      = h.length + (19 + symbol.length) := by
    simp only [List.length_append, List.length_cons]
    omega
  rw [hh] at a0 q21 q23 q27 q31 q35 q39 hlen
  simp only [parseFrame, hlen, a0, q21, q23, q27, q31, q35, q39, r21, r23, r27, r31, r35, r39,
    Option.bind_eq_bind, Option.some_bind, Option.pure_def]

/-- C3: decoding undoes encoding on the UDP frame. For a packet built by
`constructSymbolPacket` (20-byte root hash, sender id below `2^16`, chunk count, chunk id and
chunk length below `2^32`), the header parse of `Gossip` succeeds and yields the root hash,
sender id, chunk count, chunk id, chunk length and symbol id the packet was built from, and
the symbol payload. -/
theorem parseFrame_constructSymbolPacket (cfg : Consts) (raptorq : RaptorQImpl)
    (msg : List Nat) (chunkID : Int) (symbolID : Nat) (hop : Int) (enc : Encoder)
    (out : List Nat)
    (hhash : raptorq.rootHash.length = hashSize)
    (henc : raptorq.Encoder chunkID = some enc)
    (hout : enc.Encode symbolID = some out)
    (hsid : 0 ≤ raptorq.senderID ∧ raptorq.senderID < 65536)
    (hnum : 0 ≤ raptorq.numChunks ∧ raptorq.numChunks < 4294967296)
    (hcid : 0 ≤ chunkID ∧ chunkID < 4294967296)
    (hlen : 0 ≤ getChunkSize cfg raptorq msg chunkID ∧
      getChunkSize cfg raptorq msg chunkID < 4294967296)
    (hsym : symbolID < 4294967296) :
    ∃ packet frame, constructSymbolPacket cfg raptorq msg chunkID symbolID hop = .ok packet ∧
      parseFrame packet = some frame ∧
      frame.hash = raptorq.rootHash ∧
      frame.senderID = raptorq.senderID ∧
      frame.numChunks = raptorq.numChunks ∧
      frame.chunkID = chunkID ∧
      (frame.chunkSize : Int) = getChunkSize cfg raptorq msg chunkID ∧
      frame.symbolID = symbolID ∧
      frame.symbol = fitBuffer enc.SymbolSize out := by
  have b16 : uint16 raptorq.senderID < 65536 := by unfold uint16; omega
  have c16 : (uint16 raptorq.senderID : Int) = raptorq.senderID := by unfold uint16; omega
  have b32n : uint32 raptorq.numChunks < 4294967296 := by unfold uint32; omega
  have c32n : (uint32 raptorq.numChunks : Int) = raptorq.numChunks := by unfold uint32; omega
  have b32c : uint32 chunkID < 4294967296 := by unfold uint32; omega
  have c32c : (uint32 chunkID : Int) = chunkID := by unfold uint32; omega
  have b32l : uint32 (getChunkSize cfg raptorq msg chunkID) < 4294967296 := by
    unfold uint32; omega
  have c32l : (uint32 (getChunkSize cfg raptorq msg chunkID) : Int)
      = getChunkSize cfg raptorq msg chunkID := by unfold uint32; omega
  have hp : parseFrame (raptorq.rootHash ++
        (byte hop :: (putUint16 (uint16 raptorq.senderID) ++
          (putUint32 (uint32 raptorq.numChunks) ++ (putUint32 (uint32 chunkID) ++
            (putUint32 (uint32 (getChunkSize cfg raptorq msg chunkID)) ++
              (putUint32 symbolID ++ fitBuffer enc.SymbolSize out))))))) =
      some { hash := raptorq.rootHash
             senderID := (beUint (putUint16 (uint16 raptorq.senderID)) : Int)
             numChunks := (beUint (putUint32 (uint32 raptorq.numChunks)) : Int)
             chunkID := (beUint (putUint32 (uint32 chunkID)) : Int)
             chunkSize := beUint (List.replicate 4 0 ++
               putUint32 (uint32 (getChunkSize cfg raptorq msg chunkID)))
             symbolID := beUint (putUint32 symbolID)
             symbol := fitBuffer enc.SymbolSize out } := by
    simp only [putUint16, putUint32, List.cons_append, List.nil_append]
    exact parseFrame_header _ hhash _ _ _ _ _ _ _ _ _ _ _ _ _ _ _ _ _ _ _ _
  rw [beUint_putUint16 _ b16, beUint_putUint32 _ b32n, beUint_putUint32 _ b32c,
    beUint_pad_putUint32 _ b32l, beUint_putUint32 _ hsym, c16, c32n, c32c] at hp
  exact ⟨_, _, constructSymbolPacket_eq cfg raptorq msg chunkID symbolID hop enc out henc hout,
    hp, rfl, rfl, rfl, rfl, c32l, rfl, rfl⟩

/-! ### The ack threshold -/

theorem roundHalfEven_intCast (z : Int) : roundHalfEven (z : ℚ) = z := by
  simp [roundHalfEven]

theorem floor_le_roundHalfEven (q : ℚ) : ⌊q⌋ ≤ roundHalfEven q := by
  unfold roundHalfEven
  split_ifs <;> omega

theorem roundHalfEven_le_ceil (q : ℚ) : roundHalfEven q ≤ ⌈q⌉ := by
  unfold roundHalfEven
  by_cases h : q - ⌊q⌋ < 1 / 2
  · simp only [h, if_true]
    exact Int.floor_le_ceil q
  · have hlt : (⌊q⌋ : ℚ) < q := by linarith
    have h1 : ⌊q⌋ + 1 ≤ ⌈q⌉ := by
      have : ⌊q⌋ < ⌈q⌉ := Int.lt_ceil.mpr hlt
      omega
    simp only [h, if_false]
    split_ifs <;> omega

/-- The exponent of the unit in the last place used by `fl32`. -/
theorem fl32_exponent_le (x : ℚ) (hx : x ≠ 0) (k : Int) (hk : -149 ≤ k)
    (hlt : |x| < (2 : ℚ) ^ (k + 24)) : max (Int.log 2 |x|) (-126) - 23 ≤ k := by
  have hpos : 0 < |x| := abs_pos.mpr hx
  have h1 : ((2 : ℕ) : ℚ) ^ Int.log 2 |x| ≤ |x| := Int.zpow_log_le_self (by norm_num) hpos
  have h2 : (2 : ℚ) ^ Int.log 2 |x| < (2 : ℚ) ^ (k + 24) := by
    have : ((2 : ℕ) : ℚ) = 2 := by norm_num
    rw [this] at h1
    exact lt_of_le_of_lt h1 hlt
  have h3 : Int.log 2 |x| < k + 24 := (zpow_lt_zpow_iff_right₀ (by norm_num)).mp h2
  have : max (Int.log 2 |x|) (-126) ≤ k + 23 := max_le (by omega) (by omega)
  omega

theorem fl32_of_scaled (x : ℚ) (hx : x ≠ 0) (j : Nat)
    (he : max (Int.log 2 |x|) (-126) - 23 = -(j : Int)) :
    fl32 x = (roundHalfEven (x * 2 ^ j) : ℚ) / 2 ^ j := by
  unfold fl32
  rw [if_neg hx, he, zpow_neg, zpow_natCast]
  rw [div_inv_eq_mul, div_eq_mul_inv]

/-- A value with a 24-bit significand and exponent at least `-149` is a float32: rounding
leaves it unchanged. -/
theorem fl32_exact (m k : Int) (hm : |m| < 16777216) (hk : -149 ≤ k) :
    fl32 ((m : ℚ) * (2 : ℚ) ^ k) = (m : ℚ) * (2 : ℚ) ^ k := by
  by_cases hx : (m : ℚ) * (2 : ℚ) ^ k = 0
  · simp [fl32, hx]
  · have h2pos : (0 : ℚ) < (2 : ℚ) ^ k := zpow_pos (by norm_num) k
    have hlt : |(m : ℚ) * (2 : ℚ) ^ k| < (2 : ℚ) ^ (k + 24) := by
      rw [abs_mul, abs_of_pos h2pos, zpow_add₀ (by norm_num : (2 : ℚ) ≠ 0), mul_comm]
      have : |(m : ℚ)| < (2 : ℚ) ^ (24 : Int) := by
        have : ((|m| : Int) : ℚ) < 16777216 := by exact_mod_cast hm
        rw [Int.cast_abs] at this
        norm_num
        exact this
      exact mul_lt_mul_of_pos_left this h2pos
    have hle := fl32_exponent_le _ hx k hk hlt
    obtain ⟨j, hj⟩ : ∃ j : Nat, k - (max (Int.log 2 |(m : ℚ) * (2 : ℚ) ^ k|) (-126) - 23)
        = (j : Int) := ⟨(k - (max (Int.log 2 |(m : ℚ) * (2 : ℚ) ^ k|) (-126) - 23)).toNat, by omega⟩
    unfold fl32
    rw [if_neg hx]
    have he : max (Int.log 2 |(m : ℚ) * (2 : ℚ) ^ k|) (-126) - 23 = k - j := by omega
    rw [he]
    have hdiv : (m : ℚ) * (2 : ℚ) ^ k / (2 : ℚ) ^ (k - (j : Int)) = ((m * 2 ^ j : Int) : ℚ) := by
      rw [zpow_sub₀ (by norm_num : (2 : ℚ) ≠ 0), zpow_natCast]
      push_cast
      field_simp
      ring
    rw [hdiv, roundHalfEven_intCast]
    rw [zpow_sub₀ (by norm_num : (2 : ℚ) ≠ 0), zpow_natCast]
    push_cast
    field_simp
    ring

theorem fl32_natCast (n : Nat) (hn : n < 16777216) : fl32 (n : ℚ) = n := by
  have := fl32_exact (n : Int) 0 (by rw [abs_of_nonneg (Int.natCast_nonneg n)]; exact_mod_cast hn)
    (by norm_num)
  simpa using this

/-- Rounding to float32 stays between the neighbouring integers, below `2^24`. -/
theorem fl32_between (x : ℚ) (h0 : 0 ≤ x) (h1 : x < 16777216) :
    ((⌊x⌋ : Int) : ℚ) ≤ fl32 x ∧ fl32 x ≤ ((⌈x⌉ : Int) : ℚ) := by
  by_cases hx : x = 0
  · subst hx; simp [fl32]
  · have hle := fl32_exponent_le x hx 0 (by norm_num)
      (by rw [abs_of_nonneg h0]; norm_num; exact h1)
    obtain ⟨j, hj⟩ : ∃ j : Nat, max (Int.log 2 |x|) (-126) - 23 = -(j : Int) :=
      ⟨(-(max (Int.log 2 |x|) (-126) - 23)).toNat, by omega⟩
    rw [fl32_of_scaled x hx j hj]
    have hP : (0 : ℚ) < 2 ^ j := by positivity
    constructor
    · rw [le_div_iff₀ hP]
      have : ⌊x⌋ * 2 ^ j ≤ roundHalfEven (x * 2 ^ j) := by
        refine le_trans ?_ (floor_le_roundHalfEven _)
        rw [Int.le_floor]
        push_cast
        exact mul_le_mul_of_nonneg_right (Int.floor_le x) hP.le
      exact_mod_cast this
    · rw [div_le_iff₀ hP]
      have : roundHalfEven (x * 2 ^ j) ≤ ⌈x⌉ * 2 ^ j := by
        refine le_trans (roundHalfEven_le_ceil _) ?_
        rw [Int.ceil_le]
        push_cast
        exact mul_le_mul_of_nonneg_right (Int.le_ceil x) hP.le
      exact_mod_cast this

theorem BroadCast_threshold (lib : Lib) (cfg : Consts) (node : Node) (msg : List Nat)
    (now : Int) (hB : 0 < cfg.normalChunkSize) :
    ∃ r, BroadCast lib cfg node msg now = some r ∧
      r.raptorq.threshold = thresholdOf cfg node.AllPeers.length := by
  have h := numChunksOf_pos (msg.length : Int) cfg.normalChunkSize (Int.natCast_nonneg _) hB
  simp only [BroadCast, h]
  exact ⟨_, rfl, rfl⟩

theorem initRaptorQIfNotExist_threshold (cfg : Consts) (node : Node) (hash : List Nat)
    (now : Int) (hnew : cacheGet node.Cache (convertToFixedSize hash) = none) :
    (initRaptorQIfNotExist cfg node hash now).2.threshold
      = thresholdOf cfg node.AllPeers.length := by
  simp only [initRaptorQIfNotExist, hnew]

theorem thresholdOf_between (cfg : Consts) (n : Nat)
    (ht : fl32 cfg.threshold = cfg.threshold) (h0 : 0 ≤ cfg.threshold)
    (h1 : cfg.threshold ≤ 1) (hn : n < 16777216) :
    ⌊cfg.threshold * (n : ℚ)⌋ ≤ thresholdOf cfg n ∧
      thresholdOf cfg n ≤ ⌈cfg.threshold * (n : ℚ)⌉ := by
  have hx0 : 0 ≤ cfg.threshold * (n : ℚ) := mul_nonneg h0 (Nat.cast_nonneg n)
  have hx1 : cfg.threshold * (n : ℚ) < 16777216 := by
    have hnq : (n : ℚ) < 16777216 := by exact_mod_cast hn
    have : cfg.threshold * (n : ℚ) ≤ 1 * (n : ℚ) :=
      mul_le_mul_of_nonneg_right h1 (Nat.cast_nonneg n)
    linarith
  obtain ⟨hlo, hhi⟩ := fl32_between _ hx0 hx1
  have hf0 : (0 : ℚ) ≤ fl32 (cfg.threshold * (n : ℚ)) := by
    have : (0 : ℚ) ≤ ((⌊cfg.threshold * (n : ℚ)⌋ : Int) : ℚ) := by
      exact_mod_cast Int.floor_nonneg.mpr hx0
    linarith
  unfold thresholdOf truncToInt
  rw [ht, fl32_natCast n hn, if_pos hf0]
  constructor
  · exact Int.le_floor.mpr hlo
  · have : ((⌊fl32 (cfg.threshold * (n : ℚ))⌋ : Int) : ℚ) ≤ ((⌈cfg.threshold * (n : ℚ)⌉ : Int) : ℚ) :=
      le_trans (Int.floor_le _) hhi
    exact_mod_cast this

theorem thresholdOf_exact (cfg : Consts) (n : Nat)
    (ht : fl32 cfg.threshold = cfg.threshold) (h0 : 0 ≤ cfg.threshold)
    (hn : n < 16777216) (m k : Int) (hm : |m| < 16777216) (hk : -149 ≤ k)
    (hx : cfg.threshold * (n : ℚ) = (m : ℚ) * (2 : ℚ) ^ k) :
    thresholdOf cfg n = ⌊cfg.threshold * (n : ℚ)⌋ := by
  have hx0 : 0 ≤ cfg.threshold * (n : ℚ) := mul_nonneg h0 (Nat.cast_nonneg n)
  unfold thresholdOf truncToInt
  rw [ht, fl32_natCast n hn, hx, fl32_exact m k hm hk, ← hx, if_pos hx0]

theorem thresholdOf_half_three : thresholdOf exampleConsts 3 = 1 := by
  have e1 : fl32 (1 / 2 : ℚ) = 1 / 2 := by
    have := fl32_exact 1 (-1) (by decide) (by decide)
    norm_num at this
    exact this
  have e2 : fl32 (3 / 2 : ℚ) = 3 / 2 := by
    have := fl32_exact 3 (-1) (by decide) (by decide)
    norm_num at this
    rw [show (3 / 2 : ℚ) = 3 * 2⁻¹ by norm_num]
    exact this
  have e3 : fl32 ((3 : Nat) : ℚ) = ((3 : Nat) : ℚ) := fl32_natCast 3 (by decide)
  unfold thresholdOf truncToInt
  simp only [exampleConsts]
  rw [e1, e3]
  have e4 : (1 / 2 : ℚ) * ((3 : Nat) : ℚ) = 3 / 2 := by norm_num
  rw [e4, e2]
  norm_num

/-- C5 (as the code has it): for a float32 threshold fraction in `[0, 1]` and fewer than
`2^24` peers, the quorum stored by `BroadCast` and by `initRaptorQIfNotExist` is the float32
product `threshold * float32(|AllPeers|)` with its fraction discarded: it lies between the
floor and the ceiling of `threshold_fraction * |AllPeers|`, and it is the floor whenever that
product is itself a float32 value. -/
theorem threshold_is_truncated_product (lib : Lib) (cfg : Consts) (node : Node)
    (msg hash : List Nat) (now : Int)
    (hB : 0 < cfg.normalChunkSize)
    (ht : fl32 cfg.threshold = cfg.threshold)
    (h0 : 0 ≤ cfg.threshold) (h1 : cfg.threshold ≤ 1)
    (hn : node.AllPeers.length < 16777216)
    (hnew : cacheGet node.Cache (convertToFixedSize hash) = none) :
    (∃ r, BroadCast lib cfg node msg now = some r ∧
      r.raptorq.threshold = (initRaptorQIfNotExist cfg node hash now).2.threshold ∧
      ⌊cfg.threshold * (node.AllPeers.length : ℚ)⌋ ≤ r.raptorq.threshold ∧
      r.raptorq.threshold ≤ ⌈cfg.threshold * (node.AllPeers.length : ℚ)⌉ ∧
      (∀ m k : Int, |m| < 16777216 → -149 ≤ k →
        cfg.threshold * (node.AllPeers.length : ℚ) = (m : ℚ) * (2 : ℚ) ^ k →
        r.raptorq.threshold = ⌊cfg.threshold * (node.AllPeers.length : ℚ)⌋)) := by
  obtain ⟨r, hr, hthr⟩ := BroadCast_threshold lib cfg node msg now hB
  refine ⟨r, hr, ?_, ?_, ?_, ?_⟩
  · rw [hthr, initRaptorQIfNotExist_threshold cfg node hash now hnew]
  · rw [hthr]; exact (thresholdOf_between cfg _ ht h0 h1 hn).1
  · rw [hthr]; exact (thresholdOf_between cfg _ ht h0 h1 hn).2
  · intro m k hm hk hx
    rw [hthr]
    exact thresholdOf_exact cfg _ ht h0 hn m k hm hk hx

/-- C5, counterexample: with threshold fraction 0.5 and three peers both `BroadCast` and
`initRaptorQIfNotExist` store the quorum 1, while `⌈0.5 * 3⌉ = 2`. -/
theorem threshold_half_three_not_ceil :
    (∃ r, BroadCast exampleLib exampleConsts exampleNode [] 0 = some r ∧
      r.raptorq.threshold = 1) ∧
    (initRaptorQIfNotExist exampleConsts exampleNode (List.replicate 20 0) 0).2.threshold = 1 ∧
    exampleConsts.threshold = 1 / 2 ∧ exampleNode.AllPeers.length = 3 ∧
    ⌈exampleConsts.threshold * (exampleNode.AllPeers.length : ℚ)⌉ = 2 := by
  refine ⟨?_, ?_, rfl, rfl, ?_⟩
  · obtain ⟨r, hr, hthr⟩ := BroadCast_threshold exampleLib exampleConsts exampleNode [] 0
      (by decide)
    exact ⟨r, hr, by rw [hthr]; exact thresholdOf_half_three⟩
  · rw [initRaptorQIfNotExist_threshold exampleConsts exampleNode _ 0 rfl]
    exact thresholdOf_half_three
  · simp only [exampleConsts, exampleNode, List.length_cons, List.length_nil]
    rw [Int.ceil_eq_iff]
    norm_num

/-! ### Relay -/

theorem relay_recipients (peers : List Peer) (idx0 : Nat) (packet : List Nat) :
    (List.range peers.length).filterMap (fun i =>
        (peers[(i + idx0) % peers.length]?).map (fun peer => (peer, packet)))
      = (peers.rotate idx0).map (fun peer => (peer, packet)) := by
  apply List.ext_getElem?
  intro i
  by_cases hi : i < peers.length
  · have hmod : (i + idx0) % peers.length < peers.length := Nat.mod_lt _ (by omega)
    have hf : (List.range peers.length).filterMap (fun i =>
        (peers[(i + idx0) % peers.length]?).map (fun peer => (peer, packet)))
        = (List.range peers.length).map (fun i =>
          (peers.getD ((i + idx0) % peers.length) (examplePeer 0), packet)) := by
      rw [← List.filterMap_eq_map]
      apply List.filterMap_congr
      intro a ha
      have ha1 : a < peers.length := List.mem_range.mp ha
      have : (a + idx0) % peers.length < peers.length := Nat.mod_lt _ (by omega)
      simp [List.getD, List.getElem?_eq_getElem this]
    rw [hf]
    simp only [List.getElem?_map, List.getElem?_range hi, Option.map_some]
    rw [List.getElem?_eq_getElem (by simpa using hi), List.getElem_rotate]
    simp [List.getD, List.getElem?_eq_getElem hmod]
  · have h1 : ((List.range peers.length).filterMap (fun i =>
        (peers[(i + idx0) % peers.length]?).map (fun peer => (peer, packet)))).length ≤ i := by
      refine le_trans (List.length_filterMap_le _ _) ?_
      simp only [List.length_range]
      omega
    rw [List.getElem?_eq_none h1, List.getElem?_eq_none (by simpa using hi)]

/-- C7: for a non-empty `PeerList` and any start offset: when the hop
byte of the packet is 0, `relayEncodedSymbol` writes nothing and leaves the packet as it is;
when the hop byte is `h > 0`, it writes once to each peer, the recipients being `PeerList`
rotated by the offset, every written copy has hop byte `h - 1`, the length of the packet and
every other byte unchanged. -/
theorem relayEncodedSymbol_hop (node : Node) (idx0 : Nat) (packet : List Nat)
    (hne : node.PeerList ≠ []) :
    (packet[hashSize]? = some 0 → relayEncodedSymbol node idx0 packet = some (packet, [])) ∧
    (∀ h, packet[hashSize]? = some h → 0 < h →
      ∃ sends, relayEncodedSymbol node idx0 packet = some (packet.set hashSize (h - 1), sends) ∧
        sends.map Prod.fst = node.PeerList.rotate idx0 ∧
        (sends.map Prod.fst).Perm node.PeerList ∧
        ∀ s ∈ sends, s.2[hashSize]? = some (h - 1) ∧ s.2.length = packet.length ∧
          ∀ i, i ≠ hashSize → s.2[i]? = packet[i]?) := by
  have hlen0 : node.PeerList.length ≠ 0 := by
    intro h0
    exact hne (List.length_eq_zero.mp h0)
  constructor
  · intro h0
    simp [relayEncodedSymbol, h0]
  · intro h hh hpos
    have hne0 : h ≠ 0 := by omega
    have hlt : hashSize < packet.length := by
      by_contra hcon
      rw [List.getElem?_eq_none (by omega)] at hh
      exact Option.noConfusion hh
    refine ⟨(node.PeerList.rotate idx0).map (fun peer => (peer, packet.set hashSize (h - 1))),
      ?_, ?_, ?_, ?_⟩
    · simp only [relayEncodedSymbol, hh, hne0, hlen0, if_false]
      rw [relay_recipients]
    · rw [List.map_map]
      exact List.map_id _
    · rw [List.map_map]
      have : (Prod.fst ∘ fun peer : Peer => (peer, packet.set hashSize (h - 1))) = id := rfl
      rw [this, List.map_id]
      exact List.rotate_perm _ _
    · intro s hs
      obtain ⟨peer, _, rfl⟩ := List.mem_map.mp hs
      refine ⟨?_, ?_, ?_⟩
      · simp [List.getElem?_set, hlt]
      · simp
      · intro i hi
        simp only [List.getElem?_set]
        rw [if_neg (Ne.symm hi)]

/-! ### The receive loop -/

theorem cacheGet_cacheSet (c : List (List Nat × RaptorQImpl)) (k : List Nat) (v : RaptorQImpl)
    (k1 : List Nat) :
    cacheGet (cacheSet c k v) k1 = if k = k1 then some v else cacheGet c k1 := by
  induction c with
  | nil => simp [cacheSet, cacheGet]
  | cons e rest ih =>
    obtain ⟨k2, v2⟩ := e
    by_cases h : k2 = k
    · subst h
      by_cases h1 : k2 = k1 <;> simp [cacheSet, cacheGet, h1]
    · by_cases h1 : k2 = k1
      · subst h1
        have : ¬ k = k2 := fun e => h e.symm
        simp [cacheSet, cacheGet, h, this]
      · simp [cacheSet, cacheGet, h, h1, ih]

theorem Grows_refl (c : List (List Nat × RaptorQImpl)) : Grows c c :=
  fun _ r hr => ⟨r, hr, fun _ _ h => h⟩

theorem Grows_trans {a b c : List (List Nat × RaptorQImpl)} (h1 : Grows a b) (h2 : Grows b c) :
    Grows a c := by
  intro h r hr
  obtain ⟨r1, hr1, m1⟩ := h1 h r hr
  obtain ⟨r2, hr2, m2⟩ := h2 h r1 hr1
  exact ⟨r2, hr2, fun ch s hs => m2 ch s (m1 ch s hs)⟩

theorem Grows_cacheSet (c : List (List Nat × RaptorQImpl)) (k : List Nat) (v : RaptorQImpl)
    (hv : ∀ r, cacheGet c k = some r → ∀ ch s, r.receivedSymbols ch s = true → v.receivedSymbols ch s = true) :
    Grows c (cacheSet c k v) := by
  intro h r hr
  rw [cacheGet_cacheSet]
  by_cases hk : k = h
  · subst hk
    exact ⟨v, by simp, hv r hr⟩
  · exact ⟨r, by simp [hk, hr], fun _ _ h => h⟩

theorem initRaptorQIfNotExist_hit (cfg : Consts) (node : Node) (hash : List Nat) (now : Int)
    (r : RaptorQImpl) (h : cacheGet node.Cache (convertToFixedSize hash) = some r) :
    initRaptorQIfNotExist cfg node hash now = (node, r) := by
  simp only [initRaptorQIfNotExist, h]

theorem initRaptorQIfNotExist_miss (cfg : Consts) (node : Node) (hash : List Nat) (now : Int)
    (h : cacheGet node.Cache (convertToFixedSize hash) = none) :
    (initRaptorQIfNotExist cfg node hash now).1.Cache
        = cacheSet node.Cache (convertToFixedSize hash)
            (initRaptorQIfNotExist cfg node hash now).2 ∧
      (initRaptorQIfNotExist cfg node hash now).2.receivedSymbols = fun _ _ => false := by
  simp only [initRaptorQIfNotExist, h, and_self]

theorem initRaptorQIfNotExist_spec (cfg : Consts) (node : Node) (hash : List Nat) (now : Int) :
    cacheGet (initRaptorQIfNotExist cfg node hash now).1.Cache (convertToFixedSize hash)
      = some (initRaptorQIfNotExist cfg node hash now).2 ∧
    Grows node.Cache (initRaptorQIfNotExist cfg node hash now).1.Cache ∧
    (∀ r, cacheGet node.Cache (convertToFixedSize hash) = some r →
      (initRaptorQIfNotExist cfg node hash now).2 = r) ∧
    (cacheGet node.Cache (convertToFixedSize hash) = none →
       (initRaptorQIfNotExist cfg node hash now).2.receivedSymbols = fun _ _ => false) := by
  cases hc : cacheGet node.Cache (convertToFixedSize hash) with
  | some r =>
    rw [initRaptorQIfNotExist_hit cfg node hash now r hc]
    exact ⟨hc, Grows_refl _, fun r h => (Option.some.inj h), fun h => Option.noConfusion h⟩
  | none =>
    obtain ⟨h1, h2⟩ := initRaptorQIfNotExist_miss cfg node hash now hc
    rw [h1]
    refine ⟨by simp [cacheGet_cacheSet], ?_, fun r h => Option.noConfusion h, fun _ => h2⟩
    apply Grows_cacheSet
    intro r hr
    rw [hc] at hr
    exact Option.noConfusion hr

theorem setDecoderIfNotExist_received (lib : Lib) (cfg : Consts) (raptorq r1 : RaptorQImpl)
    (chunkID : Int) (chunkSize : Nat) (b : Bool)
    (h : setDecoderIfNotExist lib cfg raptorq chunkID chunkSize = some (r1, b)) :
    r1.receivedSymbols = raptorq.receivedSymbols := by
  unfold setDecoderIfNotExist at h
  split at h
  · cases h; rfl
  · dsimp only at h
    split at h
    · cases h; rfl
    · cases h

theorem gossipStep_delta (lib : Lib) (cfg : Consts) (st : GossipState)
    (dg : Option (List Nat)) (now : Int) :
    ∃ delta, (gossipStep lib cfg st dg now).trace = st.trace ++ delta ∧
      Grows st.node.Cache (gossipStep lib cfg st dg now).node.Cache ∧
      ((∀ h c s, decodeCount delta h c s = 0 ∧ relayCount delta h c s = 0) ∨
       ∃ h c s, (∀ r, cacheGet st.node.Cache h = some r → r.receivedSymbols c s = false) ∧
         (∃ r1, cacheGet (gossipStep lib cfg st dg now).node.Cache h = some r1 ∧
           r1.receivedSymbols c s = true) ∧
         (∀ h1 c1 s1,
           decodeCount delta h1 c1 s1 ≤ (if h = h1 ∧ c = c1 ∧ s = s1 then 1 else 0) ∧
           relayCount delta h1 c1 s1 ≤ (if h = h1 ∧ c = c1 ∧ s = s1 then 1 else 0))) := by
  generalize hres : gossipStep lib cfg st dg now = res
  unfold gossipStep at hres
  split at hres
  · subst hres
    exact ⟨[], by simp, Grows_refl _, Or.inl (fun _ _ _ => ⟨rfl, rfl⟩)⟩
  · split at hres
    · subst hres
      exact ⟨[], by simp, Grows_refl _, Or.inl (fun _ _ _ => ⟨rfl, rfl⟩)⟩
    · rename_i data
      dsimp only at hres
      split at hres
      · subst hres
        exact ⟨[], by simp, Grows_refl _, Or.inl (fun _ _ _ => ⟨rfl, rfl⟩)⟩
      · rename_i hash hslice
        generalize hk : convertToFixedSize hash = hashkey at hres
        split at hres
        · subst hres
          exact ⟨[], by simp, Grows_refl _, Or.inl (fun _ _ _ => ⟨rfl, rfl⟩)⟩
        · have s1 := (initRaptorQIfNotExist_spec cfg st.node hash now).1
          have s2 := (initRaptorQIfNotExist_spec cfg st.node hash now).2.1
          have s3 := (initRaptorQIfNotExist_spec cfg st.node hash now).2.2.1
          rw [hk] at s1 s3
          split at hres
          · subst hres
            exact ⟨[], by simp, s2, Or.inl (fun _ _ _ => ⟨rfl, rfl⟩)⟩
          · rename_i frame hparse
            split at hres
            · subst hres
              refine ⟨[], by simp, Grows_trans s2 (Grows_cacheSet _ _ _ ?_),
                Or.inl (fun _ _ _ => ⟨rfl, rfl⟩)⟩
              intro r hr ch s hs
              rw [s1] at hr
              cases hr
              exact hs
            · rename_i raptorq started hset
              have hrs := setDecoderIfNotExist_received _ _ _ _ _ _ _ hset
              dsimp only at hrs
              split at hres
              · subst hres
                refine ⟨if started = true then [Event.watch hashkey frame.chunkID] else [], ?_,
                  Grows_trans s2 (Grows_cacheSet _ _ _ ?_), Or.inl ?_⟩
                · cases started <;> simp
                · intro r hr ch s hs
                  rw [s1] at hr
                  cases hr
                  rw [hrs]
                  exact hs
                · intro h c s
                  cases started <;> simp [decodeCount, relayCount]
              · rename_i hrec
                split at hres
                · subst hres
                  refine ⟨if started = true then [Event.watch hashkey frame.chunkID] else [], ?_,
                    Grows_trans s2 (Grows_cacheSet _ _ _ ?_), Or.inl ?_⟩
                  · cases started <;> simp
                  · intro r hr ch s hs
                    rw [s1] at hr
                    cases hr
                    dsimp only
                    rw [hrs]
                    simp [hs]
                  · intro h c s
                    cases started <;> simp [decodeCount, relayCount]
                · rename_i decoder hdec
                  subst hres
                  refine ⟨(if started = true then [Event.watch hashkey frame.chunkID] else []) ++
                    ((if (!lib.isSourceObjectReady decoder) = true then
                        [Event.decode hashkey frame.chunkID frame.symbolID frame.symbol] else []) ++ [Event.relay hashkey frame.chunkID frame.symbolID (List.take cfg.udpCacheSize data)]), ?_,
                    Grows_trans s2 (Grows_cacheSet _ _ _ ?_), Or.inr ⟨hashkey, frame.chunkID, frame.symbolID, ?_, ?_, ?_⟩⟩
                  · cases started <;> cases lib.isSourceObjectReady decoder <;> simp
                  · intro r hr ch s hs
                    rw [s1] at hr
                    cases hr
                    cases lib.isSourceObjectReady decoder <;> simp [hrs, hs]
                  · intro r hr
                    have hpr := s3 r hr
                    rw [← hpr, ← hrs]
                    simpa using hrec
                  · refine ⟨_, (by dsimp only; rw [cacheGet_cacheSet, if_pos rfl]), ?_⟩
                    cases lib.isSourceObjectReady decoder <;> simp
                  · intro qh qc qs
                    clear hset s1 s2 s3 hrs hrec hdec hparse hslice
                    cases started <;> cases lib.isSourceObjectReady decoder <;>
                      simp [decodeCount, relayCount, List.countP_cons]

theorem decodeCount_append (a b : List Event) (h : List Nat) (c : Int) (s : Nat) :
    decodeCount (a ++ b) h c s = decodeCount a h c s + decodeCount b h c s := by
  simp [decodeCount, List.countP_append]

theorem relayCount_append (a b : List Event) (h : List Nat) (c : Int) (s : Nat) :
    relayCount (a ++ b) h c s = relayCount a h c s + relayCount b h c s := by
  simp [relayCount, List.countP_append]

theorem gossipStep_TraceInv (lib : Lib) (cfg : Consts) (st : GossipState)
    (dg : Option (List Nat)) (now : Int) (hinv : TraceInv st) :
    TraceInv (gossipStep lib cfg st dg now) := by
  obtain ⟨delta, htr, hgrow, hcase⟩ := gossipStep_delta lib cfg st dg now
  intro h c s
  obtain ⟨i1, i2, i3⟩ := hinv h c s
  rw [htr, decodeCount_append, relayCount_append]
  rcases hcase with hz | ⟨kh, kc, ks, hprior, ⟨r1, hr1, hr1t⟩, hcnt⟩
  · obtain ⟨z1, z2⟩ := hz h c s
    rw [z1, z2]
    refine ⟨by omega, by omega, ?_⟩
    intro hpos
    obtain ⟨r, hr, hrt⟩ := i3 (by omega)
    obtain ⟨r2, hr2, hm⟩ := hgrow h r hr
    exact ⟨r2, hr2, hm c s hrt⟩
  · obtain ⟨d1, d2⟩ := hcnt h c s
    by_cases hkey : kh = h ∧ kc = c ∧ ks = s
    · obtain ⟨rfl, rfl, rfl⟩ := hkey
      have hzero : decodeCount st.trace kh kc ks = 0 ∧ relayCount st.trace kh kc ks = 0 := by
        by_contra hne
        have hpos : 0 < decodeCount st.trace kh kc ks ∨ 0 < relayCount st.trace kh kc ks := by
          omega
        obtain ⟨r, hr, hrt⟩ := i3 hpos
        have := hprior r hr
        rw [this] at hrt
        exact Bool.noConfusion hrt
      simp only [and_self, if_true] at d1 d2
      refine ⟨by omega, by omega, fun _ => ⟨r1, hr1, hr1t⟩⟩
    · rw [if_neg hkey] at d1 d2
      refine ⟨by omega, by omega, ?_⟩
      intro hpos
      obtain ⟨r, hr, hrt⟩ := i3 (by omega)
      obtain ⟨r2, hr2, hm⟩ := hgrow h r hr
      exact ⟨r2, hr2, hm c s hrt⟩

theorem Gossip_TraceInv (lib : Lib) (cfg : Consts) (arrivals : List (Option (List Nat) × Int)) :
    ∀ st : GossipState, TraceInv st →
      TraceInv (Gossip lib cfg st arrivals) ∧
        Grows st.node.Cache (Gossip lib cfg st arrivals).node.Cache := by
  induction arrivals with
  | nil => intro st h; exact ⟨h, Grows_refl _⟩
  | cons a rest ih =>
    intro st h
    have h1 := gossipStep_TraceInv lib cfg st a.1 a.2 h
    obtain ⟨_, _, hg, _⟩ := gossipStep_delta lib cfg st a.1 a.2
    obtain ⟨h2, hg2⟩ := ih _ h1
    exact ⟨h2, Grows_trans hg hg2⟩

theorem gossipStep_recorded_quiet (lib : Lib) (cfg : Consts) (st : GossipState)
    (dg : Option (List Nat)) (now : Int) (h : List Nat) (c : Int) (s : Nat) (r : RaptorQImpl)
    (hr : cacheGet st.node.Cache h = some r) (hrec : r.receivedSymbols c s = true) :
    decodeCount (gossipStep lib cfg st dg now).trace h c s = decodeCount st.trace h c s ∧
    relayCount (gossipStep lib cfg st dg now).trace h c s = relayCount st.trace h c s := by
  obtain ⟨delta, htr, _, hcase⟩ := gossipStep_delta lib cfg st dg now
  rw [htr, decodeCount_append, relayCount_append]
  rcases hcase with hz | ⟨kh, kc, ks, hprior, _, hcnt⟩
  · obtain ⟨z1, z2⟩ := hz h c s
    omega
  · obtain ⟨d1, d2⟩ := hcnt h c s
    have hkey : ¬ (kh = h ∧ kc = c ∧ ks = s) := by
      rintro ⟨rfl, rfl, rfl⟩
      have := hprior r hr
      rw [this] at hrec
      exact Bool.noConfusion hrec
    rw [if_neg hkey] at d1 d2
    omega

/-- The receive loop alone. Over any sequence of datagrams handled by the fold `Gossip` started
with an empty trace, with no sweep pass in between, for every blob hash, chunk id and symbol
id the decoder of that chunk is handed the symbol at most once and at most one relay goroutine
is started for it; a symbol id recorded in `receivedSymbols` of a cached blob stays recorded;
and a datagram whose symbol id is already recorded causes neither a decode nor a relay for
it. -/
theorem Gossip_decodes_and_relays_once (lib : Lib) (cfg : Consts) (node : Node)
    (arrivals : List (Option (List Nat) × Int)) :
    (∀ hash chunkId symbolId,
      decodeCount (Gossip lib cfg { node := node } arrivals).trace hash chunkId symbolId ≤ 1 ∧
      relayCount (Gossip lib cfg { node := node } arrivals).trace hash chunkId symbolId ≤ 1) ∧
    (∀ hash raptorq chunkId symbolId, cacheGet node.Cache hash = some raptorq →
      raptorq.receivedSymbols chunkId symbolId = true →
      ∃ raptorq1, cacheGet (Gossip lib cfg { node := node } arrivals).node.Cache hash
          = some raptorq1 ∧ raptorq1.receivedSymbols chunkId symbolId = true) ∧
    (∀ datagram now hash raptorq chunkId symbolId,
      cacheGet (Gossip lib cfg { node := node } arrivals).node.Cache hash = some raptorq →
      raptorq.receivedSymbols chunkId symbolId = true →
      decodeCount (gossipStep lib cfg (Gossip lib cfg { node := node } arrivals) datagram
          now).trace hash chunkId symbolId
        = decodeCount (Gossip lib cfg { node := node } arrivals).trace hash chunkId symbolId ∧
      relayCount (gossipStep lib cfg (Gossip lib cfg { node := node } arrivals) datagram
          now).trace hash chunkId symbolId
        = relayCount (Gossip lib cfg { node := node } arrivals).trace hash chunkId symbolId) := by
  have h0 : TraceInv { node := node } := by
    intro h c s
    simp [decodeCount, relayCount]
  obtain ⟨hinv, hg⟩ := Gossip_TraceInv lib cfg arrivals _ h0
  refine ⟨?_, ?_, ?_⟩
  · intro h c s
    exact ⟨(hinv h c s).1, (hinv h c s).2.1⟩
  · intro h r c s hr hrt
    obtain ⟨r1, hr1, hm⟩ := hg h r hr
    exact ⟨r1, hr1, hm c s hrt⟩
  · intro dg now h r c s hr hrt
    exact gossipStep_recorded_quiet lib cfg _ dg now h c s r hr hrt

theorem Gossip_duplicates_once :
    decodeCount (Gossip exampleLib exampleConsts { node := exampleNode }
      [(some fullDatagram, 0), (some fullDatagram, 1), (none, 2), (some fullDatagram, 3)]).trace
      (List.replicate 20 9) 0 5 = 1 ∧
    relayCount (Gossip exampleLib exampleConsts { node := exampleNode }
      [(some fullDatagram, 0), (some fullDatagram, 1), (none, 2), (some fullDatagram, 3)]).trace
      (List.replicate 20 9) 0 5 = 1 := by
  decide

/-- C4, the code at a short datagram: with `symbolSize = 4` a 39-byte datagram (shorter than
`39 + symbolSize = 43`) is not discarded: the loop goes on without a crash, a blob state is
created for its hash, a decoder is created and fed the empty symbol, and a relay is started.
A 25-byte datagram ends the loop by a slice-bounds panic, after a blob state was created. -/
theorem gossipStep_short_datagram_processed :
    (shortDatagram.length : Int) < 39 + exampleConsts.symbolSize ∧
    exampleNode.Cache.length = 0 ∧
    (gossipStep exampleLib exampleConsts { node := exampleNode } (some shortDatagram) 0).crashed
      = false ∧
    (gossipStep exampleLib exampleConsts { node := exampleNode } (some shortDatagram) 0).trace
      = [Event.watch (List.replicate 20 9) 0, Event.decode (List.replicate 20 9) 0 5 [],
         Event.relay (List.replicate 20 9) 0 5 shortDatagram] ∧
    (gossipStep exampleLib exampleConsts { node := exampleNode } (some shortDatagram)
      0).node.Cache.map Prod.fst = [List.replicate 20 9] ∧
    (gossipStep exampleLib exampleConsts { node := exampleNode } (some (List.replicate 25 1))
      0).crashed = true ∧
    (gossipStep exampleLib exampleConsts { node := exampleNode } (some (List.replicate 25 1))
      0).node.Cache.map Prod.fst = [List.replicate 20 1] := by
  refine ⟨by decide, rfl, rfl, rfl, rfl, rfl, rfl⟩

/-! ### The cache sweeper and the broadcast supervisor -/

theorem wrap64_of_range (x : Int) (h0 : -9223372036854775808 ≤ x) (h1 : x < 9223372036854775808) :
    wrap64 x = x := by
  unfold wrap64
  omega

theorem clearCacheTest_eq (cfg : Consts) (now : Int) (v : RaptorQImpl)
    (hnow : 0 ≤ now ∧ now < 9223372036854775808)
    (hi : 0 ≤ v.initTime ∧ v.initTime < 9223372036854775808)
    (hs : 0 ≤ v.successTime ∧ v.successTime < 9223372036854775808)
    (hC : -9223372036854775808 ≤ cfg.cacheClearInterval * 1000000000 ∧
      cfg.cacheClearInterval * 1000000000 < 9223372036854775808)
    (hE : -9223372036854775808 ≤ cfg.enforceClearInterval * 1000000000 ∧
      cfg.enforceClearInterval * 1000000000 < 9223372036854775808) :
    clearCacheTest cfg now v = sweepRemoves cfg now v := by
  unfold clearCacheTest sweepRemoves
  simp only []
  rw [wrap64_of_range (now - v.successTime) (by omega) (by omega),
    wrap64_of_range (now - v.initTime) (by omega) (by omega),
    wrap64_of_range _ hC.1 hC.2, wrap64_of_range _ hE.1 hE.2]
  by_cases h1 : v.successTime > 0 ∧ now - v.successTime > cfg.cacheClearInterval * 1000000000
  · simp [h1]
  · by_cases h2 : now - v.initTime > cfg.enforceClearInterval * 1000000000
    · simp [h1, h2]
    · simp [h1, h2]

theorem clearCache_foldl (t : RaptorQImpl → Bool) (l : List (List Nat × RaptorQImpl)) :
    ∀ acc : List (List Nat × RaptorQImpl),
      l.foldl (fun acc e => if t e.2 then cacheDelete acc e.1 else acc) acc
        = acc.filter (fun e => !(l.any (fun e1 => decide (e1.1 = e.1) && t e1.2))) := by
  induction l with
  | nil => intro acc; simp
  | cons e0 rest ih =>
    intro acc
    rw [List.foldl_cons, ih]
    by_cases h : t e0.2 = true
    · simp only [h, if_true, cacheDelete, List.filter_filter]
      apply List.filter_congr
      intro e _
      by_cases hk : e0.1 = e.1
      · simp [hk, h]
      · have hk1 : ¬ e.1 = e0.1 := fun h => hk h.symm
        simp [hk, hk1]
    · simp only [h]
      apply List.filter_congr
      intro e _
      simp [h]

theorem clearCachePass_filter (t : RaptorQImpl → Bool) (cache : List (List Nat × RaptorQImpl))
    (hkeys : (cache.map Prod.fst).Nodup) :
    cache.foldl (fun acc e => if t e.2 then cacheDelete acc e.1 else acc) cache
      = cache.filter (fun e => !t e.2) := by
  rw [clearCache_foldl]
  apply List.filter_congr
  intro e he
  congr 1
  have hinj := List.inj_on_of_nodup_map hkeys
  by_cases ht : t e.2 = true
  · rw [ht, List.any_eq_true]
    exact ⟨e, he, by simp [ht]⟩
  · have ht1 : t e.2 = false := by simpa using ht
    rw [ht1, List.any_eq_false]
    intro e1 he1
    by_cases hk : e1.1 = e.1
    · have : e1 = e := hinj he1 he hk
      subst this
      simp [ht1]
    · simp [hk]

/-- C9: for a cache with distinct keys, Unix-nanosecond times in the `int64` range and
intervals whose nanosecond values fit `int64`, one sweep pass of `clearCache` at time `now`
leaves exactly the entries that satisfy neither `successTime > 0 ∧ now - successTime >
cacheClearInterval` nor `now - initTime > enforceClearInterval` (intervals in nanoseconds),
each unchanged and in place; so no entry is left under the key of an entry whose `initTime` is
older than `enforceClearInterval`. -/
theorem clearCachePass_removes_exactly (cfg : Consts) (cache : List (List Nat × RaptorQImpl))
    (now : Int)
    (hkeys : (cache.map Prod.fst).Nodup)
    (hnow : 0 ≤ now ∧ now < 9223372036854775808)
    (htimes : ∀ e ∈ cache, (0 ≤ e.2.initTime ∧ e.2.initTime < 9223372036854775808) ∧
      (0 ≤ e.2.successTime ∧ e.2.successTime < 9223372036854775808))
    (hC : -9223372036854775808 ≤ cfg.cacheClearInterval * 1000000000 ∧
      cfg.cacheClearInterval * 1000000000 < 9223372036854775808)
    (hE : -9223372036854775808 ≤ cfg.enforceClearInterval * 1000000000 ∧
      cfg.enforceClearInterval * 1000000000 < 9223372036854775808) :
    clearCachePass cfg cache now = cache.filter (fun e => !sweepRemoves cfg now e.2) ∧
    (∀ e ∈ cache, now - e.2.initTime > cfg.enforceClearInterval * 1000000000 →
      ∀ e1 ∈ clearCachePass cfg cache now, e1.1 ≠ e.1) := by
  have heq : clearCachePass cfg cache now
      = cache.filter (fun e => !sweepRemoves cfg now e.2) := by
    unfold clearCachePass
    rw [clearCachePass_filter _ cache hkeys]
    apply List.filter_congr
    intro e he
    rw [clearCacheTest_eq cfg now e.2 hnow (htimes e he).1 (htimes e he).2 hC hE]
  refine ⟨heq, ?_⟩
  intro e he hold e1 he1 hk
  rw [heq, List.mem_filter] at he1
  have : e1 = e := List.inj_on_of_nodup_map hkeys he1.1 he hk
  subst this
  have hrem : sweepRemoves cfg now e1.2 = true := by
    unfold sweepRemoves
    exact decide_eq_true (Or.inr hold)
  rw [hrem] at he1
  exact Bool.noConfusion he1.2

theorem mem_chunkIds (n z : Int) : z ∈ chunkIds n ↔ 0 ≤ z ∧ z < n := by
  unfold chunkIds
  rw [List.mem_map]
  constructor
  · rintro ⟨k, hk, rfl⟩
    have hk1 := List.mem_range.mp hk
    have : ((k : Nat) : Int) = Int.ofNat k := rfl
    rw [← this]
    omega
  · rintro ⟨h0, h1⟩
    refine ⟨z.toNat, List.mem_range.mpr (by omega), ?_⟩
    have : Int.ofNat z.toNat = ((z.toNat : Nat) : Int) := rfl
    rw [this]
    omega

theorem stopPollChunks_inv (cancels : List Int) (raptorq : RaptorQImpl) (polls : List Poll)
    (poll : Poll) (idx : Nat) (hidx : polls[idx]? = some poll) (zs : List Int) :
    ∀ st : StopState, StopInv raptorq polls st →
      (∀ z ∈ zs, (0 ≤ z ∧ z < raptorq.numChunks) ∧ z ∈ cancels) →
      ∃ st1, stopPollChunks cancels raptorq poll idx zs st = some st1 ∧
        StopInv raptorq polls st1 := by
  induction zs with
  | nil => intro st h _; exact ⟨st, rfl, h⟩
  | cons z zs ih =>
    intro st h hz
    have hz0 := hz z (List.mem_cons_self _ _)
    have hzs : ∀ z ∈ zs, (0 ≤ z ∧ z < raptorq.numChunks) ∧ z ∈ cancels :=
      fun y hy => hz y (List.mem_cons_of_mem _ hy)
    unfold stopPollChunks
    by_cases hc : z ∈ st.canceled
    · rw [if_pos hc]; exact ih st h hzs
    · rw [if_neg hc]
      by_cases ht : poll.counter (convertToFixedSize raptorq.rootHash) z ≥ raptorq.threshold
      · rw [if_pos ht]
        simp only [hz0.2, if_true]
        apply ih _ _ hzs
        obtain ⟨h1, h2, h3, h4⟩ := h
        refine ⟨?_, ?_, ?_, ?_⟩
        · simp [h1]
        · exact List.nodup_cons.mpr ⟨hc, h2⟩
        · intro y hy
          rcases List.mem_cons.mp hy with rfl | hy
          · exact hz0.1
          · exact h3 y hy
        · intro ic hic
          rcases List.mem_append.mp hic with hic | hic
          · exact h4 ic hic
          · rw [List.mem_singleton] at hic
            subst hic
            exact ⟨poll, hidx, ht⟩
      · rw [if_neg ht]; exact ih st h hzs

theorem stopBroadCastLoop_inv (cancels : List Int) (raptorq : RaptorQImpl) (polls : List Poll)
    (hcancels : ∀ z : Int, 0 ≤ z → z < raptorq.numChunks → z ∈ cancels) (rest : List Poll) :
    ∀ (idx : Nat) (st : StopState), polls.drop idx = rest → StopInv raptorq polls st →
      (st.canceled.length : Int) < raptorq.numChunks →
      ∃ st1 early, stopBroadCastLoop cancels raptorq rest idx st = some (st1, early) ∧
        StopInv raptorq polls st1 ∧
        (early = true ↔ raptorq.numChunks ≤ (st1.canceled.length : Int)) := by
  induction rest with
  | nil =>
    intro idx st _ h hlt
    exact ⟨st, false, rfl, h, by simp; omega⟩
  | cons poll rest ih =>
    intro idx st hdrop h hlt
    have hidx : polls[idx]? = some poll := by
      have := congrArg List.head? hdrop
      rw [List.head?_drop] at this
      simpa using this
    have hzs : ∀ z ∈ chunkIds raptorq.numChunks,
        (0 ≤ z ∧ z < raptorq.numChunks) ∧ z ∈ cancels := by
      intro z hz
      have hr := (mem_chunkIds raptorq.numChunks z).mp hz
      exact ⟨hr, hcancels _ hr.1 hr.2⟩
    obtain ⟨st1, hst1, hinv1⟩ := stopPollChunks_inv cancels raptorq polls poll idx hidx _ st h hzs
    unfold stopBroadCastLoop
    simp only [hst1]
    by_cases hdone : (st1.canceled.length : Int) ≥ raptorq.numChunks
    · rw [if_pos hdone]
      exact ⟨st1, true, rfl, hinv1, by simp; omega⟩
    · rw [if_neg hdone]
      apply ih (idx + 1) st1 _ hinv1 (by omega)
      rw [← List.drop_drop, hdrop]
      rfl

theorem numChunksOf_ge_one (F B n : Int) (hF : 0 ≤ F) (hB : 0 < B)
    (h : numChunksOf F B = some n) : 1 ≤ n := by
  unfold numChunksOf at h
  by_cases h1 : F ≤ B
  · rw [if_pos h1] at h; cases h; exact le_refl _
  · have hB0 : B ≠ 0 := by omega
    rw [if_neg h1, if_neg hB0, Int.tdiv_eq_ediv hF hB.le] at h
    have hq : 1 ≤ F / B := Int.le_ediv_of_mul_le hB (by omega)
    split at h <;> cases h <;> omega

theorem BroadCast_handles (lib : Lib) (cfg : Consts) (node : Node) (msg : List Nat) (now : Int)
    (r : BroadCastResult) (hB : 0 < cfg.normalChunkSize)
    (hr : BroadCast lib cfg node msg now = some r) :
    1 ≤ r.raptorq.numChunks ∧ r.cancels = chunkIds r.raptorq.numChunks := by
  unfold BroadCast at hr
  dsimp only at hr
  cases hn : numChunksOf (msg.length : Int) cfg.normalChunkSize with
  | none => rw [hn] at hr; cases hr
  | some n =>
    rw [hn] at hr
    cases hr
    exact ⟨numChunksOf_ge_one _ _ _ (Int.natCast_nonneg _) hB hn, rfl⟩

theorem nodup_covers_iff (l : List Int) (n : Int) (hnd : l.Nodup)
    (hrange : ∀ z ∈ l, 0 ≤ z ∧ z < n) :
    n ≤ (l.length : Int) ↔ ∀ c : Int, 0 ≤ c → c < n → c ∈ l := by
  have hsub : l.toFinset ⊆ Finset.Ico 0 n := by
    intro z hz
    rw [List.mem_toFinset] at hz
    rw [Finset.mem_Ico]
    exact hrange z hz
  have hcard : l.toFinset.card = l.length := List.toFinset_card_of_nodup hnd
  have hico : (Finset.Ico (0 : Int) n).card = n.toNat := by simp
  constructor
  · intro hle c h0 h1
    have heq : l.toFinset = Finset.Ico 0 n := by
      apply Finset.eq_of_subset_of_card_le hsub
      rw [hico, hcard]
      omega
    have : c ∈ Finset.Ico (0 : Int) n := Finset.mem_Ico.mpr ⟨h0, h1⟩
    rw [← heq, List.mem_toFinset] at this
    exact this
  · intro hall
    have hsup : Finset.Ico (0 : Int) n ⊆ l.toFinset := by
      intro c hc
      rw [Finset.mem_Ico] at hc
      rw [List.mem_toFinset]
      exact hall c hc.1 hc.2
    have := Finset.card_le_card hsup
    rw [hico, hcard] at this
    omega

/-- C10: for a blob produced by `BroadCast` and any sequence of counter readings made by the
polling loop of `StopBroadCast`, the loop ends without a panic, every cancel call for a chunk
`c` is made in an iteration whose reading has `PeerDecodedCounter[hash][c] ≥ threshold`, no
chunk is cancelled twice, and the loop is left by its `return` exactly when every chunk in
`[0, numChunks)` has been cancelled. -/
theorem StopBroadCast_cancels_at_threshold (lib : Lib) (cfg : Consts) (node : Node)
    (msg : List Nat) (now : Int) (r : BroadCastResult) (polls : List Poll)
    (hB : 0 < cfg.normalChunkSize)
    (hr : BroadCast lib cfg node msg now = some r) :
    ∃ st early, StopBroadCast r.cancels r.raptorq polls = some (st, early) ∧
      (∀ ic ∈ st.cancelCalls, ∃ p, polls[ic.1]? = some p ∧
        r.raptorq.threshold ≤ p.counter (convertToFixedSize r.raptorq.rootHash) ic.2) ∧
      (st.cancelCalls.map Prod.snd).Nodup ∧
      (early = true ↔
        ∀ c : Int, 0 ≤ c → c < r.raptorq.numChunks → c ∈ st.cancelCalls.map Prod.snd) := by
  obtain ⟨hn1, hcs⟩ := BroadCast_handles lib cfg node msg now r hB hr
  have hcancels : ∀ z : Int, 0 ≤ z → z < r.raptorq.numChunks → z ∈ r.cancels := by
    intro z h0 h1
    rw [hcs]
    exact (mem_chunkIds _ z).mpr ⟨h0, h1⟩
  have hinit : StopInv r.raptorq polls {} := by
    refine ⟨rfl, List.nodup_nil, ?_, ?_⟩
    · intro z hz; cases hz
    · intro ic hic; cases hic
  obtain ⟨st, early, hrun, ⟨h1, h2, h3, h4⟩, hearly⟩ :=
    stopBroadCastLoop_inv r.cancels r.raptorq polls hcancels polls 0 {} rfl hinit
      (by simp; omega)
  refine ⟨st, early, hrun, h4, ?_, ?_⟩
  · rw [h1] at h2
    exact List.nodup_reverse.mp h2
  · rw [hearly, nodup_covers_iff st.canceled _ h2 h3, h1]
    simp only [List.mem_reverse]

/-! ### Concrete runs -/

theorem fl32_exampleConsts_threshold : fl32 exampleConsts.threshold = exampleConsts.threshold := by
  have h := fl32_exact 1 (-1) (by decide) (by decide)
  norm_num at h
  simpa [exampleConsts] using h

theorem exampleBroadCast_eq :
    BroadCast exampleLib exampleConsts exampleNode exampleMsg 0 = some exampleBroadCast := rfl

theorem exampleCache_times : ∀ e ∈ exampleCache,
    (0 ≤ e.2.initTime ∧ e.2.initTime < 9223372036854775808) ∧
      (0 ≤ e.2.successTime ∧ e.2.successTime < 9223372036854775808) := by
  intro e he
  simp only [exampleCache, List.mem_cons, List.mem_singleton, List.not_mem_nil, or_false] at he
  rcases he with rfl | rfl | rfl <;> decide

theorem StopBroadCast_example :
    (StopBroadCast (chunkIds 2) exampleBlob examplePolls).map
        (fun r => (r.1.cancelCalls, r.1.canceled, r.2))
      = some ([(1, 0), (2, 1)], [1, 0], true) ∧
    (StopBroadCast (chunkIds 2) exampleBlob (examplePolls.take 2)).map
        (fun r => (r.1.cancelCalls, r.1.canceled, r.2))
      = some ([(1, 0)], [0], false) := by
  decide

theorem BroadCast_numChunks_witness :
    0 < exampleConsts.normalChunkSize ∧
    ∃ r, BroadCast exampleLib exampleConsts exampleNode exampleMsg 0 = some r ∧
      r.raptorq.numChunks =
        if (exampleMsg.length : Int) ≤ exampleConsts.normalChunkSize then 1
        else ⌈((exampleMsg.length : Int) : ℚ) / (exampleConsts.normalChunkSize : ℚ)⌉ :=
  ⟨by decide, BroadCast_numChunks exampleLib exampleConsts exampleNode exampleMsg 0 (by decide)⟩

theorem constructSymbolPacket_layout_witness :
    ∃ packet, constructSymbolPacket exampleConsts exampleBlob exampleMsg 0 5 1 = .ok packet ∧
      (packet.length : Int) = 39 + exampleConsts.symbolSize ∧
      sliceOf packet 0 20 = exampleBlob.rootHash ∧
      sliceOf packet 20 21 = [byte 1] :=
  (constructSymbolPacket_layout exampleConsts exampleBlob exampleMsg 0 5 1 exampleEncoder
    [1, 2, 5] rfl rfl rfl rfl (by decide) (by decide) (by decide) (by decide) (by decide)).imp
    (fun _ h => ⟨h.1, h.2.1, h.2.2.1, h.2.2.2.1⟩)

theorem parseFrame_constructSymbolPacket_witness :
    ∃ packet frame, constructSymbolPacket exampleConsts exampleBlob exampleMsg 0 5 1 = .ok packet ∧
      parseFrame packet = some frame ∧
      frame.hash = exampleBlob.rootHash ∧
      frame.senderID = exampleBlob.senderID ∧
      frame.numChunks = exampleBlob.numChunks ∧
      frame.chunkID = 0 ∧
      (frame.chunkSize : Int) = getChunkSize exampleConsts exampleBlob exampleMsg 0 ∧
      frame.symbolID = 5 ∧
      frame.symbol = fitBuffer exampleEncoder.SymbolSize [1, 2, 5] :=
  parseFrame_constructSymbolPacket exampleConsts exampleBlob exampleMsg 0 5 1 exampleEncoder
    [1, 2, 5] rfl rfl rfl (by decide) (by decide) (by decide) (by decide) (by decide)

theorem threshold_is_truncated_product_witness :
    ∃ r, BroadCast exampleLib exampleConsts exampleNode exampleMsg 0 = some r ∧
      r.raptorq.threshold =
        (initRaptorQIfNotExist exampleConsts exampleNode (List.replicate 20 0) 0).2.threshold ∧
      ⌊exampleConsts.threshold * (exampleNode.AllPeers.length : ℚ)⌋ ≤ r.raptorq.threshold ∧
      r.raptorq.threshold ≤ ⌈exampleConsts.threshold * (exampleNode.AllPeers.length : ℚ)⌉ :=
  (threshold_is_truncated_product exampleLib exampleConsts exampleNode exampleMsg
    (List.replicate 20 0) 0 (by decide) fl32_exampleConsts_threshold
    (by norm_num [exampleConsts]) (by norm_num [exampleConsts]) (by decide) rfl).imp
    (fun _ h => ⟨h.1, h.2.1, h.2.2.1, h.2.2.2.1⟩)

theorem relayEncodedSymbol_hop_witness :
    exampleNode.PeerList ≠ [] ∧ fullDatagram[hashSize]? = some 1 ∧
    ∃ sends, relayEncodedSymbol exampleNode 1 fullDatagram
        = some (fullDatagram.set hashSize (1 - 1), sends) ∧
      sends.map Prod.fst = exampleNode.PeerList.rotate 1 ∧
      (sends.map Prod.fst).Perm exampleNode.PeerList :=
  ⟨by decide, rfl,
    ((relayEncodedSymbol_hop exampleNode 1 fullDatagram (by decide)).2 1 rfl (by decide)).imp
      (fun _ h => ⟨h.1, h.2.1, h.2.2.1⟩)⟩

theorem Gossip_decodes_and_relays_once_witness :
    ∀ hash chunkId symbolId,
      decodeCount (Gossip exampleLib exampleConsts { node := exampleNode }
        [(some fullDatagram, 0), (some fullDatagram, 1), (some shortDatagram, 2)]).trace
        hash chunkId symbolId ≤ 1 ∧
      relayCount (Gossip exampleLib exampleConsts { node := exampleNode }
        [(some fullDatagram, 0), (some fullDatagram, 1), (some shortDatagram, 2)]).trace
        hash chunkId symbolId ≤ 1 :=
  (Gossip_decodes_and_relays_once exampleLib exampleConsts exampleNode
    [(some fullDatagram, 0), (some fullDatagram, 1), (some shortDatagram, 2)]).1

theorem clearCachePass_removes_exactly_witness :
    (exampleCache.map Prod.fst).Nodup ∧
    clearCachePass exampleConsts exampleCache 100000000000
      = exampleCache.filter (fun e => !sweepRemoves exampleConsts 100000000000 e.2) ∧
    (exampleCache.filter (fun e => !sweepRemoves exampleConsts 100000000000 e.2)).map Prod.fst
      = [[3]] :=
  ⟨by decide,
    (clearCachePass_removes_exactly exampleConsts exampleCache 100000000000 (by decide)
      (by decide) exampleCache_times (by decide) (by decide)).1,
    by decide⟩

theorem StopBroadCast_cancels_at_threshold_witness :
    0 < exampleConsts.normalChunkSize ∧
    ∃ st early, StopBroadCast exampleBroadCast.cancels exampleBroadCast.raptorq examplePolls
        = some (st, early) ∧
      (∀ ic ∈ st.cancelCalls, ∃ p, examplePolls[ic.1]? = some p ∧
        exampleBroadCast.raptorq.threshold
          ≤ p.counter (convertToFixedSize exampleBroadCast.raptorq.rootHash) ic.2) ∧
      (st.cancelCalls.map Prod.snd).Nodup ∧
      (early = true ↔
        ∀ c : Int, 0 ≤ c → c < exampleBroadCast.raptorq.numChunks →
          c ∈ st.cancelCalls.map Prod.snd) :=
  ⟨by decide,
    StopBroadCast_cancels_at_threshold exampleLib exampleConsts exampleNode exampleMsg 0
      exampleBroadCast examplePolls (by decide) exampleBroadCast_eq⟩

/-! ### Decoder parameters -/

theorem constructCommonOTI_layout (cfg : Consts) (L : Nat) (hL : L < 1099511627776)
    (hs : 0 ≤ cfg.symbolSize ∧ cfg.symbolSize < 65536) :
    sliceOf (putUint64 (constructCommonOTI cfg L)) 0 5
        = [L / 4294967296 % 256, L / 16777216 % 256, L / 65536 % 256, L / 256 % 256, L % 256] ∧
      beUint (sliceOf (putUint64 (constructCommonOTI cfg L)) 0 5) = L ∧
      sliceOf (putUint64 (constructCommonOTI cfg L)) 5 6 = [0] ∧
      (beUint (sliceOf (putUint64 (constructCommonOTI cfg L)) 6 8) : Int) = cfg.symbolSize := by
  obtain ⟨s, hs1⟩ : ∃ s : Nat, uint16 cfg.symbolSize = s := ⟨_, rfl⟩
  have hs2 : (s : Int) = cfg.symbolSize := by rw [← hs1]; unfold uint16; omega
  have hs3 : s < 65536 := by omega
  have hv : constructCommonOTI cfg L = L * 16777216 + s := by
    simp only [constructCommonOTI, hs1, putUint64, putUint16, sliceOf, byte, beUint,
      List.nil_append, List.drop_succ_cons, List.drop_zero, List.take_succ_cons, List.take_zero,
      List.cons_append, List.foldl]
    norm_num
    omega
  rw [hv, ← hs2]
  simp only [putUint64, sliceOf, beUint, List.drop_succ_cons, List.drop_zero,
    List.take_succ_cons, List.take_zero, List.foldl, Nat.sub_zero]
  norm_num
  refine ⟨⟨?_, ?_, ?_, ?_, ?_⟩, ?_, ?_, ?_⟩ <;> omega

/-- C12, the code at a chunk of length 3 with `symbolSize = 4`: the decoder built by
`setDecoderIfNotExist` gets the common OTI bytes `00 00 00 00 03 | 00 | 00 04` (transfer
length 3, reserved 0, symbol size 4) and the scheme-specific OTI bytes `01 | 00 01 | 01`, whose
alignment byte is 1 and not 4, while `setEncoderIfNotExist` hands `Al = 4` to the encoder
factory (the last of the four parameters the probe encoder hands back). -/
theorem setDecoderIfNotExist_alignment_byte :
    (setDecoderIfNotExist exampleLib exampleConsts {} 0 3).map
        (fun r => (r.1.Decoder 0).map
          (fun d => (putUint64 d.commonOTI, putUint32 d.specificOTI)))
      = some (some ([0, 0, 0, 0, 3, 0, 0, 4], [1, 0, 1, 1])) ∧
    putUint32 constructSpecificOTI = [1, 0, 1, 1] ∧
    sliceOf (putUint32 constructSpecificOTI) 3 4 ≠ [4] ∧
    ((setEncoderIfNotExist probeLib exampleConsts exampleBroadCast.raptorq exampleMsg 1).bind
        (fun r => r.Encoder 1)).bind (fun e => e.Encode 0) = some [4, 4, 16, 4] := by
  decide

/-! ### Acknowledgements -/

theorem ackFrame_parts (hash : List Nat) (chunkID sid : Int) (hh : hash.length = hashSize)
    (hc : 0 ≤ chunkID ∧ chunkID < 4294967296) :
    hashSize ≤ (ackFrame hash chunkID sid).length ∧
    (ackFrame hash chunkID sid).take hashSize = hash ∧
    ((ackFrame hash chunkID sid).drop hashSize).headD 0 = metaReceived ∧
    (beUint (fitBuffer 4 ((((ackFrame hash chunkID sid).drop hashSize).drop 1).take 4)) : Int)
      = chunkID := by
  have hv : (uint32 chunkID : Int) = chunkID := by unfold uint32; omega
  have hb : uint32 chunkID < 4294967296 := by unfold uint32; omega
  have e : ackFrame hash chunkID sid
      = hash ++ (metaReceived :: (putUint32 (uint32 chunkID) ++ putUint32 (uint32 sid))) := by
    simp [ackFrame]
  rw [e]
  refine ⟨by simp [hh], ?_, ?_, ?_⟩
  · rw [← hh]; simp
  · rw [← hh]; simp
  · rw [← hh]
    have hf : fitBuffer 4 (putUint32 (uint32 chunkID)) = putUint32 (uint32 chunkID) := by
      simp [fitBuffer, putUint32]
    simp only [List.drop_left, List.drop_succ_cons, List.drop_zero]
    have ht : (putUint32 (uint32 chunkID) ++ putUint32 (uint32 sid)).take 4
        = putUint32 (uint32 chunkID) := by
      simp [putUint32]
    rw [ht, hf, beUint_putUint32 _ hb, hv]

theorem handleResponse_ackFrame (node : Node) (a : Ack) (hh : a.hash.length = hashSize)
    (hc : 0 ≤ a.chunkID ∧ a.chunkID < 4294967296) :
    (handleResponse node (ackFrame a.hash a.chunkID a.sid)).SenderCache = node.SenderCache ∧
    ∀ h c, (handleResponse node (ackFrame a.hash a.chunkID a.sid)).PeerDecodedCounter h c
      = node.PeerDecodedCounter h c +
          (if node.SenderCache a.hash = true ∧ a.hash = h ∧ a.chunkID = c then 1 else 0) := by
  obtain ⟨p1, p2, p3, p4⟩ := ackFrame_parts a.hash a.chunkID a.sid hh hc
  have hk : convertToFixedSize a.hash = a.hash := by
    unfold convertToFixedSize
    rw [← hh]
    exact List.take_length _
  unfold handleResponse
  rw [if_neg (by omega)]
  simp only [p2, p3, p4, hk, if_true]
  by_cases hs : node.SenderCache a.hash = true
  · simp only [hs, Bool.not_true, Bool.false_eq_true, if_false, true_and]
    intro h c
    by_cases hm : a.hash = h ∧ a.chunkID = c
    · obtain ⟨rfl, rfl⟩ := hm
      simp
    · have hm1 : ¬ (h = a.hash ∧ c = a.chunkID) := fun ⟨x, y⟩ => hm ⟨x.symm, y.symm⟩
      simp [hm, hm1]
  · have hs1 : node.SenderCache a.hash = false := by simpa using hs
    simp [hs1]

theorem handleResponses_ackFrames (acks : List Ack) :
    ∀ node : Node,
      (∀ a ∈ acks, a.hash.length = hashSize ∧ 0 ≤ a.chunkID ∧ a.chunkID < 4294967296) →
      (handleResponses node (acks.map (fun a => ackFrame a.hash a.chunkID a.sid))).SenderCache
        = node.SenderCache ∧
      ∀ h c, node.SenderCache h = true →
        (handleResponses node
            (acks.map (fun a => ackFrame a.hash a.chunkID a.sid))).PeerDecodedCounter h c
          = node.PeerDecodedCounter h c + (ackCount acks h c : Int) := by
  induction acks with
  | nil =>
    intro node _
    simp [handleResponses, ackCount]
  | cons a rest ih =>
    intro node hwf
    have ha := hwf a (List.mem_cons_self _ _)
    obtain ⟨s1, c1⟩ := handleResponse_ackFrame node a ha.1 ha.2
    obtain ⟨s2, c2⟩ := ih (handleResponse node (ackFrame a.hash a.chunkID a.sid))
      (fun b hb => hwf b (List.mem_cons_of_mem _ hb))
    have hfold : handleResponses node
        ((a :: rest).map (fun a => ackFrame a.hash a.chunkID a.sid))
        = handleResponses (handleResponse node (ackFrame a.hash a.chunkID a.sid))
            (rest.map (fun a => ackFrame a.hash a.chunkID a.sid)) := rfl
    rw [hfold]
    refine ⟨by rw [s2, s1], ?_⟩
    intro h c hs
    rw [c2 h c (by rw [s1]; exact hs), c1 h c]
    unfold ackCount
    rw [List.countP_cons]
    by_cases hm : a.hash = h ∧ a.chunkID = c
    · have hsa : node.SenderCache a.hash = true := by rw [hm.1]; exact hs
      simp only [hsa, hm, and_self, if_true, decide_True]
      push_cast
      simp only [hs, and_self, if_true]
      ring
    · simp only [hm, and_false, if_false, decide_False]
      simp

/-- C11 (as the code has it): for every sequence of well-formed received ack frames, as
`responseSuccess` writes them, handled by `handleResponse`, and every originated hash `h` and
chunk `c`, `PeerDecodedCounter[h][c]` rises by the number of ack frames for `(h, c)`, whichever
peer ids they carry. -/
theorem handleResponses_counts_acks (node : Node) (acks : List Ack) (h : List Nat) (c : Int)
    (hwf : ∀ a ∈ acks, a.hash.length = hashSize ∧ 0 ≤ a.chunkID ∧ a.chunkID < 4294967296)
    (hs : node.SenderCache h = true) :
    (handleResponses node
        (acks.map (fun a => ackFrame a.hash a.chunkID a.sid))).PeerDecodedCounter h c
      = node.PeerDecodedCounter h c + (ackCount acks h c : Int) :=
  (handleResponses_ackFrames acks node hwf).2 h c hs

/-- C11, counterexample: peer 5 acks chunk 0 of an originated blob twice and the counter
goes from 0 to 2, with one distinct acker; after a further ack of peer 6 the counter is 3, with
two distinct ackers. -/
theorem handleResponses_repeated_ack_counted :
    exampleSender.PeerDecodedCounter (List.replicate 20 9) 0 = 0 ∧
    (handleResponses exampleSender
        ((exampleAcks.take 2).map (fun a => ackFrame a.hash a.chunkID a.sid))).PeerDecodedCounter
      (List.replicate 20 9) 0 = 2 ∧
    distinctAckers (exampleAcks.take 2) (List.replicate 20 9) 0 = 1 ∧
    (handleResponses exampleSender
        (exampleAcks.map (fun a => ackFrame a.hash a.chunkID a.sid))).PeerDecodedCounter
      (List.replicate 20 9) 0 = 3 ∧
    distinctAckers exampleAcks (List.replicate 20 9) 0 = 2 := by
  decide

/-! ### Chunks -/

theorem numChunksOf_bounds (F B n : Int) (hF : 1 ≤ F) (hB : 0 < B)
    (h : numChunksOf F B = some n) : 1 ≤ n ∧ (n - 1) * B < F ∧ F ≤ n * B := by
  have hF0 : 0 ≤ F := by omega
  unfold numChunksOf at h
  by_cases h1 : F ≤ B
  · rw [if_pos h1] at h
    cases h
    refine ⟨le_refl _, by simpa using hF, by simpa using h1⟩
  · have hB0 : B ≠ 0 := by omega
    rw [if_neg h1, if_neg hB0, Int.tdiv_eq_ediv hF0 hB.le, Int.tmod_eq_emod hF0 hB.le] at h
    have hq : 1 ≤ F / B := Int.le_ediv_of_mul_le hB (by omega)
    have hdm : B * (F / B) + F % B = F := Int.ediv_add_emod F B
    have hm0 : 0 ≤ F % B := Int.emod_nonneg F hB0
    have hmB : F % B < B := Int.emod_lt_of_pos F hB
    by_cases hr : F % B = 0
    · rw [if_pos hr] at h
      cases h
      refine ⟨hq, ?_, ?_⟩
      · have : (F / B - 1) * B = B * (F / B) - B := by ring
        omega
      · have : F / B * B = B * (F / B) := by ring
        omega
    · rw [if_neg hr] at h
      cases h
      refine ⟨by omega, ?_, ?_⟩
      · have : (F / B + 1 - 1) * B = B * (F / B) := by ring
        omega
      · have : (F / B + 1) * B = B * (F / B) + B := by ring
        omega

theorem BroadCast_numChunksOf (lib : Lib) (cfg : Consts) (node : Node) (msg : List Nat)
    (now : Int) (r : BroadCastResult) (hr : BroadCast lib cfg node msg now = some r) :
    numChunksOf (msg.length : Int) cfg.normalChunkSize = some r.raptorq.numChunks := by
  unfold BroadCast at hr
  dsimp only at hr
  cases hn : numChunksOf (msg.length : Int) cfg.normalChunkSize with
  | none => rw [hn] at hr; cases hr
  | some n => rw [hn] at hr; cases hr; rfl

theorem join_fixed_size_chunks (B : Nat) : ∀ (n : Nat) (l : List Nat), l.length ≤ n * B →
    ((List.range n).map (fun k => (l.drop (k * B)).take B)).flatten = l := by
  intro n
  induction n with
  | zero =>
    intro l hl
    have : l = [] := List.length_eq_zero.mp (by omega)
    simp [this]
  | succ n ih =>
    intro l hl
    rw [List.range_succ_eq_map, List.map_cons, List.map_map, List.flatten_cons]
    have htail : ((fun k => (l.drop (k * B)).take B) ∘ Nat.succ)
        = fun k => ((l.drop B).drop (k * B)).take B := by
      funext k
      simp only [Function.comp, List.drop_drop]
      congr 2
      rw [Nat.succ_mul]
      omega
    rw [htail, ih (l.drop B) (by rw [List.length_drop, Nat.succ_mul] at *; omega)]
    simp

theorem encoderPiece_eq (cfg : Consts) (raptorq : RaptorQImpl) (msg : List Nat)
    (k nn Bn : Nat) (hB : cfg.normalChunkSize = (Bn : Int)) (hn : raptorq.numChunks = (nn : Int))
    (hk : k < nn) (hlo : (nn - 1) * Bn < msg.length) (hhi : msg.length ≤ nn * Bn) :
    encoderPiece cfg raptorq msg (Int.ofNat k) = some ((msg.drop (k * Bn)).take Bn) := by
  have hcast : (Int.ofNat k : Int) = (k : Int) := rfl
  unfold encoderPiece getChunkSize
  simp only [hB, hn, hcast]
  have ha : ((k : Int) * (Bn : Int)) = ((k * Bn : Nat) : Int) := by push_cast; ring
  have hb : (((k : Int) + 1) * (Bn : Int)) = ((k * Bn + Bn : Nat) : Int) := by push_cast; ring
  rw [ha, hb]
  by_cases hlast : k = nn - 1
  · have hc : (k : Int) = (nn : Int) - 1 := by omega
    rw [if_pos hc]
    have hkb : k * Bn = (nn - 1) * Bn := by rw [hlast]
    have hnb : nn * Bn = (nn - 1) * Bn + Bn := by
      have : nn = (nn - 1) + 1 := by omega
      conv_lhs => rw [this, Nat.succ_mul]
    have hcond : (0 : Int) ≤ ((k * Bn : Nat) : Int) ∧
        ((k * Bn : Nat) : Int) ≤ ((k * Bn : Nat) : Int) + ((msg.length : Int) - ((k * Bn : Nat) : Int)) ∧
        ((k * Bn : Nat) : Int) + ((msg.length : Int) - ((k * Bn : Nat) : Int)) ≤ (msg.length : Int) := by
      omega
    rw [if_pos hcond]
    have e1 : (((k * Bn : Nat) : Int) + ((msg.length : Int) - ((k * Bn : Nat) : Int))).toNat
        = msg.length := by omega
    rw [e1, Int.toNat_natCast]
    unfold sliceOf
    congr 1
    rw [List.take_of_length_le (by rw [List.length_drop]),
      List.take_of_length_le (by rw [List.length_drop]; omega)]
  · have hc : ¬ (k : Int) = (nn : Int) - 1 := by omega
    rw [if_neg hc]
    have hkb : (k + 1) * Bn ≤ (nn - 1) * Bn := Nat.mul_le_mul_right _ (by omega)
    rw [Nat.succ_mul] at hkb
    have hcond : (0 : Int) ≤ ((k * Bn : Nat) : Int) ∧
        ((k * Bn : Nat) : Int) ≤ ((k * Bn : Nat) : Int) + (((k * Bn + Bn : Nat) : Int) - ((k * Bn : Nat) : Int)) ∧
        ((k * Bn : Nat) : Int) + (((k * Bn + Bn : Nat) : Int) - ((k * Bn : Nat) : Int)) ≤ (msg.length : Int) := by
      omega
    rw [if_pos hcond]
    have e1 : (((k * Bn : Nat) : Int) + (((k * Bn + Bn : Nat) : Int) - ((k * Bn : Nat) : Int))).toNat
        = k * Bn + Bn := by omega
    rw [e1, Int.toNat_natCast]
    unfold sliceOf
    congr 2
    omega

theorem setEncoderIfNotExist_piece (lib : Lib) (cfg : Consts) (raptorq : RaptorQImpl)
    (msg : List Nat) (chunkID : Int) (piece : List Nat)
    (hnone : raptorq.Encoder chunkID = none)
    (hp : encoderPiece cfg raptorq msg chunkID = some piece) :
    setEncoderIfNotExist lib cfg raptorq msg chunkID =
      (lib.newEncoder piece (uint16 cfg.symbolSize) (uint16 cfg.symbolSize)
          ((2 * uint32 cfg.normalChunkSize) % 4294967296) 4).map
        (fun encoder => { raptorq with
          Encoder := fun c => if c = chunkID then some encoder else raptorq.Encoder c }) := by
  unfold setEncoderIfNotExist
  simp only [hnone, hp]
  cases lib.newEncoder piece (uint16 cfg.symbolSize) (uint16 cfg.symbolSize)
    ((2 * uint32 cfg.normalChunkSize) % 4294967296) 4 <;> rfl

theorem BroadCast_no_encoders (lib : Lib) (cfg : Consts) (node : Node) (msg : List Nat)
    (now : Int) (r : BroadCastResult) (hr : BroadCast lib cfg node msg now = some r) :
    ∀ c : Int, r.raptorq.Encoder c = none := by
  unfold BroadCast at hr
  dsimp only at hr
  cases hn : numChunksOf (msg.length : Int) cfg.normalChunkSize with
  | none => rw [hn] at hr; cases hr
  | some n => rw [hn] at hr; cases hr; intro c; rfl

/-- C13: for a message of at least one byte, a positive `normalChunkSize` and the blob state
returned by `BroadCast`: `getChunkSize` is `normalChunkSize` for every chunk before the last,
the last chunk has length `|msg| - (numChunks - 1) * normalChunkSize`, which lies in
`[1, normalChunkSize]`, the slices `msg[c * normalChunkSize : c * normalChunkSize +
getChunkSize(msg, c)]` taken by `setEncoderIfNotExist` are all in bounds and, in chunk-id
order, concatenate to `msg`; the blob state of `BroadCast` has no encoder yet, and for every
chunk id without an encoder `setEncoderIfNotExist` hands exactly the slice of that chunk to the
encoder factory (with `T = uint16(symbolSize)`, `WS = 2 * uint32(normalChunkSize)`, `Al = 4`)
and stores the encoder it returns; and `|msg| = normalChunkSize + 1` gives two chunks, the
second of length 1. -/
theorem chunks_partition_blob (lib : Lib) (cfg : Consts) (node : Node) (msg : List Nat)
    (now : Int) (r : BroadCastResult)
    (hB : 0 < cfg.normalChunkSize) (hlen : 1 ≤ msg.length)
    (hr : BroadCast lib cfg node msg now = some r) :
    (∀ c : Int, 0 ≤ c → c < r.raptorq.numChunks - 1 →
      getChunkSize cfg r.raptorq msg c = cfg.normalChunkSize) ∧
    getChunkSize cfg r.raptorq msg (r.raptorq.numChunks - 1)
      = (msg.length : Int) - (r.raptorq.numChunks - 1) * cfg.normalChunkSize ∧
    1 ≤ getChunkSize cfg r.raptorq msg (r.raptorq.numChunks - 1) ∧
    getChunkSize cfg r.raptorq msg (r.raptorq.numChunks - 1) ≤ cfg.normalChunkSize ∧
    (∃ pieces : List (List Nat),
      pieces.length = r.raptorq.numChunks.toNat ∧
      (chunkIds r.raptorq.numChunks).map (encoderPiece cfg r.raptorq msg) = pieces.map some ∧
      pieces.flatten = msg ∧
      (∀ c : Int, r.raptorq.Encoder c = none) ∧
      (∀ (k : Nat) (piece : List Nat) (rq : RaptorQImpl), pieces[k]? = some piece →
        rq.numChunks = r.raptorq.numChunks → rq.Encoder (k : Int) = none →
        setEncoderIfNotExist lib cfg rq msg (k : Int) =
          (lib.newEncoder piece (uint16 cfg.symbolSize) (uint16 cfg.symbolSize)
              ((2 * uint32 cfg.normalChunkSize) % 4294967296) 4).map
            (fun encoder => { rq with
              Encoder := fun c => if c = (k : Int) then some encoder else rq.Encoder c }))) ∧
    ((msg.length : Int) = cfg.normalChunkSize + 1 →
      r.raptorq.numChunks = 2 ∧ getChunkSize cfg r.raptorq msg 1 = 1) := by
  have hnum := BroadCast_numChunksOf lib cfg node msg now r hr
  obtain ⟨hn1, hlo, hhi⟩ := numChunksOf_bounds _ _ _ (by exact_mod_cast hlen) hB hnum
  have hlast : getChunkSize cfg r.raptorq msg (r.raptorq.numChunks - 1)
      = (msg.length : Int) - (r.raptorq.numChunks - 1) * cfg.normalChunkSize := by
    simp [getChunkSize]
  refine ⟨?_, hlast, ?_, ?_, ?_, ?_⟩
  · intro c _ hc
    have hne : ¬ c = r.raptorq.numChunks - 1 := by omega
    simp only [getChunkSize, hne, if_false]
    ring
  · rw [hlast]; omega
  · rw [hlast]
    have : r.raptorq.numChunks * cfg.normalChunkSize
        = (r.raptorq.numChunks - 1) * cfg.normalChunkSize + cfg.normalChunkSize := by ring
    omega
  · obtain ⟨Bn, hBn⟩ : ∃ Bn : Nat, cfg.normalChunkSize = (Bn : Int) :=
      ⟨cfg.normalChunkSize.toNat, by omega⟩
    obtain ⟨nn, hnn⟩ : ∃ nn : Nat, r.raptorq.numChunks = (nn : Int) :=
      ⟨r.raptorq.numChunks.toNat, by omega⟩
    have hnn1 : 1 ≤ nn := by omega
    have hloN : (nn - 1) * Bn < msg.length := by
      rw [hBn, hnn] at hlo
      have : (((nn : Int) - 1) * (Bn : Int)) = (((nn - 1) * Bn : Nat) : Int) := by
        push_cast [Nat.cast_sub hnn1]
        ring
      rw [this] at hlo
      exact_mod_cast hlo
    have hhiN : msg.length ≤ nn * Bn := by
      rw [hBn, hnn] at hhi
      exact_mod_cast hhi
    refine ⟨(List.range nn).map (fun k => (msg.drop (k * Bn)).take Bn), ?_, ?_,
      join_fixed_size_chunks Bn nn msg hhiN, ?_, ?_⟩
    · rw [List.length_map, List.length_range, hnn, Int.toNat_natCast]
    · have hids : chunkIds r.raptorq.numChunks = (List.range nn).map Int.ofNat := by
        unfold chunkIds
        rw [hnn, Int.toNat_natCast]
      rw [hids, List.map_map, List.map_map]
      apply List.map_congr_left
      intro k hk
      exact encoderPiece_eq cfg r.raptorq msg k nn Bn hBn hnn (List.mem_range.mp hk) hloN hhiN
    · exact BroadCast_no_encoders lib cfg node msg now r hr
    · intro k piece rq hpiece hrqn hnone
      have hk : k < nn := by
        by_contra hcon
        rw [List.getElem?_eq_none (by simp; omega)] at hpiece
        exact Option.noConfusion hpiece
      rw [List.getElem?_map, List.getElem?_range hk] at hpiece
      have hpe : (msg.drop (k * Bn)).take Bn = piece := Option.some.inj hpiece
      have hp := encoderPiece_eq cfg rq msg k nn Bn hBn (hrqn.trans hnn) hk hloN hhiN
      rw [hpe] at hp
      exact setEncoderIfNotExist_piece lib cfg rq msg (k : Int) piece hnone hp
  · intro hF
    have h2 : r.raptorq.numChunks = 2 := by
      rw [hF] at hlo hhi
      have hge : 2 ≤ r.raptorq.numChunks := by
        by_contra hcon
        have h1 : r.raptorq.numChunks = 1 := by omega
        rw [h1] at hhi
        omega
      by_contra hne
      have h3 : 3 ≤ r.raptorq.numChunks := by omega
      have : 2 * cfg.normalChunkSize ≤ (r.raptorq.numChunks - 1) * cfg.normalChunkSize :=
        mul_le_mul_of_nonneg_right (by omega) hB.le
      omega
    refine ⟨h2, ?_⟩
    simp only [getChunkSize, h2]
    norm_num
    omega

theorem handleResponse_truncated_ack :
    (handleResponse exampleSender (List.replicate 20 9 ++ [1])).PeerDecodedCounter
      (List.replicate 20 9) 0 = 1 := by
  decide

theorem chunks_partition_blob_witness :
    0 < exampleConsts.normalChunkSize ∧ 1 ≤ exampleMsg.length ∧
    (exampleMsg.length : Int) = exampleConsts.normalChunkSize + 1 ∧
    exampleBroadCast.raptorq.numChunks = 2 ∧
    getChunkSize exampleConsts exampleBroadCast.raptorq exampleMsg 1 = 1 ∧
    (chunkIds exampleBroadCast.raptorq.numChunks).map
        (encoderPiece exampleConsts exampleBroadCast.raptorq exampleMsg)
      = [some [10, 11, 12, 13, 14, 15, 16, 17], some [18]] ∧
    ((setEncoderIfNotExist exampleLib exampleConsts exampleBroadCast.raptorq exampleMsg 0).bind
        (fun rq => rq.Encoder 0)).bind (fun e => e.Encode 7) = some [10, 11, 7] ∧
    ((setEncoderIfNotExist exampleLib exampleConsts exampleBroadCast.raptorq exampleMsg 1).bind
        (fun rq => rq.Encoder 1)).bind (fun e => e.Encode 7) = some [18, 7] :=
  ⟨by decide, by decide, by decide,
    ((chunks_partition_blob exampleLib exampleConsts exampleNode exampleMsg 0 exampleBroadCast
      (by decide) (by decide) exampleBroadCast_eq).2.2.2.2.2 (by decide)).1,
    ((chunks_partition_blob exampleLib exampleConsts exampleNode exampleMsg 0 exampleBroadCast
      (by decide) (by decide) exampleBroadCast_eq).2.2.2.2.2 (by decide)).2,
    by decide, by decide, by decide⟩

theorem handleResponses_counts_acks_witness :
    exampleSender.SenderCache (List.replicate 20 9) = true ∧
    (handleResponses exampleSender
        (exampleAcks.map (fun a => ackFrame a.hash a.chunkID a.sid))).PeerDecodedCounter
        (List.replicate 20 9) 0
      = exampleSender.PeerDecodedCounter (List.replicate 20 9) 0
        + (ackCount exampleAcks (List.replicate 20 9) 0 : Int) :=
  ⟨by decide,
    handleResponses_counts_acks exampleSender exampleAcks (List.replicate 20 9) 0
      (by decide) (by decide)⟩

/-! ### The receive loop beside the cache sweeper -/

theorem cacheGet_filter_keep (P : List Nat × RaptorQImpl → Bool) (h : List Nat) :
    ∀ l : List (List Nat × RaptorQImpl), (∀ e ∈ l, e.1 = h → P e = true) →
      cacheGet (l.filter P) h = cacheGet l h := by
  intro l
  induction l with
  | nil => intro _; rfl
  | cons e rest ih =>
    intro hP
    obtain ⟨k, v⟩ := e
    have hrest : ∀ e ∈ rest, e.1 = h → P e = true :=
      fun e he => hP e (List.mem_cons_of_mem _ he)
    by_cases hk : k = h
    · have hp : P (k, v) = true := hP (k, v) (List.mem_cons_self _ _) hk
      rw [List.filter_cons_of_pos hp]
      simp [cacheGet, hk]
    · by_cases hp : P (k, v) = true
      · rw [List.filter_cons_of_pos hp]
        simp [cacheGet, hk, ih hrest]
      · rw [List.filter_cons_of_neg hp]
        simp [cacheGet, hk, ih hrest]

theorem cacheGet_clearCachePass_spared (cfg : Consts) (cache : List (List Nat × RaptorQImpl))
    (now : Int) (h : List Nat) (hsp : sweepSpares cfg cache now h = true) :
    cacheGet (clearCachePass cfg cache now) h = cacheGet cache h := by
  have hs : ∀ e ∈ cache, e.1 = h → clearCacheTest cfg now e.2 = false := by
    intro e he hk
    have := (List.all_eq_true.mp hsp) e he
    simpa [hk] using this
  unfold clearCachePass
  rw [clearCache_foldl]
  apply cacheGet_filter_keep
  intro e _ hk
  rw [Bool.not_eq_true', List.any_eq_false]
  intro e1 he1
  by_cases hk1 : e1.1 = e.1
  · have := hs e1 he1 (hk1.trans hk)
    simp [this]
  · simp [hk1]

theorem gossipStep_TraceInvAt (lib : Lib) (cfg : Consts) (st : GossipState)
    (dg : Option (List Nat)) (now : Int) (h : List Nat) (hinv : TraceInvAt st h) :
    TraceInvAt (gossipStep lib cfg st dg now) h ∧
      GrowsAt st.node.Cache (gossipStep lib cfg st dg now).node.Cache h := by
  obtain ⟨delta, htr, hgrow, hcase⟩ := gossipStep_delta lib cfg st dg now
  refine ⟨?_, fun r hr => hgrow h r hr⟩
  intro c s
  obtain ⟨i1, i2, i3⟩ := hinv c s
  rw [htr, decodeCount_append, relayCount_append]
  rcases hcase with hz | ⟨kh, kc, ks, hprior, ⟨r1, hr1, hr1t⟩, hcnt⟩
  · obtain ⟨z1, z2⟩ := hz h c s
    rw [z1, z2]
    refine ⟨by omega, by omega, ?_⟩
    intro hpos
    obtain ⟨r, hr, hrt⟩ := i3 (by omega)
    obtain ⟨r2, hr2, hm⟩ := hgrow h r hr
    exact ⟨r2, hr2, hm c s hrt⟩
  · obtain ⟨d1, d2⟩ := hcnt h c s
    by_cases hkey : kh = h ∧ kc = c ∧ ks = s
    · have hzero : decodeCount st.trace h c s = 0 ∧ relayCount st.trace h c s = 0 := by
        by_contra hne
        have hpos : 0 < decodeCount st.trace h c s ∨ 0 < relayCount st.trace h c s := by
          omega
        obtain ⟨r, hr, hrt⟩ := i3 hpos
        have := hprior r (by rw [hkey.1]; exact hr)
        rw [hkey.2.1, hkey.2.2] at this
        rw [this] at hrt
        exact Bool.noConfusion hrt
      rw [if_pos hkey] at d1 d2
      refine ⟨by omega, by omega, fun _ => ⟨r1, ?_, ?_⟩⟩
      · rw [← hkey.1]; exact hr1
      · rw [← hkey.2.1, ← hkey.2.2]; exact hr1t
    · rw [if_neg hkey] at d1 d2
      refine ⟨by omega, by omega, ?_⟩
      intro hpos
      obtain ⟨r, hr, hrt⟩ := i3 (by omega)
      obtain ⟨r2, hr2, hm⟩ := hgrow h r hr
      exact ⟨r2, hr2, hm c s hrt⟩

theorem GrowsAt_trans {a b c : List (List Nat × RaptorQImpl)} {h : List Nat}
    (h1 : GrowsAt a b h) (h2 : GrowsAt b c h) : GrowsAt a c h := by
  intro r hr
  obtain ⟨r1, hr1, m1⟩ := h1 r hr
  obtain ⟨r2, hr2, m2⟩ := h2 r1 hr1
  exact ⟨r2, hr2, fun ch s hs => m2 ch s (m1 ch s hs)⟩

theorem activityStep_TraceInvAt (lib : Lib) (cfg : Consts) (st : GossipState) (a : Activity)
    (h : List Nat) (hinv : TraceInvAt st h)
    (hkeep : match a with
      | Activity.sweep now => st.crashed = false → sweepSpares cfg st.node.Cache now h = true
      | Activity.datagram _ _ => True) :
    TraceInvAt (activityStep lib cfg st a) h ∧
      GrowsAt st.node.Cache (activityStep lib cfg st a).node.Cache h := by
  cases a with
  | datagram dg now => exact gossipStep_TraceInvAt lib cfg st dg now h hinv
  | sweep now =>
    have hkeep1 : st.crashed = false → sweepSpares cfg st.node.Cache now h = true := hkeep
    have hstep : activityStep lib cfg st (Activity.sweep now)
        = if st.crashed then st
          else { st with
                 node := { st.node with Cache := clearCachePass cfg st.node.Cache now } } := rfl
    rw [hstep]
    by_cases hc : st.crashed = true
    · rw [if_pos hc]
      exact ⟨hinv, fun r hr => ⟨r, hr, fun _ _ x => x⟩⟩
    · rw [if_neg hc]
      have hsp := hkeep1 (by simpa using hc)
      have hget := cacheGet_clearCachePass_spared cfg st.node.Cache now h hsp
      refine ⟨?_, ?_⟩
      · intro c s
        obtain ⟨i1, i2, i3⟩ := hinv c s
        refine ⟨i1, i2, ?_⟩
        intro hpos
        obtain ⟨r, hr, hrt⟩ := i3 hpos
        exact ⟨r, by show cacheGet (clearCachePass cfg st.node.Cache now) h = some r; rw [hget, hr], hrt⟩
      · intro r hr
        exact ⟨r, by show cacheGet (clearCachePass cfg st.node.Cache now) h = some r; rw [hget, hr],
          fun _ _ x => x⟩

theorem runNode_TraceInvAt (lib : Lib) (cfg : Consts) (h : List Nat) (acts : List Activity) :
    ∀ st : GossipState, TraceInvAt st h → KeepsBlob lib cfg h st acts →
      TraceInvAt (runNode lib cfg st acts) h ∧
        GrowsAt st.node.Cache (runNode lib cfg st acts).node.Cache h := by
  induction acts with
  | nil => intro st hinv _; exact ⟨hinv, fun r hr => ⟨r, hr, fun _ _ x => x⟩⟩
  | cons a rest ih =>
    intro st hinv hkeep
    obtain ⟨hk1, hk2⟩ := hkeep
    obtain ⟨h1, g1⟩ := activityStep_TraceInvAt lib cfg st a h hinv hk1
    obtain ⟨h2, g2⟩ := ih _ h1 hk2
    exact ⟨h2, GrowsAt_trans g1 g2⟩

theorem runNode_append (lib : Lib) (cfg : Consts) (st : GossipState)
    (pre post : List Activity) :
    runNode lib cfg st (pre ++ post) = runNode lib cfg (runNode lib cfg st pre) post := by
  simp [runNode, List.foldl_append]

theorem KeepsBlob_append (lib : Lib) (cfg : Consts) (h : List Nat) (pre post : List Activity) :
    ∀ st : GossipState, KeepsBlob lib cfg h st (pre ++ post) ↔
      KeepsBlob lib cfg h st pre ∧ KeepsBlob lib cfg h (runNode lib cfg st pre) post := by
  induction pre with
  | nil => intro st; simp [KeepsBlob, runNode]
  | cons a rest ih =>
    intro st
    have hrun : runNode lib cfg st (a :: rest)
        = runNode lib cfg (activityStep lib cfg st a) rest := rfl
    rw [List.cons_append, hrun]
    simp only [KeepsBlob]
    rw [ih]
    exact and_assoc.symm

/-- C8 (as the code has it): in every run of the `Gossip` loop beside the sweeper of
`clearCache`, started with an empty trace, and for every blob hash that no sweep pass of the
run deletes from the cache: for every chunk id and symbol id the decoder of that chunk is
handed the symbol at most once and at most one relay goroutine is started for it, however many
copies arrive; a symbol id recorded in `receivedSymbols` of the cached blob at the start or
at any point of the run is still recorded at its end; and a datagram whose symbol id is
already recorded causes neither a decode nor a relay for it. -/
theorem runNode_decodes_and_relays_once (lib : Lib) (cfg : Consts) (node : Node)
    (acts : List Activity) (hash : List Nat)
    (hkeep : KeepsBlob lib cfg hash { node := node } acts) :
    (∀ chunkId symbolId,
      decodeCount (runNode lib cfg { node := node } acts).trace hash chunkId symbolId ≤ 1 ∧
      relayCount (runNode lib cfg { node := node } acts).trace hash chunkId symbolId ≤ 1) ∧
    (∀ before after raptorq chunkId symbolId, acts = before ++ after →
      cacheGet (runNode lib cfg { node := node } before).node.Cache hash = some raptorq →
      raptorq.receivedSymbols chunkId symbolId = true →
      ∃ raptorq1, cacheGet (runNode lib cfg { node := node } acts).node.Cache hash
          = some raptorq1 ∧ raptorq1.receivedSymbols chunkId symbolId = true) ∧
    (∀ datagram now raptorq chunkId symbolId,
      cacheGet (runNode lib cfg { node := node } acts).node.Cache hash = some raptorq →
      raptorq.receivedSymbols chunkId symbolId = true →
      decodeCount (gossipStep lib cfg (runNode lib cfg { node := node } acts) datagram
          now).trace hash chunkId symbolId
        = decodeCount (runNode lib cfg { node := node } acts).trace hash chunkId symbolId ∧
      relayCount (gossipStep lib cfg (runNode lib cfg { node := node } acts) datagram
          now).trace hash chunkId symbolId
        = relayCount (runNode lib cfg { node := node } acts).trace hash chunkId symbolId) := by
  have h0 : TraceInvAt { node := node } hash := by
    intro c s
    simp [decodeCount, relayCount]
  obtain ⟨hinv, -⟩ := runNode_TraceInvAt lib cfg hash acts _ h0 hkeep
  refine ⟨?_, ?_, ?_⟩
  · intro c s
    exact ⟨(hinv c s).1, (hinv c s).2.1⟩
  · intro pre post r c s hsplit hr hrt
    subst hsplit
    obtain ⟨hk1, hk2⟩ := (KeepsBlob_append lib cfg hash pre post _).mp hkeep
    obtain ⟨hinv1, -⟩ := runNode_TraceInvAt lib cfg hash pre _ h0 hk1
    obtain ⟨-, hg⟩ := runNode_TraceInvAt lib cfg hash post _ hinv1 hk2
    rw [runNode_append]
    obtain ⟨r1, hr1, hm⟩ := hg r hr
    exact ⟨r1, hr1, hm c s hrt⟩
  · intro dg now r c s hr hrt
    exact gossipStep_recorded_quiet lib cfg _ dg now hash c s r hr hrt

/-- C8, counterexample: the same 43-byte datagram (hash `9 ... 9`, chunk 0, symbol 5) arrives
at 0 s and at 71 s, and the sweep pass at 70 s deletes the blob because its `initTime` is
older than `enforceClearInterval = 60 s`: the symbol recorded after the first copy is gone
from the cache after the sweep, and the second copy is decoded and relayed again, so both
counts are 2. -/
theorem runNode_sweep_then_copy_relayed_again :
    decodeCount (runNode exampleLib exampleConsts { node := exampleNode }
      [Activity.datagram (some fullDatagram) 0, Activity.sweep 70000000000,
       Activity.datagram (some fullDatagram) 71000000000]).trace (List.replicate 20 9) 0 5 = 2 ∧
    relayCount (runNode exampleLib exampleConsts { node := exampleNode }
      [Activity.datagram (some fullDatagram) 0, Activity.sweep 70000000000,
       Activity.datagram (some fullDatagram) 71000000000]).trace (List.replicate 20 9) 0 5 = 2 ∧
    ((cacheGet (runNode exampleLib exampleConsts { node := exampleNode }
      [Activity.datagram (some fullDatagram) 0]).node.Cache (List.replicate 20 9)).map
        (fun r => r.receivedSymbols 0 5)) = some true ∧
    ((cacheGet (runNode exampleLib exampleConsts { node := exampleNode }
      [Activity.datagram (some fullDatagram) 0, Activity.sweep 70000000000]).node.Cache
        (List.replicate 20 9)).map (fun r => r.receivedSymbols 0 5)) = none := by
  decide

theorem runNode_decodes_and_relays_once_witness :
    KeepsBlob exampleLib exampleConsts (List.replicate 20 9) { node := exampleNode }
      [Activity.datagram (some fullDatagram) 0, Activity.sweep 30000000000,
       Activity.datagram (some fullDatagram) 31000000000] ∧
    decodeCount (runNode exampleLib exampleConsts { node := exampleNode }
      [Activity.datagram (some fullDatagram) 0, Activity.sweep 30000000000,
       Activity.datagram (some fullDatagram) 31000000000]).trace (List.replicate 20 9) 0 5 = 1 ∧
    ∀ chunkId symbolId,
      decodeCount (runNode exampleLib exampleConsts { node := exampleNode }
        [Activity.datagram (some fullDatagram) 0, Activity.sweep 30000000000,
         Activity.datagram (some fullDatagram) 31000000000]).trace
        (List.replicate 20 9) chunkId symbolId ≤ 1 ∧
      relayCount (runNode exampleLib exampleConsts { node := exampleNode }
        [Activity.datagram (some fullDatagram) 0, Activity.sweep 30000000000,
         Activity.datagram (some fullDatagram) 31000000000]).trace
        (List.replicate 20 9) chunkId symbolId ≤ 1 :=
  ⟨⟨trivial, fun _ => by decide, trivial, trivial⟩, by decide,
    (runNode_decodes_and_relays_once exampleLib exampleConsts exampleNode
      [Activity.datagram (some fullDatagram) 0, Activity.sweep 30000000000,
       Activity.datagram (some fullDatagram) 31000000000] (List.replicate 20 9)
      ⟨trivial, fun _ => by decide, trivial, trivial⟩).1⟩

/-! ### float64 rounding -/

theorem roundHalfEven_le_succ_floor (q : ℚ) : roundHalfEven q ≤ ⌊q⌋ + 1 := by
  unfold roundHalfEven
  split_ifs <;> omega

theorem roundHalfEven_mono {a b : ℚ} (hab : a ≤ b) : roundHalfEven a ≤ roundHalfEven b := by
  have hf : ⌊a⌋ ≤ ⌊b⌋ := Int.floor_mono hab
  rcases lt_or_eq_of_le hf with hlt | heq
  · calc roundHalfEven a ≤ ⌊a⌋ + 1 := roundHalfEven_le_succ_floor a
      _ ≤ ⌊b⌋ := by omega
      _ ≤ roundHalfEven b := floor_le_roundHalfEven b
  · unfold roundHalfEven
    rw [heq]
    have hd : a - ⌊b⌋ ≤ b - ⌊b⌋ := by linarith
    by_cases h1 : a - (⌊b⌋ : ℚ) < 1 / 2
    · rw [if_pos h1]
      split_ifs <;> omega
    · rw [if_neg h1]
      have hb1 : ¬ (b - (⌊b⌋ : ℚ) < 1 / 2) := by linarith
      rw [if_neg hb1]
      by_cases h2 : 1 / 2 < a - (⌊b⌋ : ℚ)
      · have hb2 : 1 / 2 < b - (⌊b⌋ : ℚ) := by linarith
        rw [if_pos h2, if_pos hb2]
      · rw [if_neg h2]
        by_cases hb2 : 1 / 2 < b - (⌊b⌋ : ℚ)
        · rw [if_pos hb2]
          split_ifs <;> omega
        · rw [if_neg hb2]

theorem two_zpow_pos (z : Int) : (0 : ℚ) < (2 : ℚ) ^ z := zpow_pos (by norm_num) z

theorem two_zpow_log_le (x : ℚ) (hx : 0 < x) : (2 : ℚ) ^ Int.log 2 x ≤ x := by
  have h := Int.zpow_log_le_self (b := 2) (r := x) (by norm_num) hx
  simpa using h

theorem lt_two_zpow_log_succ (x : ℚ) : x < (2 : ℚ) ^ (Int.log 2 x + 1) := by
  have h := Int.lt_zpow_succ_log_self (b := 2) (by norm_num) x
  simpa using h

theorem two_zpow_le {a b : Int} (h : a ≤ b) : (2 : ℚ) ^ a ≤ (2 : ℚ) ^ b :=
  zpow_le_zpow_right₀ (by norm_num) h

theorem fl64_zero : fl64 0 = 0 := by simp [fl64]

theorem fl64_nonneg (x : ℚ) (hx : 0 ≤ x) : 0 ≤ fl64 x := by
  unfold fl64
  split_ifs with h0
  · exact le_refl _
  · apply mul_nonneg _ (two_zpow_pos _).le
    have hq : 0 ≤ x / (2 : ℚ) ^ ulpExp64 x := div_nonneg hx (two_zpow_pos _).le
    have : (0 : Int) ≤ roundHalfEven (x / (2 : ℚ) ^ ulpExp64 x) :=
      le_trans (Int.floor_nonneg.mpr hq) (floor_le_roundHalfEven _)
    exact_mod_cast this

theorem fl64_nonpos (x : ℚ) (hx : x ≤ 0) : fl64 x ≤ 0 := by
  unfold fl64
  split_ifs with h0
  · exact le_refl _
  · apply mul_nonpos_of_nonpos_of_nonneg _ (two_zpow_pos _).le
    have hq : x / (2 : ℚ) ^ ulpExp64 x ≤ 0 :=
      div_nonpos_of_nonpos_of_nonneg hx (two_zpow_pos _).le
    have : roundHalfEven (x / (2 : ℚ) ^ ulpExp64 x) ≤ (0 : Int) :=
      le_trans (roundHalfEven_le_ceil _) (Int.ceil_le.mpr (by exact_mod_cast hq))
    exact_mod_cast this

/-- The scaled significand that `fl64` rounds lies strictly inside `(-2^53, 2^53)`. -/
theorem fl64_scaled_abs_lt (x : ℚ) : |x / (2 : ℚ) ^ ulpExp64 x| < 9007199254740992 := by
  have h1 : |x| < (2 : ℚ) ^ (Int.log 2 |x| + 1) := lt_two_zpow_log_succ |x|
  have h2 : (2 : ℚ) ^ (Int.log 2 |x| + 1) ≤ (2 : ℚ) ^ (ulpExp64 x + 53) := by
    apply two_zpow_le
    unfold ulpExp64
    have := le_max_left (Int.log 2 |x|) (-1022)
    omega
  rw [abs_div, abs_of_pos (two_zpow_pos _), div_lt_iff₀ (two_zpow_pos _)]
  have h3 : (2 : ℚ) ^ (ulpExp64 x + 53) = 9007199254740992 * (2 : ℚ) ^ ulpExp64 x := by
    rw [zpow_add₀ (by norm_num : (2 : ℚ) ≠ 0)]
    norm_num
    ring
  linarith

theorem roundHalfEven_abs_le (q : ℚ) (N : Int) (h : |q| < N) : |roundHalfEven q| ≤ N := by
  have h1 := abs_lt.mp h
  have hlo : -N ≤ ⌊q⌋ := Int.le_floor.mpr (by push_cast; linarith [h1.1])
  have hhi : ⌈q⌉ ≤ N := Int.ceil_le.mpr (by linarith [h1.2])
  have := floor_le_roundHalfEven q
  have := roundHalfEven_le_ceil q
  exact abs_le.mpr ⟨by omega, by omega⟩

theorem ulpExp64_le (x : ℚ) (hx : x ≠ 0) (k : Int) (hk : -1074 ≤ k)
    (hlt : |x| < (2 : ℚ) ^ (k + 53)) : ulpExp64 x ≤ k := by
  have hpos : 0 < |x| := abs_pos.mpr hx
  have h1 := two_zpow_log_le |x| hpos
  have h2 : (2 : ℚ) ^ Int.log 2 |x| < (2 : ℚ) ^ (k + 53) := lt_of_le_of_lt h1 hlt
  have h3 : Int.log 2 |x| < k + 53 := (zpow_lt_zpow_iff_right₀ (by norm_num)).mp h2
  unfold ulpExp64
  have : max (Int.log 2 |x|) (-1022) ≤ k + 52 := max_le (by omega) (by omega)
  omega

/-- A value with a 53-bit significand and exponent at least `-1074` is a float64: rounding
leaves it unchanged. -/
theorem fl64_exact (m k : Int) (hm : |m| < 9007199254740992) (hk : -1074 ≤ k) :
    fl64 ((m : ℚ) * (2 : ℚ) ^ k) = (m : ℚ) * (2 : ℚ) ^ k := by
  by_cases hx : (m : ℚ) * (2 : ℚ) ^ k = 0
  · simp [fl64, hx]
  · have h2pos : (0 : ℚ) < (2 : ℚ) ^ k := two_zpow_pos k
    have hlt : |(m : ℚ) * (2 : ℚ) ^ k| < (2 : ℚ) ^ (k + 53) := by
      rw [abs_mul, abs_of_pos h2pos, zpow_add₀ (by norm_num : (2 : ℚ) ≠ 0), mul_comm]
      have : |(m : ℚ)| < (2 : ℚ) ^ (53 : Int) := by
        have : ((|m| : Int) : ℚ) < 9007199254740992 := by exact_mod_cast hm
        rw [Int.cast_abs] at this
        norm_num
        exact this
      exact mul_lt_mul_of_pos_left this h2pos
    have hle := ulpExp64_le _ hx k hk hlt
    obtain ⟨j, hj⟩ : ∃ j : Nat, k - ulpExp64 ((m : ℚ) * (2 : ℚ) ^ k) = (j : Int) :=
      ⟨(k - ulpExp64 ((m : ℚ) * (2 : ℚ) ^ k)).toNat, by omega⟩
    unfold fl64
    rw [if_neg hx]
    have he : ulpExp64 ((m : ℚ) * (2 : ℚ) ^ k) = k - j := by omega
    rw [he]
    have hdiv : (m : ℚ) * (2 : ℚ) ^ k / (2 : ℚ) ^ (k - (j : Int)) = ((m * 2 ^ j : Int) : ℚ) := by
      rw [zpow_sub₀ (by norm_num : (2 : ℚ) ≠ 0), zpow_natCast]
      push_cast
      field_simp
      ring
    rw [hdiv, roundHalfEven_intCast]
    rw [zpow_sub₀ (by norm_num : (2 : ℚ) ≠ 0), zpow_natCast]
    push_cast
    field_simp
    ring

theorem fl64_intCast (z : Int) (hz : |z| < 9007199254740992) : fl64 (z : ℚ) = z := by
  have := fl64_exact z 0 hz (by norm_num)
  simpa using this

/-- Rounding a float64 again changes nothing. -/
theorem fl64_idem (x : ℚ) : fl64 (fl64 x) = fl64 x := by
  by_cases hx : x = 0
  · simp [hx, fl64_zero]
  · have hu : -1074 ≤ ulpExp64 x := by
      unfold ulpExp64
      have := le_max_right (Int.log 2 |x|) (-1022)
      omega
    have hr := roundHalfEven_abs_le _ 9007199254740992
      (by exact_mod_cast fl64_scaled_abs_lt x)
    have hfx : fl64 x = (roundHalfEven (x / (2 : ℚ) ^ ulpExp64 x) : ℚ) * (2 : ℚ) ^ ulpExp64 x := by
      unfold fl64
      rw [if_neg hx]
    rw [hfx]
    generalize roundHalfEven (x / (2 : ℚ) ^ ulpExp64 x) = r at hr
    rcases lt_or_eq_of_le hr with hlt | heq
    · exact fl64_exact r _ hlt hu
    · have hr2 : ∃ s : Int, |s| < 9007199254740992 ∧ r = s * 2 := by
        rcases abs_eq (by norm_num : (0 : Int) ≤ 9007199254740992) |>.mp heq with h | h
        · exact ⟨4503599627370496, by norm_num, by rw [h]; norm_num⟩
        · exact ⟨-4503599627370496, by norm_num, by rw [h]; norm_num⟩
      obtain ⟨s, hs, rfl⟩ := hr2
      have hrew : ((s * 2 : Int) : ℚ) * (2 : ℚ) ^ ulpExp64 x
          = (s : ℚ) * (2 : ℚ) ^ (ulpExp64 x + 1) := by
        rw [zpow_add₀ (by norm_num : (2 : ℚ) ≠ 0)]
        push_cast
        ring
      rw [hrew]
      exact fl64_exact s _ hs (by omega)

theorem fl64_pos_le (x : ℚ) (hx : 0 < x) : fl64 x ≤ (2 : ℚ) ^ (ulpExp64 x + 53) := by
  have hr := roundHalfEven_abs_le _ 9007199254740992
    (by exact_mod_cast fl64_scaled_abs_lt x)
  have hr2 : (roundHalfEven (x / (2 : ℚ) ^ ulpExp64 x) : ℚ) ≤ 9007199254740992 := by
    exact_mod_cast (abs_le.mp hr).2
  unfold fl64
  rw [if_neg hx.ne.symm, zpow_add₀ (by norm_num : (2 : ℚ) ≠ 0)]
  have := mul_le_mul_of_nonneg_right hr2 (two_zpow_pos (ulpExp64 x)).le
  norm_num
  linarith

theorem le_fl64_of_normal (y : ℚ) (hy : 0 < y) (hn : -1022 ≤ Int.log 2 |y|) :
    (2 : ℚ) ^ (ulpExp64 y + 52) ≤ fl64 y := by
  have he : ulpExp64 y + 52 = Int.log 2 y := by
    unfold ulpExp64
    rw [abs_of_pos hy] at *
    rw [max_eq_left hn]
    omega
  have h1 : (2 : ℚ) ^ (ulpExp64 y + 52) ≤ y := by
    rw [he]
    exact two_zpow_log_le y hy
  have h2 : (4503599627370496 : ℚ) ≤ y / (2 : ℚ) ^ ulpExp64 y := by
    rw [le_div_iff₀ (two_zpow_pos _)]
    rw [zpow_add₀ (by norm_num : (2 : ℚ) ≠ 0)] at h1
    norm_num at h1
    linarith
  have h3 : (4503599627370496 : Int) ≤ roundHalfEven (y / (2 : ℚ) ^ ulpExp64 y) :=
    le_trans (Int.le_floor.mpr (by exact_mod_cast h2)) (floor_le_roundHalfEven _)
  have h4 : (4503599627370496 : ℚ) ≤ (roundHalfEven (y / (2 : ℚ) ^ ulpExp64 y) : ℚ) := by
    exact_mod_cast h3
  unfold fl64
  rw [if_neg hy.ne.symm, zpow_add₀ (by norm_num : (2 : ℚ) ≠ 0)]
  have := mul_le_mul_of_nonneg_right h4 (two_zpow_pos (ulpExp64 y)).le
  norm_num
  linarith

/-- Rounding to float64 keeps the order of non-negative values. -/
theorem fl64_mono_nonneg (x y : ℚ) (hx : 0 ≤ x) (hxy : x ≤ y) : fl64 x ≤ fl64 y := by
  rcases eq_or_lt_of_le hx with h0 | hpos
  · rw [← h0, fl64_zero]
    exact fl64_nonneg y (le_trans hx hxy)
  · have hy : 0 < y := lt_of_lt_of_le hpos hxy
    have hlog : Int.log 2 |x| ≤ Int.log 2 |y| := by
      rw [abs_of_pos hpos, abs_of_pos hy]
      exact Int.log_mono_right hpos hxy
    have hle : ulpExp64 x ≤ ulpExp64 y := by
      unfold ulpExp64
      have := max_le_max hlog (le_refl (-1022 : Int))
      omega
    rcases eq_or_lt_of_le hle with heq | hlt
    · unfold fl64
      rw [if_neg hpos.ne.symm, if_neg hy.ne.symm, heq]
      apply mul_le_mul_of_nonneg_right _ (two_zpow_pos _).le
      have : x / (2 : ℚ) ^ ulpExp64 y ≤ y / (2 : ℚ) ^ ulpExp64 y :=
        div_le_div_of_nonneg_right hxy (two_zpow_pos _).le
      exact_mod_cast roundHalfEven_mono this
    · have hn : -1022 ≤ Int.log 2 |y| := by
        by_contra hc
        have h1 : max (Int.log 2 |y|) (-1022) = -1022 := max_eq_right (by omega)
        have h2 := le_max_right (Int.log 2 |x|) (-1022)
        unfold ulpExp64 at hlt
        omega
      calc fl64 x ≤ (2 : ℚ) ^ (ulpExp64 x + 53) := fl64_pos_le x hpos
        _ ≤ (2 : ℚ) ^ (ulpExp64 y + 52) := two_zpow_le (by omega)
        _ ≤ fl64 y := le_fl64_of_normal y hy hn

theorem truncToInt_mono_nonneg (a b : ℚ) (ha : 0 ≤ a) (hab : a ≤ b) :
    truncToInt a ≤ truncToInt b := by
  unfold truncToInt
  rw [if_pos ha, if_pos (le_trans ha hab)]
  exact Int.floor_mono hab


/-! ### The retry delay: the rounded value -/

theorem float64Of_of_exact (x : ℚ) (hx : fl64 x = x) (hb : |x| < (2 : ℚ) ^ (1024 : Nat)) :
    float64Of x = some x := by
  unfold float64Of
  rw [hx, if_pos hb]

theorem float64Of_of_nonneg_lt (x : ℚ) (h0 : 0 ≤ fl64 x) (h1 : fl64 x < 9223372036854775808) :
    float64Of x = some (fl64 x) := by
  unfold float64Of
  rw [if_pos]
  rw [abs_of_nonneg h0]
  exact lt_trans h1 (by norm_num)

theorem float64Of_eq_some (x y : ℚ) (h : float64Of x = some y) : y = fl64 x := by
  unfold float64Of at h
  split_ifs at h
  exact (Option.some.inj h).symm

theorem expBackoffMaxK_is_float64 (M : MathFns) (i m b K : ℚ)
    (hK : expBackoffMaxK M i m b = some K) : fl64 K = K := by
  unfold expBackoffMaxK at hK
  by_cases h0 : i = 0
  · rw [if_pos h0] at hK
    cases hK
  · rw [if_neg h0] at hK
    cases hr : float64Of (m / i) with
    | none => simp [hr] at hK
    | some ratio =>
      simp only [hr, Option.bind_eq_bind, Option.some_bind] at hK
      by_cases h1 : ratio ≤ 0 ∨ b ≤ 0
      · rw [if_pos h1] at hK
        cases hK
      · rw [if_neg h1] at hK
        by_cases h2 : M.Log2 b = 0
        · rw [if_pos h2] at hK
          cases hK
        · rw [if_neg h2] at hK
          rw [float64Of_eq_some _ _ hK, fl64_idem]

/-- The exponent handed to `math.Pow` grows with `k - k0`. -/
theorem backoffPower_mono (K x y : ℚ) (hxy : x ≤ y) :
    min (max (fl64 x) 0) K ≤ min (max (fl64 y) 0) K := by
  apply min_le_min _ (le_refl K)
  rcases le_or_lt x 0 with hx | hx
  · rw [max_eq_right (fl64_nonpos x hx)]
    exact le_max_right _ _
  · exact max_le_max (fl64_mono_nonneg x y hx.le hxy) (le_refl 0)

theorem expBackoffDelay_value (M : MathFns) (i m b K : ℚ) (k k0 : Int)
    (hK : expBackoffMaxK M i m b = some K) (hK0 : 0 ≤ K) (hi : 0 ≤ i)
    (hP0 : M.Pow b 0 = 1)
    (hPmono : ∀ y1 y2 : ℚ, 0 ≤ y1 → y1 ≤ y2 → M.Pow b y1 ≤ M.Pow b y2)
    (hS : fl64 (fl64 (1000000 * i) * M.Pow b K) < 9223372036854775808)
    (hlo : -9223372036854775808 ≤ k - k0) (hhi : k - k0 < 9223372036854775808) :
    expBackoffDelay M i m b k k0 =
      some (truncToInt (fl64 (fl64 (1000000 * i) *
        M.Pow b (min (max (fl64 ((k - k0 : Int) : ℚ)) 0) K)))) ∧
    0 ≤ fl64 (fl64 (1000000 * i) * M.Pow b (min (max (fl64 ((k - k0 : Int) : ℚ)) 0) K)) ∧
    fl64 (fl64 (1000000 * i) * M.Pow b (min (max (fl64 ((k - k0 : Int) : ℚ)) 0) K)) ≤
      fl64 (fl64 (1000000 * i) * M.Pow b K) := by
  have hA0 : 0 ≤ fl64 (1000000 * i) := fl64_nonneg _ (by linarith)
  have hp0 : 0 ≤ min (max (fl64 ((k - k0 : Int) : ℚ)) 0) K := le_min (le_max_right _ _) hK0
  have hpK : min (max (fl64 ((k - k0 : Int) : ℚ)) 0) K ≤ K := min_le_right _ _
  have hP1 : 1 ≤ M.Pow b (min (max (fl64 ((k - k0 : Int) : ℚ)) 0) K) := by
    rw [← hP0]
    exact hPmono 0 _ (le_refl 0) hp0
  have hPK : M.Pow b (min (max (fl64 ((k - k0 : Int) : ℚ)) 0) K) ≤ M.Pow b K :=
    hPmono _ _ hp0 hpK
  have hprod0 : 0 ≤ fl64 (1000000 * i) *
      M.Pow b (min (max (fl64 ((k - k0 : Int) : ℚ)) 0) K) :=
    mul_nonneg hA0 (by linarith)
  have hv0 := fl64_nonneg _ hprod0
  have hvS : fl64 (fl64 (1000000 * i) * M.Pow b (min (max (fl64 ((k - k0 : Int) : ℚ)) 0) K)) ≤
      fl64 (fl64 (1000000 * i) * M.Pow b K) :=
    fl64_mono_nonneg _ _ hprod0 (mul_le_mul_of_nonneg_left hPK hA0)
  have hAS : fl64 (1000000 * i) ≤ fl64 (fl64 (1000000 * i) * M.Pow b K) := by
    have h1 : fl64 (1000000 * i) ≤ fl64 (1000000 * i) * M.Pow b K := by
      have : 1 ≤ M.Pow b K := le_trans hP1 hPK
      nlinarith
    have := fl64_mono_nonneg _ _ hA0 h1
    rwa [fl64_idem] at this
  have hsc : float64Of (1000000 * i) = some (fl64 (1000000 * i)) :=
    float64Of_of_nonneg_lt _ hA0 (lt_of_le_of_lt hAS hS)
  have hna := float64Of_of_nonneg_lt _ hv0 (lt_of_le_of_lt hvS hS)
  refine ⟨?_, hv0, hvS⟩
  unfold expBackoffDelay
  rw [wrap64_of_range _ hlo hhi]
  simp only [hK, hsc, hna, Option.bind_eq_bind, Option.some_bind]
  rw [if_pos ⟨by linarith, lt_of_le_of_lt hvS hS⟩]


theorem float64Of_intCast (z : Int) (hz : |z| < 9007199254740992) :
    float64Of (z : ℚ) = some (z : ℚ) := by
  apply float64Of_of_exact _ (fl64_intCast z hz)
  have : ((|z| : Int) : ℚ) < 9007199254740992 := by exact_mod_cast hz
  rw [Int.cast_abs] at this
  exact lt_trans this (by norm_num)

theorem exactMath_Log2_zpow (z : Int) : exactMath.Log2 ((2 : ℚ) ^ z) = (z : ℚ) := by
  have h := Int.log_zpow (R := ℚ) (b := 2) (by norm_num) z
  simp only [exactMath]
  rw [show ((2 : ℕ) : ℚ) = 2 by norm_num] at h
  rw [h]

theorem exactMath_Pow_intCast (x : ℚ) (z : Int) : exactMath.Pow x (z : ℚ) = x ^ z := by
  simp [exactMath]

theorem exactMath_Pow_mono (y1 y2 : ℚ) (h : y1 ≤ y2) :
    exactMath.Pow 2 y1 ≤ exactMath.Pow 2 y2 := by
  simp only [exactMath]
  exact two_zpow_le (Int.floor_mono h)

theorem exactMath_maxK_half : expBackoffMaxK exactMath 1000 500 2 = some (-1) := by
  have hr : float64Of ((500 : ℚ) / 1000) = some ((2 : ℚ) ^ (-1 : Int)) := by
    rw [show (500 : ℚ) / 1000 = (2 : ℚ) ^ (-1 : Int) by norm_num]
    apply float64Of_of_exact
    · simpa using fl64_exact 1 (-1) (by norm_num) (by norm_num)
    · exact abs_lt.mpr ⟨by norm_num, by norm_num⟩
  have h2 : exactMath.Log2 2 = 1 := by simpa using exactMath_Log2_zpow 1
  unfold expBackoffMaxK
  rw [if_neg (by norm_num)]
  simp only [hr, Option.bind_eq_bind, Option.some_bind]
  rw [if_neg (by norm_num), h2, if_neg (by norm_num), exactMath_Log2_zpow]
  simpa using float64Of_intCast (-1) (by norm_num)


theorem truncToInt_intCast (z : Int) : truncToInt (z : ℚ) = z := by
  unfold truncToInt
  split_ifs <;> simp

theorem expBackoffDelay_eval (M : MathFns) (i m b K p : ℚ) (k k0 d a n : Int)
    (hK : expBackoffMaxK M i m b = some K)
    (hd : wrap64 (k - k0) = d) (hd53 : |d| < 9007199254740992)
    (hp : min (max (d : ℚ) 0) K = p)
    (ha : 1000000 * i = (a : ℚ)) (ha53 : |a| < 9007199254740992)
    (hn : (a : ℚ) * M.Pow b p = (n : ℚ)) (hn53 : |n| < 9007199254740992) :
    expBackoffDelay M i m b k k0 = some n := by
  have hn1 := abs_lt.mp hn53
  have hlo : (-9223372036854775808 : ℚ) ≤ (n : ℚ) := by
    have : (-9223372036854775808 : Int) ≤ n := by omega
    exact_mod_cast this
  have hhi : (n : ℚ) < 9223372036854775808 := by
    have : n < (9223372036854775808 : Int) := by omega
    exact_mod_cast this
  unfold expBackoffDelay
  simp only [hK, hd, fl64_intCast d hd53, hp, ha, float64Of_intCast a ha53, hn,
    float64Of_intCast n hn53, Option.bind_eq_bind, Option.some_bind]
  rw [if_pos ⟨hlo, hhi⟩, truncToInt_intCast]

/-- C6 (as the code has it): when the computed `maxK` is a finite float64 that is not
negative, the initial delay is not negative, `math.Pow(expBase, 0) = 1`, `math.Pow` does not
decrease in its exponent from 0 on, and the delay at `maxK` fits `int64`, then for every
`k0` and every `k` whose difference `k - k0` does not overflow: for `k <= k0` the delay is
the initial delay in nanoseconds, the delay does not decrease when `k` grows, it never
exceeds the delay at `maxK`, it equals the delay at `maxK` once `k - k0 >= maxK`, and the
delay at `maxK` is `maxDelayTime` in nanoseconds when the product
`1000000 * initialDelayTime * Pow(expBase, maxK)` is exactly `1000000 * maxDelayTime`. -/
theorem expBackoffDelay_clamped (M : MathFns) (initialDelayTime maxDelayTime expBase maxK : ℚ)
    (k0 : Int)
    (hK : expBackoffMaxK M initialDelayTime maxDelayTime expBase = some maxK)
    (hK0 : 0 ≤ maxK) (hi : 0 ≤ initialDelayTime)
    (hP0 : M.Pow expBase 0 = 1)
    (hPmono : ∀ y1 y2 : ℚ, 0 ≤ y1 → y1 ≤ y2 → M.Pow expBase y1 ≤ M.Pow expBase y2)
    (hS : fl64 (fl64 (1000000 * initialDelayTime) * M.Pow expBase maxK)
      < 9223372036854775808) :
    (∀ k : Int, k ≤ k0 → -9223372036854775808 ≤ k - k0 →
      expBackoffDelay M initialDelayTime maxDelayTime expBase k k0 =
        some (truncToInt (fl64 (1000000 * initialDelayTime)))) ∧
    (∀ k1 k2 : Int, k1 ≤ k2 → -9223372036854775808 ≤ k1 - k0 →
      k2 - k0 < 9223372036854775808 →
      ∃ d1 d2 : Int,
        expBackoffDelay M initialDelayTime maxDelayTime expBase k1 k0 = some d1 ∧
        expBackoffDelay M initialDelayTime maxDelayTime expBase k2 k0 = some d2 ∧ d1 ≤ d2) ∧
    (∀ k : Int, -9223372036854775808 ≤ k - k0 → k - k0 < 9223372036854775808 →
      ∃ d : Int, expBackoffDelay M initialDelayTime maxDelayTime expBase k k0 = some d ∧
        d ≤ truncToInt (fl64 (fl64 (1000000 * initialDelayTime) * M.Pow expBase maxK))) ∧
    (∀ k : Int, k - k0 < 9223372036854775808 → maxK ≤ ((k - k0 : Int) : ℚ) →
      expBackoffDelay M initialDelayTime maxDelayTime expBase k k0 =
        some (truncToInt (fl64 (fl64 (1000000 * initialDelayTime) * M.Pow expBase maxK)))) ∧
    (fl64 (1000000 * initialDelayTime) * M.Pow expBase maxK = 1000000 * maxDelayTime →
      ∀ k : Int, k - k0 < 9223372036854775808 → maxK ≤ ((k - k0 : Int) : ℚ) →
        expBackoffDelay M initialDelayTime maxDelayTime expBase k k0 =
          some (truncToInt (fl64 (1000000 * maxDelayTime)))) := by
  have hval := fun (k : Int) => expBackoffDelay_value M initialDelayTime maxDelayTime expBase
    maxK k k0 hK hK0 hi hP0 hPmono hS
  have hA0 : 0 ≤ fl64 (1000000 * initialDelayTime) := fl64_nonneg _ (by linarith)
  have hsat : ∀ k : Int, k - k0 < 9223372036854775808 → maxK ≤ ((k - k0 : Int) : ℚ) →
      expBackoffDelay M initialDelayTime maxDelayTime expBase k k0 =
        some (truncToInt (fl64 (fl64 (1000000 * initialDelayTime) * M.Pow expBase maxK))) := by
    intro k hhi hge
    have hnn : (0 : ℚ) ≤ ((k - k0 : Int) : ℚ) := le_trans hK0 hge
    have hnn2 : (0 : Int) ≤ k - k0 := by exact_mod_cast hnn
    obtain ⟨h, -, -⟩ := hval k (by omega) hhi
    rw [h]
    have h1 : maxK ≤ fl64 ((k - k0 : Int) : ℚ) := by
      have := fl64_mono_nonneg _ _ hK0 hge
      rwa [expBackoffMaxK_is_float64 M _ _ _ _ hK] at this
    rw [min_eq_right (le_trans h1 (le_max_left _ _))]
  refine ⟨?_, ?_, ?_, hsat, ?_⟩
  · intro k hle hlo
    obtain ⟨h, -, -⟩ := hval k hlo (by omega)
    rw [h]
    have hneg : fl64 ((k - k0 : Int) : ℚ) ≤ 0 := by
      apply fl64_nonpos
      have : k - k0 ≤ (0 : Int) := by omega
      exact_mod_cast this
    rw [max_eq_right hneg, min_eq_left hK0, hP0, mul_one, fl64_idem]
  · intro k1 k2 hle hlo hhi
    obtain ⟨h1, h10, -⟩ := hval k1 hlo (by omega)
    obtain ⟨h2, -, -⟩ := hval k2 (by omega) hhi
    refine ⟨_, _, h1, h2, ?_⟩
    apply truncToInt_mono_nonneg _ _ h10
    have hx : ((k1 - k0 : Int) : ℚ) ≤ ((k2 - k0 : Int) : ℚ) := by
      have : k1 - k0 ≤ k2 - k0 := by omega
      exact_mod_cast this
    have hp := backoffPower_mono maxK _ _ hx
    have hp0 : 0 ≤ min (max (fl64 ((k1 - k0 : Int) : ℚ)) 0) maxK :=
      le_min (le_max_right _ _) hK0
    have hP1 : 1 ≤ M.Pow expBase (min (max (fl64 ((k1 - k0 : Int) : ℚ)) 0) maxK) := by
      rw [← hP0]
      exact hPmono 0 _ (le_refl 0) hp0
    apply fl64_mono_nonneg _ _ (mul_nonneg hA0 (by linarith))
    exact mul_le_mul_of_nonneg_left (hPmono _ _ hp0 hp) hA0
  · intro k hlo hhi
    obtain ⟨h, h0, hS2⟩ := hval k hlo hhi
    exact ⟨_, h, truncToInt_mono_nonneg _ _ h0 hS2⟩
  · intro hexact k hhi hge
    rw [hsat k hhi hge, hexact]

/-- C6, counterexample: with `initialDelayTime = 1000`, `maxDelayTime = 500` and
`expBase = 2` the logarithms and the power are exact (`Log2(0.5) = -1`, `Log2(2) = 1`,
`Pow(2, -1) = 0.5`), `maxK` is `-1`, and the delay at `k = k0` is 500 ms, half the initial
delay of 1000 ms; it is 500 ms for a larger `k` as well. -/
theorem expBackoffDelay_max_below_initial :
    expBackoffMaxK exactMath 1000 500 2 = some (-1) ∧
    expBackoffDelay exactMath 1000 500 2 0 0 = some 500000000 ∧
    expBackoffDelay exactMath 1000 500 2 5 0 = some 500000000 ∧
    truncToInt (fl64 (1000000 * 1000)) = 1000000000 := by
  have hpow : (1000000000 : ℚ) * exactMath.Pow 2 (-1) = 500000000 := by
    have := exactMath_Pow_intCast 2 (-1)
    simp only [Int.cast_neg, Int.cast_one] at this
    rw [this]
    norm_num
  refine ⟨exactMath_maxK_half, ?_, ?_, ?_⟩
  · exact expBackoffDelay_eval exactMath 1000 500 2 (-1) (-1) 0 0 0 1000000000 500000000
      exactMath_maxK_half (by decide) (by decide) (by norm_num) (by norm_num) (by decide)
      (by exact_mod_cast hpow) (by decide)
  · exact expBackoffDelay_eval exactMath 1000 500 2 (-1) (-1) 5 0 5 1000000000 500000000
      exactMath_maxK_half (by decide) (by decide) (by norm_num) (by norm_num) (by decide)
      (by exact_mod_cast hpow) (by decide)
  · rw [show (1000000 : ℚ) * 1000 = ((1000000000 : Int) : ℚ) by norm_num,
      fl64_intCast _ (by decide), truncToInt_intCast]


theorem exactMath_maxK_four : expBackoffMaxK exactMath 1000 4000 2 = some 2 := by
  have hr : float64Of ((4000 : ℚ) / 1000) = some ((2 : ℚ) ^ (2 : Int)) := by
    rw [show (4000 : ℚ) / 1000 = ((4 : Int) : ℚ) by norm_num,
      show (2 : ℚ) ^ (2 : Int) = ((4 : Int) : ℚ) by norm_num]
    exact float64Of_intCast 4 (by decide)
  have h2 : exactMath.Log2 2 = 1 := by simpa using exactMath_Log2_zpow 1
  unfold expBackoffMaxK
  rw [if_neg (by norm_num)]
  simp only [hr, Option.bind_eq_bind, Option.some_bind]
  rw [if_neg (by norm_num), h2, if_neg (by norm_num), exactMath_Log2_zpow]
  simpa using float64Of_intCast 2 (by norm_num)

theorem expBackoffDelay_clamped_witness :
    expBackoffMaxK exactMath 1000 4000 2 = some 2 ∧
    expBackoffDelay exactMath 1000 4000 2 0 3 = some 1000000000 ∧
    expBackoffDelay exactMath 1000 4000 2 3 3 = some 1000000000 ∧
    (∃ d1 d2 : Int, expBackoffDelay exactMath 1000 4000 2 4 3 = some d1 ∧
      expBackoffDelay exactMath 1000 4000 2 5 3 = some d2 ∧ d1 ≤ d2) ∧
    (∃ d : Int, expBackoffDelay exactMath 1000 4000 2 4 3 = some d ∧ d ≤ 4000000000) ∧
    expBackoffDelay exactMath 1000 4000 2 5 3 = some 4000000000 ∧
    expBackoffDelay exactMath 1000 4000 2 9 3 = some 4000000000 := by
  have hA : fl64 (1000000 * 1000) = 1000000000 := by
    rw [show (1000000 : ℚ) * 1000 = ((1000000000 : Int) : ℚ) by norm_num,
      fl64_intCast _ (by decide)]
    norm_num
  have hP : exactMath.Pow 2 2 = 4 := by
    have := exactMath_Pow_intCast 2 2
    simp only [Int.cast_ofNat] at this
    rw [this]
    norm_num
  have hM : fl64 (1000000 * 4000) = 4000000000 := by
    rw [show (1000000 : ℚ) * 4000 = ((4000000000 : Int) : ℚ) by norm_num,
      fl64_intCast _ (by decide)]
    norm_num
  have hT1 : truncToInt (1000000000 : ℚ) = 1000000000 := by
    simpa using truncToInt_intCast 1000000000
  have hT4 : truncToInt (4000000000 : ℚ) = 4000000000 := by
    simpa using truncToInt_intCast 4000000000
  have hprod : fl64 (1000000 * 1000) * exactMath.Pow 2 2 = 1000000 * 4000 := by
    rw [hA, hP]
    norm_num
  have hS : fl64 (fl64 (1000000 * 1000) * exactMath.Pow 2 2) = 4000000000 := by
    rw [hprod, hM]
  obtain ⟨hlow, hmono, hcap, hsat, hmax⟩ :=
    expBackoffDelay_clamped exactMath 1000 4000 2 2 3 exactMath_maxK_four (by norm_num)
      (by norm_num) (by simpa using exactMath_Pow_intCast 2 0)
      (fun y1 y2 _ h => exactMath_Pow_mono y1 y2 h) (by rw [hS]; norm_num)
  rw [hA, hT1] at hlow
  rw [hS, hT4] at hcap hsat
  refine ⟨exactMath_maxK_four, hlow 0 (by decide) (by decide), hlow 3 (by decide) (by decide),
    hmono 4 5 (by decide) (by decide) (by decide), hcap 4 (by decide) (by decide), ?_,
    hsat 9 (by decide) (by norm_num)⟩
  have := hmax hprod 5 (by decide) (by norm_num)
  rw [hM, hT4] at this
  exact this

end Coopcast
